import Mathlib

/-!
Verification development for the bincom election-results repository
(`data.py`): a shallow embedding of the dump-text parser, the DataFrame
pipeline that assembles the per-polling-unit results table, the state-name
mapping resolver, the query helpers and the mutation path, together with
theorems settling the specification claims.

Conventions of the embedding:
* Python scalars are `Val`: `null` stands for both `None` and pandas `NaN`
  (the pipeline under study treats them interchangeably through
  `fillna`/`dropna`); `intV` is `int`; `decV` keeps the matched decimal
  token exactly (the source stores `float(token)`; the model is exact for
  tokens within double precision, which covers every claim here);
  `strV` is `str`.
* A pandas `DataFrame` is a rectangular `DF` (column labels plus rows of
  `Val`); a parsed row (Python `dict`) is an association list `Row`.
* Fallible Python code (exceptions) is modelled with `Except Err` /
  `Option`.
-/

namespace Bincom

/-- Scalar values flowing through the pipeline. -/
inductive Val where
  | null : Val
  | intV (n : Int) : Val
  | decV (s : String) : Val
  | strV (s : String) : Val
deriving DecidableEq, Repr

/-- A parsed row: Python dict from column name to value. -/
abbrev Row := List (String × Val)

/-- Python dict lookup `d.get(k)`. -/
def dictGet (r : Row) (k : String) : Option Val :=
  (r.find? (fun p => p.1 = k)).map (fun p => p.2)

/-- Python dict insertion: overwrites the value of an existing key in
place, otherwise appends the key at the end (insertion order kept). -/
def dictInsert (r : Row) (k : String) (v : Val) : Row :=
  if r.any (fun p => p.1 = k) then
    r.map (fun p => if p.1 = k then (k, v) else p)
  else r ++ [(k, v)]

/-- Python `dict(zip(cols, vals))` (for equal-length lists; on unequal
lengths `zip` truncates, as in Python). -/
def dictOfZip : List String → List Val → Row
  | [], _ => []
  | _, [] => []
  | c :: cs, v :: vs => dictInsert (dictOfZip cs vs) c v

/-! Python `dict(zip(..))` processes pairs left to right; with duplicate
keys the LAST value wins while the key keeps its first position.  The
recursion above builds the tail dict first and then inserts the head,
which would make the FIRST value win, so we instead fold forwards. -/

/-- Python `dict(zip(cols, vals))`, left-to-right insertion. -/
def dictZip (cols : List String) (vals : List Val) : Row :=
  (cols.zip vals).foldl (fun r p => dictInsert r p.1 p.2) []

/-! ### The csv splitter

`_parse_insert_blocks` splits each value tuple with
`csv.reader([tup], delimiter=',', quotechar="'", skipinitialspace=True)`.
This is CPython's csv state machine with `doublequote=True`,
`escapechar=None`, `strict=False`.  We reproduce that machine exactly for
single-record input.  CPython raises `_csv.Error` when a newline
character occurs anywhere but at the very end of the fed string; we
return `none` there. -/

inductive CsvSt where
  | startField : CsvSt
  | inField : CsvSt
  | inQuoted : CsvSt
  | quoteInQuoted : CsvSt
deriving DecidableEq

/-- Is this character a record terminator for the csv reader? -/
def isNl (c : Char) : Bool := c = '\n' ∨ c = '\r'

/-- The csv reader accepts trailing newline characters as the line
terminator; a newline followed by anything else is an error. -/
def nlTail (cs : List Char) : Bool := cs.all isNl

/-- One run of CPython's csv parser (dialect: delimiter `,`, quotechar
`'`, doublequote, no escapechar, skipinitialspace, non-strict) over the
remaining input, current state, accumulated field and accumulated record.
Returns `none` on the "new-line character seen in unquoted field"
error. -/
def csvRun : List Char → CsvSt → List Char → List String → Option (List String)
  | [], _, fld, acc => some (acc ++ [String.mk fld])
  | c :: cs, .startField, fld, acc =>
    if c = ',' then csvRun cs .startField [] (acc ++ [String.mk fld])
    else if c = '\x27' then csvRun cs .inQuoted fld acc
    else if c = ' ' then csvRun cs .startField fld acc
    else if isNl c then
      if nlTail cs then some (acc ++ [String.mk fld]) else none
    else csvRun cs .inField (fld ++ [c]) acc
  | c :: cs, .inField, fld, acc =>
    if c = ',' then csvRun cs .startField [] (acc ++ [String.mk fld])
    else if isNl c then
      if nlTail cs then some (acc ++ [String.mk fld]) else none
    else csvRun cs .inField (fld ++ [c]) acc
  | c :: cs, .inQuoted, fld, acc =>
    if c = '\x27' then csvRun cs .quoteInQuoted fld acc
    else csvRun cs .inQuoted (fld ++ [c]) acc
  | c :: cs, .quoteInQuoted, fld, acc =>
    if c = '\x27' then csvRun cs .inQuoted (fld ++ ['\x27']) acc
    else if c = ',' then csvRun cs .startField [] (acc ++ [String.mk fld])
    else if isNl c then
      if nlTail cs then some (acc ++ [String.mk fld]) else none
    else csvRun cs .inField (fld ++ [c]) acc

/-- `next(csv.reader([s], delimiter=',', quotechar="'",
skipinitialspace=True))`.  An empty or newline-only line yields the empty
record. -/
def csvSplit (s : String) : Option (List String) :=
  match s.toList with
  | [] => some []
  | c :: cs =>
    if isNl c then
      if nlTail cs then some [] else none
    else csvRun (c :: cs) .startField [] []

/-! ### Value coercion (`_convert_sql_value`) -/

/-- Python `token.strip()`: strip whitespace from both ends. -/
def pyStrip (s : String) : String :=
  String.mk (((s.toList.dropWhile Char.isWhitespace).reverse.dropWhile
    Char.isWhitespace).reverse)

/-- Python `token.upper()` (ASCII; dump tokens compared here are
ASCII). -/
def pyUpper (s : String) : String := String.mk (s.toList.map Char.toUpper)

/-- Does the character list match the regex `\d`? (ASCII digits; the
dump text is ASCII). -/
def isDigitCh (c : Char) : Bool := c.isDigit

/-- `re.fullmatch(r"-?\d+", s)`. -/
def intTok (s : List Char) : Bool :=
  match s with
  | '-' :: rest => !rest.isEmpty && rest.all isDigitCh
  | _ => !s.isEmpty && s.all isDigitCh

/-- `re.fullmatch(r"-?\d+\.\d+", s)`. -/
def decTok (s : List Char) : Bool :=
  let core := fun (l : List Char) =>
    let ds := l.takeWhile isDigitCh
    let rest := l.dropWhile isDigitCh
    !ds.isEmpty &&
      match rest with
      | '.' :: frac => !frac.isEmpty && frac.all isDigitCh
      | _ => false
  match s with
  | '-' :: rest => core rest
  | _ => core s

/-- Digits to a natural number. -/
def digitsToNat (s : List Char) : Nat :=
  s.foldl (fun acc c => acc * 10 + (c.toNat - 48)) 0

/-- Python `int(s)` for a token matching `-?\d+` (leading zeros are
accepted and ignored, exactly as in Python). -/
def parseIntTok (s : List Char) : Int :=
  match s with
  | '-' :: rest => -(digitsToNat rest : Int)
  | _ => (digitsToNat s : Int)

/-- Python `int(float(s))` for a token matching `-?\d+\.\d+`: truncation
towards zero, i.e. the integer part with its sign.  (Exact for tokens
within double precision; all claims stay in that range.) -/
def truncDecTok (s : List Char) : Int :=
  match s with
  | '-' :: rest => -(digitsToNat (rest.takeWhile isDigitCh) : Int)
  | _ => (digitsToNat (s.takeWhile isDigitCh) : Int)

/-- `_convert_sql_value`: strip, then NULL/empty to `None`, then the
integer pattern, then the decimal pattern, else the (stripped) string
itself. -/
def convertSqlValue (token : String) : Val :=
  let t := pyStrip token
  if pyUpper t = "NULL" ∨ t = "" then .null
  else if intTok t.toList then .intV (parseIntTok t.toList)
  else if decTok t.toList then .decV t
  else .strV t

/-! ### The insert-block scanner (`_parse_insert_blocks`)

The source compiles
`INSERT INTO \x60table\x60\s*\(([^)]+)\)\s*VALUES\s*(.*?);` with
`IGNORECASE | DOTALL` and iterates non-overlapping matches; value tuples
are then collected with `re.findall(r"\(([^)]*)\)", values_raw)`.  The
scanner below implements exactly these two patterns. -/

/-- Case-insensitive character equality (`re.IGNORECASE`). -/
def lcEq (a b : Char) : Bool := a.toLower = b.toLower

/-- Strip a case-insensitive literal prefix, returning the rest. -/
def stripPrefixCI : List Char → List Char → Option (List Char)
  | [], s => some s
  | _ :: _, [] => none
  | n :: ns, c :: cs => if lcEq n c then stripPrefixCI ns cs else none

/-- `\s*`: drop leading whitespace. -/
def dropWs (s : List Char) : List Char := s.dropWhile Char.isWhitespace

/-- Split at the first occurrence of `ch`: content before it and the rest
after it (`none` when `ch` does not occur). -/
def splitAtCh (ch : Char) : List Char → Option (List Char × List Char)
  | [] => none
  | c :: cs =>
    if c = ch then some ([], cs)
    else (splitAtCh ch cs).map (fun p => (c :: p.1, p.2))

/-- Try to match the block pattern anchored at the start of `s`; on
success return the raw column list, the raw values section (the lazy
`(.*?);` capture) and the remaining input after the `;`. -/
def matchInsertAt (tbl : List Char) (s : List Char) :
    Option (List Char × List Char × List Char) := do
  let s1 ← stripPrefixCI ("INSERT INTO \x60".toList ++ tbl ++ ['\x60']) s
  let s3 ← match dropWs s1 with
    | '(' :: r => some r
    | _ => none
  let (colsRaw, s4) ← splitAtCh ')' s3
  if colsRaw.isEmpty then none
  else do
    let s6 ← stripPrefixCI "VALUES".toList (dropWs s4)
    let p ← splitAtCh ';' (dropWs s6)
    pure (colsRaw, p.1, p.2)

/-- `finditer` over the block pattern: scan left to right, at each
position try a match; on success continue after the match, on failure
advance one character.  `fuel` bounds the recursion; with
`fuel = s.length` the behaviour is exact because each step consumes at
least one character. -/
def scanBlocksF (tbl : List Char) : Nat → List Char → List (List Char × List Char)
  | 0, _ => []
  | _ + 1, [] => []
  | fuel + 1, c :: cs =>
    match matchInsertAt tbl (c :: cs) with
    | some (cr, vr, rest) => (cr, vr) :: scanBlocksF tbl fuel rest
    | none => scanBlocksF tbl fuel cs

def scanBlocks (tbl : List Char) (s : List Char) : List (List Char × List Char) :=
  scanBlocksF tbl s.length s

/-- `re.findall(r"\(([^)]*)\)", values_raw)`: every parenthesized group,
scanning left to right; a `(` with no later `)` ends the scan. -/
def findTuplesF : Nat → List Char → List (List Char)
  | 0, _ => []
  | _ + 1, [] => []
  | fuel + 1, c :: cs =>
    if c = '(' then
      match splitAtCh ')' cs with
      | some (tup, rest) => tup :: findTuplesF fuel rest
      | none => []
    else findTuplesF fuel cs

def findTuples (s : List Char) : List (List Char) := findTuplesF s.length s

/-- Strip characters satisfying `p` from both ends (Python
`str.strip`). -/
def stripBoth (p : Char → Bool) (s : List Char) : List Char :=
  ((s.dropWhile p).reverse.dropWhile p).reverse

theorem splitAtCh_rest_lt (ch : Char) :
    ∀ (s seg rest : List Char), splitAtCh ch s = some (seg, rest) →
      rest.length < s.length := by
  intro s
  induction s with
  | nil => intro seg rest h; simp [splitAtCh] at h
  | cons c cs ih =>
    intro seg rest h
    simp only [splitAtCh] at h
    split at h
    · cases h; simp
    · cases hrec : splitAtCh ch cs with
      | none => rw [hrec] at h; simp at h
      | some p =>
        rw [hrec] at h
        simp at h
        have := ih p.1 p.2 (by cases p; simpa using hrec)
        have hr : rest = p.2 := by
          rcases h with ⟨h1, h2⟩
          exact h2.symm
        subst hr
        simp
        omega

/-- Python `str.split(',')` (keeps empty segments). -/
def splitOnComma : List Char → List (List Char)
  | [] => [[]]
  | c :: cs =>
    if c = ',' then [] :: splitOnComma cs
    else
      match splitOnComma cs with
      | [] => [[c]]
      | seg :: rest => (c :: seg) :: rest

/-- `[c.strip().strip('\x60') for c in cols_raw.split(',')]`. -/
def splitCols (colsRaw : List Char) : List String :=
  (splitOnComma colsRaw).map
    (fun seg => String.mk (stripBoth (fun c => c = '\x60') (stripBoth Char.isWhitespace seg)))

/-- The pad/truncate recovery policy plus `dict(zip(cols, parsed))` from
the tuple loop of `_parse_insert_blocks`. -/
def rowFromTuple (cols : List String) (parsed : List Val) : Row :=
  let adjusted :=
    if parsed.length ≠ cols.length then
      if parsed.length < cols.length then
        parsed ++ List.replicate (cols.length - parsed.length) Val.null
      else parsed.take cols.length
    else parsed
  dictZip cols adjusted

/-- All rows of one statement block. -/
def parseBlockRows (cols : List String) (valsRaw : List Char) : Option (List Row) :=
  (findTuples valsRaw).mapM
    (fun tup => (csvSplit (String.mk tup)).map
      (fun toks => rowFromTuple cols (toks.map convertSqlValue)))

/-- `_parse_insert_blocks(sql_text, table)`: the full extractor.  `none`
models the csv error escaping the call (a newline inside an unquoted
field of some tuple); every claim's inputs are newline-free. -/
def parseInsertBlocks (sqlText table : String) : Option (List Row) :=
  ((scanBlocks table.toList sqlText.toList).mapM
      (fun b => parseBlockRows (splitCols b.1) b.2)).map
    (fun rss => rss.foldr (fun a b => a ++ b) [])

/-! ### The DataFrame model

pandas DataFrames are rectangular: `pd.DataFrame(list_of_dicts)` takes the
union of the keys in order of first appearance and fills missing cells
with `NaN` (here `Val.null`). -/

structure DF where
  cols : List String
  rows : List (List Val)
deriving DecidableEq, Repr

/-- Every row has one cell per column. -/
def DF.WF (df : DF) : Prop := ∀ r ∈ df.rows, r.length = df.cols.length

/-- Keep the first occurrence of each element (order preserved),
carrying the set of already-seen elements (structural recursion, so
concrete pipelines evaluate in the kernel). -/
def dedupKeepFirstAux {α} [DecidableEq α] (seen : List α) : List α → List α
  | [] => []
  | a :: l =>
    if a ∈ seen then dedupKeepFirstAux seen l
    else a :: dedupKeepFirstAux (a :: seen) l

/-- Keep the first occurrence of each element (pandas
`drop_duplicates`, pandas `unique`). -/
def dedupKeepFirst {α} [DecidableEq α] (l : List α) : List α :=
  dedupKeepFirstAux [] l

/-- Cell of a row under a column labelling: the value at the first index
carrying label `c`, `null` when the label is absent or the row is too
short. -/
def cellAt : List String → List Val → String → Val
  | [], _, _ => .null
  | _ :: _, [], _ => .null
  | a :: cols, v :: row, c => if a = c then v else cellAt cols row c

/-- Overwrite the value at the first index carrying label `c` (identity
when the label is absent or the row is too short): `row.set i v` for `i`
the first index of the label, as pandas column assignment does. -/
def setFirst : List String → List Val → String → Val → List Val
  | [], row, _, _ => row
  | _ :: _, [], _, _ => []
  | a :: cols, x :: row, c, v =>
    if a = c then v :: row else x :: setFirst cols row c v

/-- Dict cell with `NaN` for a missing key. -/
def rowCell (r : Row) (k : String) : Val := (dictGet r k).getD .null

/-- `pd.DataFrame(rows)` for a list of dict rows (`pd.DataFrame()` when
the list is empty). -/
def dfOfRows (rs : List Row) : DF :=
  let cols := dedupKeepFirst (rs.foldr (fun r acc => r.map Prod.fst ++ acc) [])
  ⟨cols, rs.map (fun r => cols.map (fun c => rowCell r c))⟩

/-- Error taxonomy of the modelled Python exceptions.  `missingData` is
the spec's `MissingDataError`: the two `ValueError`s raised by
`build_polling_unit_results_df` for an empty mandatory table.  The other
constructors model the pandas/`int()` exceptions that can escape
(`KeyError`, `ValueError`, `_csv.Error`). -/
inductive Err where
  | missingData (tbl : String) : Err
  | keyError (c : String) : Err
  | valueError (s : String) : Err
  | csvError : Err
deriving DecidableEq, Repr

def DF.hasCol (df : DF) (c : String) : Bool := df.cols.contains c

/-- `df[[c1, .., cn]]`: column projection, `KeyError` when a requested
column is absent. -/
def DF.select (df : DF) (cs : List String) : Except Err DF :=
  if cs.all (fun c => df.cols.contains c) then
    .ok ⟨cs, df.rows.map (fun r => cs.map (fun c => cellAt df.cols r c))⟩
  else .error (.keyError "column not found")

/-- `df.rename(columns={a: b})`. -/
def DF.renameCol (df : DF) (a b : String) : DF :=
  ⟨df.cols.map (fun c => if c = a then b else c), df.rows⟩

/-- Boolean row filtering `df[mask]`. -/
def DF.filterRows (df : DF) (p : List Val → Bool) : DF :=
  ⟨df.cols, df.rows.filter p⟩

/-- The per-row application of `df[c].apply(f)`: transform the cell at
the first index labelled `c` of each row. -/
def mapColRows (cols : List String) (c : String) (f : Val → Except Err Val)
    (rows : List (List Val)) : Except Err (List (List Val)) :=
  rows.mapM (fun r => do
    let v ← f (cellAt cols r c)
    pure (setFirst cols r c v))

/-- `df[c] = df[c].apply(f)` for a fallible `f`; `KeyError` when the
column is absent. -/
def DF.mapColE (df : DF) (c : String) (f : Val → Except Err Val) : Except Err DF :=
  if df.cols.contains c = false then .error (.keyError c)
  else do
    let rows ← mapColRows df.cols c f df.rows
    pure ⟨df.cols, rows⟩

/-- `df[c] = vs`: overwrite an existing column in place or append a new
one at the end. -/
def DF.setCol (df : DF) (c : String) (vs : List Val) : DF :=
  if df.cols.contains c then
    ⟨df.cols, (df.rows.zip vs).map (fun p => setFirst df.cols p.1 c p.2)⟩
  else ⟨df.cols ++ [c], (df.rows.zip vs).map (fun p => p.1 ++ [p.2])⟩

/-- pandas scalar equality as used by `==` masks and merge keys:
`NaN`/`None` equals nothing (including itself).  Cross-kind numeric
equality (`7 == 7.0`) is not modelled — every claim compares integer
keys with integer keys. -/
def valEqPd : Val → Val → Bool
  | .intV a, .intV b => a = b
  | .strV a, .strV b => a = b
  | .decV a, .decV b => a = b
  | _, _ => false

def concatAll {α} (l : List (List α)) : List α :=
  l.foldr (fun a b => a ++ b) []

/-- `l.merge(r, on=k, how='left')`: left rows in order; each left row is
paired with every matching right row (right order), or with nulls when
nothing matches; the key column appears once, right columns follow left
columns.  Overlapping non-key labels (which pandas would suffix with
`_x`/`_y`) do not occur in the pipeline under the claims' hypotheses. -/
def mergeLeft (l r : DF) (k : String) : DF :=
  let rcols := r.cols.filter (fun c => c ≠ k)
  ⟨l.cols ++ rcols,
   concatAll (l.rows.map (fun lr =>
     let key := cellAt l.cols lr k
     match r.rows.filter (fun rr => valEqPd key (cellAt r.cols rr k)) with
     | [] => [lr ++ rcols.map (fun _ => Val.null)]
     | ms => ms.map (fun rr => lr ++ rcols.map (fun c => cellAt r.cols rr c))))⟩

/-! ### Sorting (Python `sorted`, pandas `sort_values`) -/

/-- Stable ascending sort.  Python `sorted` is stable; pandas
`sort_values` is not stability-guaranteed, but all keys sorted by the
pipeline under the claims are distinct, where every comparison sort
agrees. -/
def insSort {α} (le : α → α → Bool) (l : List α) : List α :=
  List.insertionSort (fun a b => le a b = true) l

/-- Code-point lexicographic comparison of character lists — Python's
string `<=` (and Lean's: both compare code points). -/
def listLe : List Char → List Char → Bool
  | [], _ => true
  | _ :: _, [] => false
  | a :: as, b :: bs =>
    if a.toNat = b.toNat then listLe as bs
    else decide (a.toNat < b.toNat)

def strLe (a b : String) : Bool := listLe a.toList b.toList

def intLe (a b : Int) : Bool := decide (a ≤ b)

/-! ### The pivot (`pivot_table(index=.., columns=.., values=..,
aggfunc='sum', fill_value=0).reset_index()`) -/

/-- Contribution of one cell to a group sum: `sum` skips `NaN`; scores
that are not integers fall outside every claim's hypotheses. -/
def scoreInt : Val → Int
  | .intV n => n
  | _ => 0

/-- The pivot index: distinct non-null polling-unit ids (rows whose
index or column label is null are dropped by `pivot_table`), sorted
ascending.  Ids are integers after the upstream `int` coercion. -/
def pivotIds (df : DF) (idx colc : String) : List Int :=
  insSort intLe (dedupKeepFirst (df.rows.filterMap (fun r =>
    match cellAt df.cols r idx with
    | .intV n => if cellAt df.cols r colc = .null then none else some n
    | _ => none)))

/-- The pivot columns: distinct non-null party abbreviations (from rows
with a non-null index label), sorted lexicographically. -/
def pivotParties (df : DF) (idx colc : String) : List String :=
  insSort strLe (dedupKeepFirst (df.rows.filterMap (fun r =>
    match cellAt df.cols r colc with
    | .strV p => if cellAt df.cols r idx = .null then none else some p
    | _ => none)))

/-- The aggregated cell: sum of the scores of all rows of the tally with
this id and this party (`0` for an empty group, matching both the empty
`sum` and `fill_value=0`). -/
def tallySum (df : DF) (idx colc valc : String) (n : Int) (p : String) : Int :=
  ((df.rows.filter (fun r =>
      cellAt df.cols r idx == Val.intV n && cellAt df.cols r colc == Val.strV p)).map
    (fun r => scoreInt (cellAt df.cols r valc))).foldr (fun a b => a + b) 0

def pivotTable (df : DF) (idx colc valc : String) : DF :=
  let ps := pivotParties df idx colc
  ⟨idx :: ps,
   (pivotIds df idx colc).map (fun n =>
     Val.intV n :: ps.map (fun p => Val.intV (tallySum df idx colc valc n p)))⟩

/-! ### Scalar coercions used by the pipeline -/

/-- `Series.fillna(0)` on one cell. -/
def fillna0 (v : Val) : Val := if v = .null then .intV 0 else v

/-- `Series.astype(int)` on one cell of an object column: `int(x)`.
Fails on non-numeric strings and on `NaN` (pandas cannot convert NaN to
integer; the pipeline always fills first). -/
def astypeIntE : Val → Except Err Val
  | .null => .error (.valueError "NaN")
  | .intV n => .ok (.intV n)
  | .decV s => .ok (.intV (truncDecTok s.toList))
  | .strV s =>
    if intTok (pyStrip s).toList then .ok (.intV (parseIntTok (pyStrip s).toList))
    else .error (.valueError s)

/-- `lambda v: int(v) if v is not None else None`. -/
def pyIntCoerce : Val → Except Err Val
  | .null => .ok .null
  | .intV n => .ok (.intV n)
  | .decV s => .ok (.intV (truncDecTok s.toList))
  | .strV s =>
    if intTok (pyStrip s).toList then .ok (.intV (parseIntTok (pyStrip s).toList))
    else .error (.valueError s)

/-- `int(v)` where a failure raises. -/
def pyIntStrict : Val → Except Err Int
  | .null => .error (.valueError "None")
  | .intV n => .ok n
  | .decV s => .ok (truncDecTok s.toList)
  | .strV s =>
    if intTok (pyStrip s).toList then .ok (parseIntTok (pyStrip s).toList)
    else .error (.valueError s)

/-- `fillna(0).astype(int)` on one cell. -/
def coerceParty (v : Val) : Except Err Val := astypeIntE (fillna0 v)

/-- The per-party-column loop `final_df[c] = final_df[c].fillna(0).astype(int)`. -/
def coercePartyCols (d : DF) (cs : List String) : Except Err DF :=
  cs.foldlM (fun d c => d.mapColE c coerceParty) d

/-! ### The state mapping (`_load_state_mapping`) -/

/-- Integer-keyed mapping as an association list with unique keys;
`assocUpd` is Python dict assignment (overwrite in place or append). -/
def assocGet (m : List (Int × String)) (k : Int) : Option String :=
  (m.find? (fun p => p.1 = k)).map (fun p => p.2)

def assocUpd (m : List (Int × String)) (k : Int) (v : String) : List (Int × String) :=
  if m.any (fun p => p.1 = k) then m.map (fun p => if p.1 = k then (k, v) else p)
  else m ++ [(k, v)]

/-- `Series.map(mapping)` on one cell: missing keys (and non-integer
labels) become `NaN`. -/
def mapLookupVal (m : List (Int × String)) : Val → Val
  | .intV n =>
    match assocGet m n with
    | some s => .strV s
    | none => .null
  | _ => .null

/-- Python `"id" in c.lower()`: substring test. -/
def containsSub (s p : String) : Bool := (s.splitOn p).length ≠ 1

/-- The heuristic column scan of the state table: the LAST column whose
lowercase name contains "id", and the last containing "name". -/
def stateHeurCols (cols : List String) : Option String × Option String :=
  cols.foldl (fun acc c =>
    (if containsSub c.toLower "id" then some c else acc.1,
     if containsSub c.toLower "name" then some c else acc.2)) (none, none)

/-- Display of a mapping value that is not a string (model boundary: the
source keeps the raw Python object; no claim exercises it). -/
def valNameStr : Val → String
  | .strV s => s
  | .intV n => toString n
  | .decV s => s
  | .null => "None"

/-- The CSV path of the resolver: fires only when both columns are
present. -/
def stateMapPath2 (df : DF) : Option (Except Err (List (Int × String))) :=
  if df.hasCol "state_id" && df.hasCol "state_name" then
    some ((df.rows.mapM (fun r => do
        let n ← pyIntStrict (cellAt df.cols r "state_id")
        pure (n, valNameStr (cellAt df.cols r "state_name")))).map
      (fun (ps : List (Int × String)) => ps.foldl (fun m (p : Int × String) => assocUpd m p.1 p.2) []))
  else none

/-- The state-table path: fires only when the table is non-empty and the
heuristic finds both an id column and a name column. -/
def stateMapPath3 (state : DF) : Option (Except Err (List (Int × String))) :=
  if state.rows.isEmpty then none
  else
    match stateHeurCols state.cols with
    | (some idc, some namec) =>
      some ((state.rows.mapM (fun r => do
          let n ← pyIntStrict (cellAt state.cols r idc)
          pure (n, valNameStr (cellAt state.cols r namec)))).map
        (fun (ps : List (Int × String)) => ps.foldl (fun m (p : Int × String) => assocUpd m p.1 p.2) []))
    | _ => none

/-- The lga-derived base of the fallback path: placeholder names
`State <id>` from the distinct non-null `state_id` values of the `lga`
table (an empty mapping when the table is empty or lacks the column). -/
def stateMapPath4Base (lga : DF) : Except Err (List (Int × String)) :=
  if !lga.rows.isEmpty && lga.hasCol "state_id" then do
    let vals := lga.rows.filterMap (fun r =>
      let v := cellAt lga.cols r "state_id"
      if v = .null then none else some v)
    let ids ← vals.mapM pyIntStrict
    pure ((insSort intLe (dedupKeepFirst ids)).foldl
      (fun m i => assocUpd m i ("State " ++ toString i)) [])
  else pure ([] : List (Int × String))

/-- The fallback path: the lga-derived base, then the unconditional
override `mapping[25] = 'Delta State'` of this path. -/
def stateMapPath4 (lga : DF) : Except Err (List (Int × String)) := do
  let base ← stateMapPath4Base lga
  pure (assocUpd base 25 "Delta State")

/-- `_parse_insert_blocks` materialized as a DataFrame (an empty
DataFrame when no statement matches). -/
def getTableE (sqlText table : String) : Except Err DF :=
  match parseInsertBlocks sqlText table with
  | some rows => .ok (dfOfRows rows)
  | none => .error .csvError

def loadStateMappingTables (sqlText : String) : Except Err (List (Int × String)) := do
  let st ← getTableE sqlText "state"
  match stateMapPath3 st with
  | some res => res
  | none => do
    let lga ← getTableE sqlText "lga"
    stateMapPath4 lga

def loadStateMappingTail (sqlText : String) (csvOpt : Option DF) :
    Except Err (List (Int × String)) :=
  match csvOpt with
  | some df =>
    match stateMapPath2 df with
    | some res => res
    | none => loadStateMappingTables sqlText
  | none => loadStateMappingTables sqlText

/-- `_load_state_mapping(sql_path, mapping_csv, mapping_dict)`.
`csvOpt` stands for the parsed CSV DataFrame when a csv path was given;
`dictOpt` for the caller dict, keys already coerced with `int`.  An
empty dict is falsy in Python, so it falls through like `None`. -/
def loadStateMapping (sqlText : String) (csvOpt : Option DF)
    (dictOpt : Option (List (Int × String))) : Except Err (List (Int × String)) :=
  match dictOpt with
  | some d => if !d.isEmpty then .ok d else loadStateMappingTail sqlText csvOpt
  | none => loadStateMappingTail sqlText csvOpt

/-! ### The result assembler (`build_polling_unit_results_df`) -/

/-- The fixed identity/hierarchy column order of the final table (also
the non-party column list of `add_polling_unit_to_df`). -/
def knownCols : List String :=
  ["polling_unit_uniqueid", "polling_unit_name", "polling_unit_number",
   "ward_id", "lga_id", "ward_name", "lga_name", "state_id", "state_name"]

/-- Lines 158-159: merge ward names when the ward table is usable
(pandas raises `KeyError` when the left side lacks the key). -/
def mergeWardStage (ward m1 : DF) : Except Err DF :=
  if !ward.rows.isEmpty && ward.hasCol "ward_id" && ward.hasCol "ward_name" then do
    let w ← ward.select ["ward_id", "ward_name"]
    if m1.hasCol "ward_id" then pure (mergeLeft m1 w "ward_id")
    else .error (.keyError "ward_id")
  else pure m1

/-- Lines 160-161: merge lga names and state id when the lga table is
usable; the selection itself needs `state_id` even though the guard does
not check it. -/
def mergeLgaStage (lga m2 : DF) : Except Err DF :=
  if !lga.rows.isEmpty && lga.hasCol "lga_id" && lga.hasCol "lga_name" then do
    let g ← lga.select ["lga_id", "lga_name", "state_id"]
    if m2.hasCol "lga_id" then pure (mergeLeft m2 g "lga_id")
    else .error (.keyError "lga_id")
  else pure m2

/-- Line 166: attach `state_name` through the mapping when `state_id`
exists, else a column of `None`. -/
def stateNameStage (mapping : List (Int × String)) (m3 : DF) : DF :=
  if m3.hasCol "state_id" then
    m3.setCol "state_name"
      (m3.rows.map (fun r => mapLookupVal mapping (cellAt m3.cols r "state_id")))
  else m3.setCol "state_name" (m3.rows.map (fun _ => Val.null))

/-- Lines 168-176: final column selection (known columns first, party
columns sorted lexicographically) and the per-party
`fillna(0).astype(int)`. -/
def finalizeStage (pp m4 : DF) : Except Err DF :=
  let partyCols := (pp.cols.filter (fun c => c ≠ "polling_unit_uniqueid")).filter
    (fun c => m4.hasCol c)
  let finalCols := (knownCols.filter (fun c => m4.hasCol c)) ++ insSort strLe partyCols
  do
    let final ← m4.select finalCols
    coercePartyCols final partyCols

/-- Lines 126-178 of the source, from the emptiness checks to the final
coercion, over already-extracted tables.  The `announced.rename(...)` of
the source maps every column name to itself and is omitted.  `Except`
constructors other than `missingData` model the pandas exceptions
(`KeyError` on a missing merge/pivot column, `ValueError` from `int`). -/
def buildFromTables (pu ward lga announced : DF) (mapping : List (Int × String)) :
    Except Err DF :=
  if pu.rows.isEmpty then .error (.missingData "polling_unit")
  else if announced.rows.isEmpty then .error (.missingData "announced_pu_results")
  else do
    let ann ← announced.mapColE "polling_unit_uniqueid" pyIntCoerce
    if !(ann.hasCol "party_abbreviation" && ann.hasCol "party_score") then
      .error (.keyError "pivot column")
    else do
      let pp := pivotTable ann "polling_unit_uniqueid" "party_abbreviation" "party_score"
      let pu2 := pu.renameCol "uniqueid" "polling_unit_uniqueid"
      if !pu2.hasCol "polling_unit_uniqueid" then .error (.keyError "polling_unit_uniqueid")
      else do
        let m1 := mergeLeft pu2 pp "polling_unit_uniqueid"
        let m2 ← mergeWardStage ward m1
        let m3 ← mergeLgaStage lga m2
        finalizeStage pp (stateNameStage mapping m3)

/-- `build_polling_unit_results_df(sql_path, state_mapping)`.  The
source resolves a missing mapping between the merges; everything is
pure, so resolving it up front is observationally equal except for which
of two exceptions escapes first on doubly-broken input — no claim
depends on that priority. -/
def buildPollingUnitResultsDf (sqlText : String)
    (mappingOpt : Option (List (Int × String))) : Except Err DF := do
  let pu ← getTableE sqlText "polling_unit"
  let ward ← getTableE sqlText "ward"
  let lga ← getTableE sqlText "lga"
  let ann ← getTableE sqlText "announced_pu_results"
  let mapping ←
    match mappingOpt with
    | some m => pure m
    | none => loadStateMapping sqlText none none
  buildFromTables pu ward lga ann mapping

/-! ### The mutation path -/

/-- The fixed column order of `append_polling_unit_to_sql`. -/
def puColOrder : List String :=
  ["uniqueid", "polling_unit_id", "ward_id", "lga_id", "uniquewardid",
   "polling_unit_number", "polling_unit_name", "polling_unit_description",
   "lat", "long", "entered_by_user", "date_entered", "user_ip_address"]

/-- `str(v).replace("'", "\\'")`: every single quote becomes
backslash-quote (the pattern is a single character, so Python's
`str.replace` is this character-level expansion). -/
def escQuotes : List Char → List Char
  | [] => []
  | c :: cs => if c = '\x27' then '\\' :: '\x27' :: escQuotes cs else c :: escQuotes cs

/-- The decimal digit character for `d < 10`. -/
def digitChar (d : Nat) : Char := Char.ofNat (48 + d)

/-- Decimal digits of `n`, most significant first; `fuel > n` makes the
recursion structural and exact. -/
def natToDigitsF : Nat → Nat → List Char
  | 0, _ => []
  | fuel + 1, n =>
    if n < 10 then [digitChar n]
    else natToDigitsF fuel (n / 10) ++ [digitChar (n % 10)]

/-- Python `str` of an integer: minimal decimal digits, `-` sign for
negatives. -/
def pyIntStr : Int → String
  | .ofNat m => String.mk (natToDigitsF (m + 1) m)
  | .negSucc m => String.mk ('-' :: natToDigitsF (m + 2) (m + 1))

/-- `_format_val`: `None` renders as the bare NULL token, numbers as
`str(int(v))`, everything else single-quoted with embedded quotes
backslash-escaped. -/
def formatVal : Val → String
  | .null => "NULL"
  | .intV n => pyIntStr n
  | .decV s => pyIntStr (truncDecTok s.toList)
  | .strV s => String.mk ('\x27' :: escQuotes s.toList ++ ['\x27'])

/-- Python `sep.join(parts)`. -/
def joinSep (sep : String) : List String → String
  | [] => ""
  | [x] => x
  | x :: y :: xs => x ++ sep ++ joinSep sep (y :: xs)

/-- `append_polling_unit_to_sql`: the exact statement text appended to
the dump store and returned (the file write itself is I/O, outside the
model). -/
def appendPollingUnitToSql (puRow : Row) : String :=
  let values := puColOrder.map (fun c => formatVal ((dictGet puRow c).getD .null))
  "INSERT INTO \x60polling_unit\x60 (\x60" ++ joinSep "\x60,\x60" puColOrder
    ++ "\x60) VALUES (" ++ joinSep ", " values ++ ");\n"

/-- `add_polling_unit_to_df`: build the new row over the existing
columns (supplied fields as given, unsupplied hierarchy columns null,
party columns 0), append it, then re-coerce every party column. -/
def addPollingUnitToDf (df : DF) (puRow : Row) : Except Err DF :=
  let newRow := df.cols.map (fun col =>
    match dictGet puRow col with
    | some v => v
    | none => if knownCols.contains col then Val.null else Val.intV 0)
  let df2 : DF := ⟨df.cols, df.rows ++ [newRow]⟩
  let partyCols := df2.cols.filter (fun c => !knownCols.contains c)
  coercePartyCols df2 partyCols

/-! ### The query layer -/

/-- Sort key of a name cell: nulls sort last (`sort_values`
`na_position='last'`); non-string non-null names fall outside the
claims' hypotheses. -/
def nameKey : Val → Option String
  | .strV s => some s
  | .null => none
  | .intV n => some (toString n)
  | .decV s => some s

def nameLe (a b : Val) : Bool :=
  match nameKey a, nameKey b with
  | some x, some y => strLe x y
  | some _, none => true
  | none, none => true
  | none, some _ => false

/-- `get_states`: the distinct-region listing, with its name fallback to
the stringified id. -/
def getStates (df : DF) : Except Err (List (Int × Val)) :=
  if !df.hasCol "state_id" && !df.hasCol "state_name" then .ok []
  else do
    let sel ← df.select ["state_id", "state_name"]
    let pairs := dedupKeepFirst (sel.rows.map (fun r => (r.getD 0 Val.null, r.getD 1 Val.null)))
    let pairs := pairs.filter (fun p => p.1 != Val.null)
    let pairs ← pairs.mapM (fun p => do
      let n ← pyIntStrict p.1
      pure (n, p.2))
    let pairs := pairs.map (fun p =>
      (p.1, if p.2 = Val.null then Val.strV (toString p.1) else p.2))
    pure (insSort (fun a b => nameLe a.2 b.2) pairs)

/-- The shared tail of `get_lgas_by_state` and `get_wards_by_lga` (the
source repeats this fragment verbatim in both): select the id/name pair
columns, `drop_duplicates`, `dropna` on the id, `astype(int)` on the id,
sort by the name — and no fillna of a null name. -/
def listingTail (base : DF) (idc namec : String) : Except Err (List (Int × Val)) := do
  let sel ← base.select [idc, namec]
  let pairs := dedupKeepFirst (sel.rows.map (fun r => (r.getD 0 Val.null, r.getD 1 Val.null)))
  let pairs := pairs.filter (fun p => p.1 != Val.null)
  let pairs ← pairs.mapM (fun p => do
    let n ← pyIntStrict p.1
    pure (n, p.2))
  pure (insSort (fun a b => nameLe a.2 b.2) pairs)

/-- `get_lgas_by_state`. -/
def getLgasByState (df : DF) (stateId : Option Int) : Except Err (List (Int × Val)) := do
  let base ←
    match stateId with
    | none => pure df
    | some s =>
      if df.hasCol "state_id" then
        pure (df.filterRows (fun r => valEqPd (cellAt df.cols r "state_id") (.intV s)))
      else .error (.keyError "state_id")
  listingTail base "lga_id" "lga_name"

/-- `get_wards_by_lga`. -/
def getWardsByLga (df : DF) (lgaId : Option Int) : Except Err (List (Int × Val)) := do
  let base ←
    match lgaId with
    | none => pure df
    | some s =>
      if df.hasCol "lga_id" then
        pure (df.filterRows (fun r => valEqPd (cellAt df.cols r "lga_id") (.intV s)))
      else .error (.keyError "lga_id")
  listingTail base "ward_id" "ward_name"

/-- The cell of the (unique-id keyed) assembled table for a given
polling unit and column; `null` on failure or when the unit is absent —
a convenience accessor for stating concrete scenarios. -/
def resultCell (res : Except Err DF) (pid : Int) (c : String) : Val :=
  match res with
  | .error _ => .null
  | .ok df =>
    match df.rows.find? (fun r => cellAt df.cols r "polling_unit_uniqueid" == Val.intV pid) with
    | some r => cellAt df.cols r c
    | none => .null

/-! ### Helper lemmas -/

theorem assocGet_map_upd (m : List (Int × String)) (k : Int) (v : String) :
    m.any (fun p => p.1 = k) = true →
    assocGet (m.map (fun p => if p.1 = k then (k, v) else p)) k = some v := by
  induction m with
  | nil => intro h; simp at h
  | cons p ps ih =>
    intro h
    by_cases hp : p.1 = k
    · simp [assocGet, hp]
    · have hps : ps.any (fun q => q.1 = k) = true := by
        simp only [List.any_cons] at h
        simpa [hp] using h
      have := ih hps
      simpa [assocGet, hp] using this

theorem assocGet_append_single (m : List (Int × String)) (k : Int) (v : String) :
    m.any (fun p => p.1 = k) = false →
    assocGet (m ++ [(k, v)]) k = some v := by
  induction m with
  | nil => intro _; simp [assocGet]
  | cons p ps ih =>
    intro h
    simp only [List.any_cons, Bool.or_eq_false_iff] at h
    have hp : (p.1 = k) = False := by
      simpa using h.1
    have := ih (by simpa using h.2)
    simpa [assocGet, hp] using this

theorem assocGet_assocUpd_self (m : List (Int × String)) (k : Int) (v : String) :
    assocGet (assocUpd m k v) k = some v := by
  unfold assocUpd
  cases h : m.any (fun p => p.1 = k) with
  | true => simpa [h] using assocGet_map_upd m k v h
  | false => simpa [h] using assocGet_append_single m k v h


/-! ### Cell and row infrastructure -/

theorem mem_dedupKeepFirstAux {α} [DecidableEq α] :
    ∀ (l seen : List α) (a : α),
      a ∈ dedupKeepFirstAux seen l ↔ a ∈ l ∧ a ∉ seen := by
  intro l
  induction l with
  | nil => intro seen a; simp [dedupKeepFirstAux]
  | cons x xs ih =>
    intro seen a
    by_cases hx : x ∈ seen
    · rw [dedupKeepFirstAux, if_pos hx, ih]
      constructor
      · rintro ⟨h1, h2⟩
        exact ⟨List.mem_cons_of_mem _ h1, h2⟩
      · rintro ⟨h1, h2⟩
        rcases List.mem_cons.mp h1 with rfl | h1
        · exact absurd hx h2
        · exact ⟨h1, h2⟩
    · rw [dedupKeepFirstAux, if_neg hx]
      simp only [List.mem_cons, ih (x :: seen)]
      constructor
      · rintro (rfl | ⟨h1, h2⟩)
        · exact ⟨Or.inl rfl, hx⟩
        · exact ⟨Or.inr h1, fun h => h2 (Or.inr h)⟩
      · rintro ⟨rfl | h1, h2⟩
        · exact Or.inl rfl
        · by_cases hax : a = x
          · exact Or.inl hax
          · exact Or.inr ⟨h1, by simp [hax, h2]⟩

theorem nodup_dedupKeepFirstAux {α} [DecidableEq α] :
    ∀ (l seen : List α), (dedupKeepFirstAux seen l).Nodup := by
  intro l
  induction l with
  | nil => intro seen; simp [dedupKeepFirstAux]
  | cons x xs ih =>
    intro seen
    by_cases hx : x ∈ seen
    · rw [dedupKeepFirstAux, if_pos hx]
      exact ih seen
    · rw [dedupKeepFirstAux, if_neg hx]
      refine List.nodup_cons.mpr ⟨?_, ih (x :: seen)⟩
      intro hmem
      have := (mem_dedupKeepFirstAux xs (x :: seen) x).mp hmem
      simp at this

theorem mem_dedupKeepFirst {α} [DecidableEq α] (l : List α) (a : α) :
    a ∈ dedupKeepFirst l ↔ a ∈ l := by
  unfold dedupKeepFirst
  rw [mem_dedupKeepFirstAux]
  simp

theorem nodup_dedupKeepFirst {α} [DecidableEq α] (l : List α) :
    (dedupKeepFirst l).Nodup := nodup_dedupKeepFirstAux l []

theorem cellAt_not_mem : ∀ (cols : List String) (row : List Val) (c : String),
    c ∉ cols → cellAt cols row c = Val.null := by
  intro cols
  induction cols with
  | nil => intro row c _; cases row <;> rfl
  | cons a cs ih =>
    intro row c hc
    cases row with
    | nil => rfl
    | cons v vs =>
      have ha : a ≠ c := fun h => hc (h ▸ List.mem_cons_self a cs)
      simp only [cellAt, if_neg ha]
      exact ih vs c (fun h => hc (List.mem_cons_of_mem _ h))

theorem cellAt_append_left :
    ∀ (c1 : List String) (r1 : List Val) (c2 : List String) (r2 : List Val) (c : String),
      c ∈ c1 → r1.length = c1.length →
      cellAt (c1 ++ c2) (r1 ++ r2) c = cellAt c1 r1 c := by
  intro c1
  induction c1 with
  | nil => intro r1 _ _ c hc _; simp at hc
  | cons a cs ih =>
    intro r1 c2 r2 c hc hlen
    cases r1 with
    | nil => simp at hlen
    | cons v vs =>
      simp only [List.cons_append, cellAt]
      by_cases hac : a = c
      · rw [if_pos hac, if_pos hac]
      · rw [if_neg hac, if_neg hac]
        have hcs : c ∈ cs := by
          rcases List.mem_cons.mp hc with h | h
          · exact absurd h.symm hac
          · exact h
        exact ih vs c2 r2 c hcs (by simpa using hlen)

theorem cellAt_append_right :
    ∀ (c1 : List String) (r1 : List Val) (c2 : List String) (r2 : List Val) (c : String),
      c ∉ c1 → r1.length = c1.length →
      cellAt (c1 ++ c2) (r1 ++ r2) c = cellAt c2 r2 c := by
  intro c1
  induction c1 with
  | nil =>
    intro r1 c2 r2 c _ hlen
    have : r1 = [] := List.length_eq_zero.mp (by simpa using hlen)
    subst this
    rfl
  | cons a cs ih =>
    intro r1 c2 r2 c hc hlen
    cases r1 with
    | nil => simp at hlen
    | cons v vs =>
      have hac : a ≠ c := fun h => hc (h ▸ List.mem_cons_self a cs)
      simp only [List.cons_append, cellAt, if_neg hac]
      exact ih vs c2 r2 c (fun h => hc (List.mem_cons_of_mem _ h)) (by simpa using hlen)

theorem cellAt_map_self : ∀ (cs : List String) (f : String → Val) (c : String),
    c ∈ cs → cellAt cs (cs.map f) c = f c := by
  intro cs
  induction cs with
  | nil => intro f c hc; simp at hc
  | cons a cs ih =>
    intro f c hc
    simp only [List.map_cons, cellAt]
    by_cases hac : a = c
    · rw [if_pos hac, hac]
    · rw [if_neg hac]
      rcases List.mem_cons.mp hc with h | h
      · exact absurd h.symm hac
      · exact ih f c h

theorem cellAt_setFirst_ne : ∀ (cols : List String) (row : List Val) (cname : String)
    (v : Val) (c : String), c ≠ cname →
    cellAt cols (setFirst cols row cname v) c = cellAt cols row c := by
  intro cols
  induction cols with
  | nil => intro row cname v c _; rfl
  | cons a cs ih =>
    intro row cname v c hc
    cases row with
    | nil => rfl
    | cons x xs =>
      simp only [setFirst]
      by_cases han : a = cname
      · rw [if_pos han]
        have hac : a ≠ c := fun h => hc (h.symm.trans han)
        simp only [cellAt, if_neg hac]
      · rw [if_neg han]
        simp only [cellAt]
        by_cases hac : a = c
        · rw [if_pos hac, if_pos hac]
        · rw [if_neg hac, if_neg hac]
          exact ih xs cname v c hc

theorem cellAt_setFirst_self : ∀ (cols : List String) (row : List Val) (cname : String)
    (v : Val), cname ∈ cols → row.length = cols.length →
    cellAt cols (setFirst cols row cname v) cname = v := by
  intro cols
  induction cols with
  | nil => intro row cname v hc _; simp at hc
  | cons a cs ih =>
    intro row cname v hc hlen
    cases row with
    | nil => simp at hlen
    | cons x xs =>
      simp only [setFirst]
      by_cases han : a = cname
      · rw [if_pos han]
        simp only [cellAt, if_pos han]
      · rw [if_neg han]
        simp only [cellAt, if_neg han]
        rcases List.mem_cons.mp hc with h | h
        · exact absurd h.symm han
        · exact ih xs cname v h (by simpa using hlen)

theorem length_setFirst : ∀ (cols : List String) (row : List Val) (c : String) (v : Val),
    (setFirst cols row c v).length = row.length := by
  intro cols
  induction cols with
  | nil => intro row c v; rfl
  | cons a cs ih =>
    intro row c v
    cases row with
    | nil => rfl
    | cons x xs =>
      simp only [setFirst]
      split
      · rfl
      · simp [ih xs c v]

theorem setFirst_cellAt_self : ∀ (cols : List String) (row : List Val) (c : String),
    setFirst cols row c (cellAt cols row c) = row := by
  intro cols
  induction cols with
  | nil => intro row c; rfl
  | cons a cs ih =>
    intro row c
    cases row with
    | nil => rfl
    | cons x xs =>
      simp only [setFirst, cellAt]
      by_cases hac : a = c
      · rw [if_pos hac, if_pos hac]
      · rw [if_neg hac, if_neg hac, ih xs c]

theorem mem_concatAll {α} : ∀ (l : List (List α)) (a : α),
    a ∈ concatAll l ↔ ∃ x ∈ l, a ∈ x := by
  intro l
  induction l with
  | nil => intro a; simp [concatAll]
  | cons x xs ih =>
    intro a
    simp only [concatAll, List.foldr_cons, List.mem_append]
    rw [show xs.foldr (fun a b => a ++ b) [] = concatAll xs from rfl, ih]
    simp

/-! ### Merge structure -/

theorem mergeLeft_cols (l r : DF) (k : String) :
    (mergeLeft l r k).cols = l.cols ++ r.cols.filter (fun c => c ≠ k) := rfl

theorem mergeLeft_rows_structure (l r : DF) (k : String) (row : List Val)
    (hrow : row ∈ (mergeLeft l r k).rows) :
    ∃ lr ∈ l.rows, ∃ tail : List Val,
      row = lr ++ tail ∧ tail.length = (r.cols.filter (fun c => c ≠ k)).length ∧
      ((tail = (r.cols.filter (fun c => c ≠ k)).map (fun _ => Val.null) ∧
        ∀ rr ∈ r.rows, valEqPd (cellAt l.cols lr k) (cellAt r.cols rr k) = false) ∨
       (∃ rr ∈ r.rows, valEqPd (cellAt l.cols lr k) (cellAt r.cols rr k) = true ∧
        tail = (r.cols.filter (fun c => c ≠ k)).map (fun c => cellAt r.cols rr c))) := by
  unfold mergeLeft at hrow
  simp only at hrow
  rw [mem_concatAll] at hrow
  obtain ⟨x, hx, hrx⟩ := hrow
  obtain ⟨lr, hlr, hflr⟩ := List.mem_map.mp hx
  subst hflr
  cases hf : r.rows.filter
      (fun rr => valEqPd (cellAt l.cols lr k) (cellAt r.cols rr k)) with
  | nil =>
    rw [hf] at hrx
    simp only [List.mem_singleton] at hrx
    refine ⟨lr, hlr, _, hrx, by simp, Or.inl ⟨rfl, ?_⟩⟩
    intro rr hrr
    have := List.filter_eq_nil.mp hf rr hrr
    simpa using this
  | cons m ms =>
    rw [hf] at hrx
    obtain ⟨rr, hrrm, hreq⟩ := List.mem_map.mp hrx
    have hrr : rr ∈ r.rows ∧
        valEqPd (cellAt l.cols lr k) (cellAt r.cols rr k) = true := by
      have : rr ∈ r.rows.filter
          (fun rr => valEqPd (cellAt l.cols lr k) (cellAt r.cols rr k)) := by
        rw [hf]
        exact hrrm
      exact ⟨(List.mem_filter.mp this).1, (List.mem_filter.mp this).2⟩
    exact ⟨lr, hlr, _, hreq.symm, by simp, Or.inr ⟨rr, hrr.1, hrr.2, rfl⟩⟩

theorem mergeLeft_WF (l r : DF) (k : String) (hl : l.WF) : (mergeLeft l r k).WF := by
  intro row hrow
  obtain ⟨lr, hlr, tail, hre, htl, _⟩ := mergeLeft_rows_structure l r k row hrow
  rw [hre, mergeLeft_cols]
  simp [htl, hl lr hlr]

theorem mergeLeft_left_cells (l r : DF) (k : String) (hl : l.WF) (row : List Val)
    (hrow : row ∈ (mergeLeft l r k).rows) :
    ∃ lr ∈ l.rows, ∀ c ∈ l.cols,
      cellAt (mergeLeft l r k).cols row c = cellAt l.cols lr c := by
  obtain ⟨lr, hlr, tail, hre, htl, _⟩ := mergeLeft_rows_structure l r k row hrow
  refine ⟨lr, hlr, fun c hc => ?_⟩
  rw [hre, mergeLeft_cols]
  exact cellAt_append_left l.cols lr _ tail c hc (hl lr hlr)

/-! ### Pivot structure -/

theorem pivotTable_cols (A : DF) (idx colc valc : String) :
    (pivotTable A idx colc valc).cols = idx :: pivotParties A idx colc := rfl

theorem pivotTable_WF (A : DF) (idx colc valc : String) :
    (pivotTable A idx colc valc).WF := by
  intro row hrow
  obtain ⟨m, _, hmr⟩ := List.mem_map.mp hrow
  rw [← hmr]
  simp [pivotTable_cols]

theorem pivotIds_mem (A : DF) (idx colc : String) (n : Int) :
    n ∈ pivotIds A idx colc ↔ ∃ row ∈ A.rows,
      cellAt A.cols row idx = Val.intV n ∧ cellAt A.cols row colc ≠ Val.null := by
  unfold pivotIds insSort
  rw [(List.perm_insertionSort _ _).mem_iff, mem_dedupKeepFirst, List.mem_filterMap]
  constructor
  · rintro ⟨row, hrow, hmap⟩
    refine ⟨row, hrow, ?_⟩
    cases hcell : cellAt A.cols row idx with
    | intV m =>
      rw [hcell] at hmap
      simp only at hmap
      split at hmap
      · cases hmap
      · rename_i hnn
        cases hmap
        exact ⟨rfl, hnn⟩
    | null => rw [hcell] at hmap; cases hmap
    | decV q => rw [hcell] at hmap; cases hmap
    | strV q => rw [hcell] at hmap; cases hmap
  · rintro ⟨row, hrow, hcell, hnn⟩
    refine ⟨row, hrow, ?_⟩
    rw [hcell]
    simp [hnn]

theorem pivot_rows_structure (A : DF) (idx colc valc : String) (rr : List Val)
    (hrr : rr ∈ (pivotTable A idx colc valc).rows) :
    ∃ m ∈ pivotIds A idx colc,
      rr = Val.intV m :: (pivotParties A idx colc).map
        (fun p => Val.intV (tallySum A idx colc valc m p)) := by
  obtain ⟨m, hm, hmr⟩ := List.mem_map.mp hrr
  exact ⟨m, hm, hmr.symm⟩

theorem pivot_row_of_id (A : DF) (idx colc valc : String) (m : Int)
    (hm : m ∈ pivotIds A idx colc) :
    (Val.intV m :: (pivotParties A idx colc).map
      (fun p => Val.intV (tallySum A idx colc valc m p))) ∈
      (pivotTable A idx colc valc).rows :=
  List.mem_map.mpr ⟨m, hm, rfl⟩

theorem pivot_cell_key (A : DF) (idx colc valc : String) (m : Int) (tailrow : List Val) :
    cellAt (pivotTable A idx colc valc).cols (Val.intV m :: tailrow) idx = Val.intV m := by
  rw [pivotTable_cols]
  simp [cellAt]

theorem pivot_cell_party (A : DF) (idx colc valc : String) (m : Int) (p : String)
    (hp : p ∈ pivotParties A idx colc) (hpid : idx ≠ p) :
    cellAt (pivotTable A idx colc valc).cols
      (Val.intV m :: (pivotParties A idx colc).map
        (fun q => Val.intV (tallySum A idx colc valc m q))) p =
      Val.intV (tallySum A idx colc valc m p) := by
  rw [pivotTable_cols]
  simp only [cellAt, if_neg hpid]
  exact cellAt_map_self _ _ p hp

theorem tallySum_eq_zero (A : DF) (idx colc valc : String) (n : Int) (p : String)
    (h : ∀ row ∈ A.rows, ¬(cellAt A.cols row idx = Val.intV n ∧
      cellAt A.cols row colc ≠ Val.null)) :
    tallySum A idx colc valc n p = 0 := by
  unfold tallySum
  have hnil : A.rows.filter (fun r =>
      cellAt A.cols r idx == Val.intV n && cellAt A.cols r colc == Val.strV p) = [] := by
    rw [List.filter_eq_nil]
    intro r hr
    simp only [Bool.and_eq_true, beq_iff_eq, not_and]
    intro h1 h2
    exact h r hr ⟨h1, by rw [h2]; simp⟩
  rw [hnil]
  rfl

/-! ### mapM and mapColE plumbing -/

theorem except_bind_ok {ε α β : Type} (a : α) (f : α → Except ε β) :
    (Bind.bind (Except.ok a) f : Except ε β) = f a := rfl

theorem except_bind_error {ε α β : Type} (e : ε) (f : α → Except ε β) :
    (Bind.bind (Except.error e) f : Except ε β) = Except.error e := rfl

theorem mapM_error {α β ε : Type} (f : α → Except ε β) :
    ∀ (l : List α) (e : ε), l.mapM f = .error e → ∃ a ∈ l, f a = .error e := by
  intro l
  induction l with
  | nil => intro e h; cases h
  | cons a l ih =>
    intro e h
    rw [List.mapM_cons] at h
    cases hfa : f a with
    | error e2 =>
      rw [hfa] at h
      simp only [Bind.bind, Except.bind] at h
      cases h
      exact ⟨a, by simp, hfa⟩
    | ok b =>
      rw [hfa] at h
      simp only [Bind.bind, Except.bind] at h
      cases hrest : l.mapM f with
      | error e2 =>
        rw [hrest] at h
        simp only at h
        cases h
        obtain ⟨a2, ha2, hfa2⟩ := ih e hrest
        exact ⟨a2, by simp [ha2], hfa2⟩
      | ok bs =>
        rw [hrest] at h
        simp only [pure, Except.pure] at h
        cases h

theorem mapM_forall₂ {α β ε : Type} (f : α → Except ε β) :
    ∀ (l : List α) (out : List β), l.mapM f = .ok out →
      List.Forall₂ (fun a b => f a = .ok b) l out := by
  intro l
  induction l with
  | nil =>
    intro out h
    cases h
    exact List.Forall₂.nil
  | cons a l ih =>
    intro out h
    rw [List.mapM_cons] at h
    cases hfa : f a with
    | error e =>
      rw [hfa] at h
      simp only [Bind.bind, Except.bind] at h
      cases h
    | ok b =>
      rw [hfa] at h
      simp only [Bind.bind, Except.bind] at h
      cases hrest : l.mapM f with
      | error e2 => rw [hrest] at h; simp only at h; cases h
      | ok bs =>
        rw [hrest] at h
        simp only [pure, Except.pure] at h
        cases h
        exact List.Forall₂.cons hfa (ih bs hrest)

theorem mapM_ok_exists {α β ε : Type} (f : α → Except ε β) :
    ∀ (l : List α), (∀ a ∈ l, ∃ b, f a = .ok b) → ∃ out, l.mapM f = .ok out := by
  intro l
  induction l with
  | nil => intro _; exact ⟨[], rfl⟩
  | cons a l ih =>
    intro h
    obtain ⟨b, hb⟩ := h a (by simp)
    obtain ⟨bs, hbs⟩ := ih (fun x hx => h x (by simp [hx]))
    refine ⟨b :: bs, ?_⟩
    rw [List.mapM_cons, hb, hbs]
    rfl

theorem forall₂_mem_right {α β : Type} {R : α → β → Prop} :
    ∀ {l : List α} {l2 : List β}, List.Forall₂ R l l2 → ∀ b ∈ l2, ∃ a ∈ l, R a b := by
  intro l l2 h
  induction h with
  | nil => intro b hb; cases hb
  | cons hab htail ih =>
    intro b hb
    rcases List.mem_cons.mp hb with rfl | hb
    · exact ⟨_, by simp, hab⟩
    · obtain ⟨a, ha, hr⟩ := ih b hb
      exact ⟨a, by simp [ha], hr⟩

theorem forall₂_eq {α : Type} : ∀ {l l2 : List α}, List.Forall₂ (fun a b => b = a) l l2 →
    l2 = l := by
  intro l l2 h
  induction h with
  | nil => rfl
  | cons hab _ ih => rw [ih, hab]

theorem mapColRows_forall₂ (cols : List String) (c : String)
    (f : Val → Except Err Val) (rows out : List (List Val))
    (h : mapColRows cols c f rows = .ok out) :
    List.Forall₂ (fun r r2 => ∃ v, f (cellAt cols r c) = .ok v ∧
      r2 = setFirst cols r c v) rows out := by
  unfold mapColRows at h
  have := mapM_forall₂ _ rows out h
  refine this.imp ?_
  intro r r2 hg
  cases hv : f (cellAt cols r c) with
  | error e => rw [hv] at hg; simp [Bind.bind, Except.bind] at hg
  | ok v =>
    rw [hv] at hg
    simp only [Bind.bind, Except.bind, pure, Except.pure, Except.ok.injEq] at hg
    exact ⟨v, rfl, hg.symm⟩

theorem mapColRows_error (cols : List String) (c : String)
    (f : Val → Except Err Val) (rows : List (List Val)) (e : Err)
    (h : mapColRows cols c f rows = .error e) :
    ∃ r ∈ rows, f (cellAt cols r c) = .error e := by
  unfold mapColRows at h
  obtain ⟨r, hr, hfr⟩ := mapM_error _ rows e h
  refine ⟨r, hr, ?_⟩
  cases hv : f (cellAt cols r c) with
  | error e3 =>
    rw [hv] at hfr
    simp only [Bind.bind, Except.bind] at hfr
    cases hfr
    rfl
  | ok v =>
    rw [hv] at hfr
    simp [Bind.bind, Except.bind, pure, Except.pure] at hfr

theorem mapColRows_ok_exists (cols : List String) (c : String)
    (f : Val → Except Err Val) (rows : List (List Val))
    (hpt : ∀ r ∈ rows, ∃ v, f (cellAt cols r c) = .ok v) :
    ∃ out, mapColRows cols c f rows = .ok out := by
  unfold mapColRows
  refine mapM_ok_exists _ rows ?_
  intro r hr
  obtain ⟨v, hv⟩ := hpt r hr
  refine ⟨setFirst cols r c v, ?_⟩
  rw [hv]
  rfl

theorem mapColE_ok (df : DF) (c : String) (f : Val → Except Err Val) (out : DF)
    (h : df.mapColE c f = .ok out) :
    df.cols.contains c = true ∧ out.cols = df.cols ∧
    List.Forall₂ (fun r r2 => ∃ v, f (cellAt df.cols r c) = .ok v ∧
      r2 = setFirst df.cols r c v) df.rows out.rows := by
  unfold DF.mapColE at h
  split at h
  · cases h
  · rename_i hcond
    have hcont : df.cols.contains c = true := by
      cases hcc : df.cols.contains c
      · exact absurd hcc hcond
      · rfl
    simp only [Bind.bind, Except.bind] at h
    cases hm : mapColRows df.cols c f df.rows with
    | error e => rw [hm] at h; simp only at h; cases h
    | ok rows2 =>
      rw [hm] at h
      simp only [pure, Except.pure] at h
      cases h
      exact ⟨hcont, rfl, mapColRows_forall₂ df.cols c f df.rows rows2 hm⟩

theorem mapColE_error (df : DF) (c : String) (f : Val → Except Err Val) (e : Err)
    (h : df.mapColE c f = .error e) :
    e = .keyError c ∨ ∃ r ∈ df.rows, f (cellAt df.cols r c) = .error e := by
  unfold DF.mapColE at h
  split at h
  · cases h
    exact Or.inl rfl
  · simp only [Bind.bind, Except.bind] at h
    cases hm : mapColRows df.cols c f df.rows with
    | error e2 =>
      rw [hm] at h
      simp only at h
      cases h
      exact Or.inr (mapColRows_error df.cols c f df.rows e hm)
    | ok rows2 =>
      rw [hm] at h
      simp [pure, Except.pure] at h

theorem mapColE_ok_of (df : DF) (c : String) (f : Val → Except Err Val)
    (hc : df.cols.contains c = true)
    (hpt : ∀ r ∈ df.rows, ∃ v, f (cellAt df.cols r c) = .ok v) :
    ∃ out, df.mapColE c f = .ok out := by
  unfold DF.mapColE
  rw [hc]
  simp only [Bind.bind, Except.bind]
  obtain ⟨rows2, hrows2⟩ := mapColRows_ok_exists df.cols c f df.rows hpt
  rw [hrows2]
  exact ⟨⟨df.cols, rows2⟩, rfl⟩

theorem mapColE_WF (df : DF) (c : String) (f : Val → Except Err Val) (out : DF)
    (hWF : df.WF) (h : df.mapColE c f = .ok out) : out.WF := by
  obtain ⟨_, hcols, hfa⟩ := mapColE_ok df c f out h
  intro r2 hr2
  obtain ⟨r, hr, v, _, hset⟩ := forall₂_mem_right hfa r2 hr2
  rw [hset, hcols, length_setFirst]
  exact hWF r hr


/-! ### The party-column coercion fold -/

theorem mem_of_contains {α} [DecidableEq α] {l : List α} {a : α}
    (h : l.contains a = true) : a ∈ l := by
  simpa using h

theorem contains_of_mem {α} [DecidableEq α] {l : List α} {a : α}
    (h : a ∈ l) : l.contains a = true := by
  simpa using h

theorem coerceParty_ok_intV (v w : Val) (h : coerceParty v = .ok w) :
    ∃ n : Int, w = Val.intV n := by
  cases v with
  | null => cases h; exact ⟨0, rfl⟩
  | intV n => cases h; exact ⟨n, rfl⟩
  | decV q => cases h; exact ⟨truncDecTok q.toList, rfl⟩
  | strV q =>
    unfold coerceParty fillna0 astypeIntE at h
    simp only [if_neg (by simp : ¬(Val.strV q = Val.null))] at h
    split at h
    · cases h
      exact ⟨parseIntTok (pyStrip q).toList, rfl⟩
    · cases h

theorem coerceParty_error_shape (v : Val) (e : Err) (h : coerceParty v = .error e) :
    ∃ s, e = .valueError s := by
  cases v with
  | null => cases h
  | intV n => cases h
  | decV q => cases h
  | strV q =>
    unfold coerceParty fillna0 astypeIntE at h
    simp only [if_neg (by simp : ¬(Val.strV q = Val.null))] at h
    split at h
    · cases h
    · cases h
      exact ⟨q, rfl⟩

theorem coerceParty_ok_of_nullInt (v : Val)
    (h : v = Val.null ∨ ∃ n, v = Val.intV n) : ∃ w, coerceParty v = .ok w := by
  rcases h with rfl | ⟨n, rfl⟩
  · exact ⟨Val.intV 0, rfl⟩
  · exact ⟨Val.intV n, rfl⟩

theorem coercePartyCols_cells :
    ∀ (cs : List String) (d out : DF), d.WF → coercePartyCols d cs = .ok out →
      out.cols = d.cols ∧ out.WF ∧
      ∀ row2 ∈ out.rows, ∃ row ∈ d.rows,
        (∀ c, c ∉ cs → cellAt out.cols row2 c = cellAt d.cols row c) ∧
        (∀ c ∈ cs, ∃ n : Int, cellAt out.cols row2 c = Val.intV n ∧
          coerceParty (cellAt d.cols row c) = .ok (Val.intV n)) := by
  intro cs
  induction cs with
  | nil =>
    intro d out hWF h
    have hout : out = d := by
      unfold coercePartyCols at h
      simp only [List.foldlM_nil, pure, Except.pure, Except.ok.injEq] at h
      exact h.symm
    subst hout
    exact ⟨rfl, hWF, fun row2 h2 =>
      ⟨row2, h2, fun c _ => rfl, fun c hc => absurd hc (List.not_mem_nil c)⟩⟩
  | cons c0 cs ih =>
    intro d out hWF h
    unfold coercePartyCols at h
    rw [List.foldlM_cons] at h
    simp only [Bind.bind, Except.bind] at h
    cases h1 : d.mapColE c0 coerceParty with
    | error e => rw [h1] at h; simp only at h; cases h
    | ok d1 =>
      rw [h1] at h
      obtain ⟨hcont, hcols1, hfa⟩ := mapColE_ok d c0 coerceParty d1 h1
      have hWF1 : d1.WF := mapColE_WF d c0 coerceParty d1 hWF h1
      obtain ⟨hcols2, hWF2, hrows⟩ := ih d1 out hWF1 h
      refine ⟨hcols2.trans hcols1, hWF2, ?_⟩
      intro row2 h2
      obtain ⟨r1, hr1, hpres, hcoerced⟩ := hrows row2 h2
      obtain ⟨r, hr, v, hv, hset⟩ := forall₂_mem_right hfa r1 hr1
      obtain ⟨m, hm⟩ := coerceParty_ok_intV _ v hv
      subst hm
      have hcell0 : cellAt d1.cols r1 c0 = Val.intV m := by
        rw [hcols1, hset]
        exact cellAt_setFirst_self d.cols r c0 _ (mem_of_contains hcont) (hWF r hr)
      have hcellne : ∀ c, c ≠ c0 → cellAt d1.cols r1 c = cellAt d.cols r c := by
        intro c hc
        rw [hcols1, hset]
        exact cellAt_setFirst_ne d.cols r c0 _ c hc
      refine ⟨r, hr, ?_, ?_⟩
      · intro c hc
        have hc0 : c ≠ c0 := fun he => hc (he ▸ List.mem_cons_self c0 cs)
        have hccs : c ∉ cs := fun he => hc (List.mem_cons_of_mem _ he)
        rw [hpres c hccs]
        exact hcellne c hc0
      · intro c hc
        by_cases hceq : c = c0
        · subst hceq
          by_cases hin : c ∈ cs
          · obtain ⟨n, hcell, hco⟩ := hcoerced c hin
            rw [hcell0] at hco
            cases hco
            exact ⟨m, hcell, hv⟩
          · have := hpres c hin
            rw [this, hcell0]
            exact ⟨m, rfl, hv⟩
        · rcases List.mem_cons.mp hc with he | hcs
          · exact absurd he hceq
          · obtain ⟨n, hcell, hco⟩ := hcoerced c hcs
            rw [hcellne c hceq] at hco
            exact ⟨n, hcell, hco⟩

theorem coercePartyCols_error_shape :
    ∀ (cs : List String) (d : DF) (e : Err), coercePartyCols d cs = .error e →
      (∃ s, e = .keyError s) ∨ (∃ s, e = .valueError s) := by
  intro cs
  induction cs with
  | nil =>
    intro d e h
    unfold coercePartyCols at h
    simp [List.foldlM_nil, pure, Except.pure] at h
  | cons c0 cs ih =>
    intro d e h
    unfold coercePartyCols at h
    rw [List.foldlM_cons] at h
    simp only [Bind.bind, Except.bind] at h
    cases h1 : d.mapColE c0 coerceParty with
    | error e0 =>
      rw [h1] at h
      simp only at h
      cases h
      rcases mapColE_error d c0 coerceParty e h1 with he | ⟨r, _, hco⟩
      · exact Or.inl ⟨c0, he⟩
      · exact Or.inr (coerceParty_error_shape _ e hco)
    | ok d1 =>
      rw [h1] at h
      exact ih d1 e h

theorem coercePartyCols_ok_of :
    ∀ (cs : List String) (d : DF), d.WF →
      (∀ c ∈ cs, d.cols.contains c = true) →
      (∀ c ∈ cs, ∀ r ∈ d.rows, cellAt d.cols r c = Val.null ∨
        ∃ n, cellAt d.cols r c = Val.intV n) →
      ∃ out, coercePartyCols d cs = .ok out := by
  intro cs
  induction cs with
  | nil =>
    intro d _ _ _
    exact ⟨d, rfl⟩
  | cons c0 cs ih =>
    intro d hWF hcont hcells
    obtain ⟨d1, hd1⟩ := mapColE_ok_of d c0 coerceParty (hcont c0 (by simp))
      (fun r hr => coerceParty_ok_of_nullInt _ (hcells c0 (by simp) r hr))
    obtain ⟨_, hcols1, hfa⟩ := mapColE_ok d c0 coerceParty d1 hd1
    have hWF1 : d1.WF := mapColE_WF d c0 coerceParty d1 hWF hd1
    obtain ⟨out, hout⟩ := ih d1 hWF1
      (fun c hc => by rw [hcols1]; exact hcont c (by simp [hc]))
      (by
        intro c hc r1 hr1
        obtain ⟨r, hr, v, hv, hset⟩ := forall₂_mem_right hfa r1 hr1
        obtain ⟨m, hm⟩ := coerceParty_ok_intV _ v hv
        subst hm
        by_cases hceq : c = c0
        · subst hceq
          right
          refine ⟨m, ?_⟩
          rw [hcols1, hset]
          exact cellAt_setFirst_self d.cols r c _ (mem_of_contains (hcont c (by simp)))
            (hWF r hr)
        · rw [hcols1, hset, cellAt_setFirst_ne d.cols r c0 _ c hceq]
          exact hcells c (by simp [hc]) r hr)
    refine ⟨out, ?_⟩
    unfold coercePartyCols at hout ⊢
    rw [List.foldlM_cons]
    simp only [Bind.bind, Except.bind]
    rw [hd1]
    exact hout

/-! ### Decomposing the assembler -/

theorem select_ok_parts (df : DF) (cs : List String) (out : DF)
    (h : df.select cs = .ok out) :
    out.cols = cs ∧
    out.rows = df.rows.map (fun r => cs.map (fun c => cellAt df.cols r c)) ∧
    out.WF := by
  unfold DF.select at h
  split at h
  · cases h
    exact ⟨rfl, rfl, by intro r hr; obtain ⟨x, _, hx⟩ := List.mem_map.mp hr; simp [← hx]⟩
  · cases h

theorem finalizeStage_ok_parts (pp m4 out : DF) (h : finalizeStage pp m4 = .ok out) :
    ∃ final, m4.select ((knownCols.filter (fun c => m4.hasCol c)) ++
        insSort strLe ((pp.cols.filter (fun c => c ≠ "polling_unit_uniqueid")).filter
          (fun c => m4.hasCol c))) = .ok final ∧
      coercePartyCols final ((pp.cols.filter (fun c => c ≠ "polling_unit_uniqueid")).filter
        (fun c => m4.hasCol c)) = .ok out := by
  unfold finalizeStage at h
  simp only [Bind.bind, Except.bind] at h
  cases hsel : m4.select ((knownCols.filter (fun c => m4.hasCol c)) ++
      insSort strLe ((pp.cols.filter (fun c => c ≠ "polling_unit_uniqueid")).filter
        (fun c => m4.hasCol c))) with
  | error e => rw [hsel] at h; simp only at h; cases h
  | ok final =>
    rw [hsel] at h
    exact ⟨final, rfl, h⟩

theorem buildFromTables_ok_parts (pu ward lga A : DF) (mapping : List (Int × String))
    (out : DF) (h : buildFromTables pu ward lga A mapping = .ok out) :
    ∃ ann m2 m3,
      A.mapColE "polling_unit_uniqueid" pyIntCoerce = .ok ann ∧
      mergeWardStage ward (mergeLeft (pu.renameCol "uniqueid" "polling_unit_uniqueid")
        (pivotTable ann "polling_unit_uniqueid" "party_abbreviation" "party_score")
        "polling_unit_uniqueid") = .ok m2 ∧
      mergeLgaStage lga m2 = .ok m3 ∧
      finalizeStage (pivotTable ann "polling_unit_uniqueid" "party_abbreviation" "party_score")
        (stateNameStage mapping m3) = .ok out := by
  unfold buildFromTables at h
  split at h
  · cases h
  · split at h
    · cases h
    · cases hann : A.mapColE "polling_unit_uniqueid" pyIntCoerce with
      | error e => rw [hann, except_bind_error] at h; cases h
      | ok ann =>
        rw [hann, except_bind_ok] at h
        split at h
        · cases h
        · dsimp only at h
          split at h
          · cases h
          · cases hm2 : mergeWardStage ward
                (mergeLeft (pu.renameCol "uniqueid" "polling_unit_uniqueid")
                  (pivotTable ann "polling_unit_uniqueid" "party_abbreviation" "party_score")
                  "polling_unit_uniqueid") with
            | error e => rw [hm2, except_bind_error] at h; cases h
            | ok m2 =>
              rw [hm2, except_bind_ok] at h
              cases hm3 : mergeLgaStage lga m2 with
              | error e => rw [hm3, except_bind_error] at h; cases h
              | ok m3 =>
                rw [hm3, except_bind_ok] at h
                exact ⟨ann, m2, m3, rfl, hm2, hm3, h⟩


/-! ### Error shapes of the assembler stages (no stage after the two
emptiness checks can raise a missing-data error) -/

theorem pyIntCoerce_error_shape (v : Val) (e : Err) (h : pyIntCoerce v = .error e) :
    ∃ s, e = .valueError s := by
  unfold pyIntCoerce at h
  split at h
  · cases h
  · cases h
  · cases h
  · split at h
    · cases h
    · cases h
      exact ⟨_, rfl⟩

theorem select_error_shape (df : DF) (cs : List String) (e : Err)
    (h : df.select cs = .error e) : ∃ s, e = .keyError s := by
  unfold DF.select at h
  split at h
  · cases h
  · cases h
    exact ⟨"column not found", rfl⟩

theorem mergeWardStage_error_shape (ward m1 : DF) (e : Err)
    (h : mergeWardStage ward m1 = .error e) : ∃ s, e = .keyError s := by
  unfold mergeWardStage at h
  split at h
  · cases hsel : ward.select ["ward_id", "ward_name"] with
    | error e2 =>
      rw [hsel, except_bind_error] at h
      cases h
      exact select_error_shape _ _ e hsel
    | ok w =>
      rw [hsel, except_bind_ok] at h
      split at h
      · cases h
      · cases h
        exact ⟨"ward_id", rfl⟩
  · cases h

theorem mergeLgaStage_error_shape (lga m2 : DF) (e : Err)
    (h : mergeLgaStage lga m2 = .error e) : ∃ s, e = .keyError s := by
  unfold mergeLgaStage at h
  split at h
  · cases hsel : lga.select ["lga_id", "lga_name", "state_id"] with
    | error e2 =>
      rw [hsel, except_bind_error] at h
      cases h
      exact select_error_shape _ _ e hsel
    | ok g =>
      rw [hsel, except_bind_ok] at h
      split at h
      · cases h
      · cases h
        exact ⟨"lga_id", rfl⟩
  · cases h

theorem finalizeStage_error_shape (pp m4 : DF) (e : Err)
    (h : finalizeStage pp m4 = .error e) :
    (∃ s, e = .keyError s) ∨ (∃ s, e = .valueError s) := by
  unfold finalizeStage at h
  simp only [Bind.bind, Except.bind] at h
  cases hsel : m4.select ((knownCols.filter (fun c => m4.hasCol c)) ++
      insSort strLe ((pp.cols.filter (fun c => c ≠ "polling_unit_uniqueid")).filter
        (fun c => m4.hasCol c))) with
  | error e2 =>
    rw [hsel] at h
    simp only at h
    cases h
    exact Or.inl (select_error_shape _ _ e hsel)
  | ok final =>
    rw [hsel] at h
    exact coercePartyCols_error_shape _ final e h

theorem buildFromTables_error_shape (pu ward lga A : DF) (mapping : List (Int × String))
    (e : Err) (hpu : pu.rows ≠ []) (hA : A.rows ≠ [])
    (h : buildFromTables pu ward lga A mapping = .error e) :
    (∃ s, e = .keyError s) ∨ (∃ s, e = .valueError s) := by
  unfold buildFromTables at h
  rw [if_neg (by simp [hpu]), if_neg (by simp [hA])] at h
  cases hann : A.mapColE "polling_unit_uniqueid" pyIntCoerce with
  | error e2 =>
    rw [hann, except_bind_error] at h
    cases h
    rcases mapColE_error A "polling_unit_uniqueid" pyIntCoerce e hann with he | ⟨r, _, hco⟩
    · exact Or.inl ⟨"polling_unit_uniqueid", he⟩
    · exact Or.inr (pyIntCoerce_error_shape _ e hco)
  | ok ann =>
    rw [hann, except_bind_ok] at h
    split at h
    · cases h
      exact Or.inl ⟨"pivot column", rfl⟩
    · dsimp only at h
      split at h
      · cases h
        exact Or.inl ⟨"polling_unit_uniqueid", rfl⟩
      · cases hm2 : mergeWardStage ward
            (mergeLeft (pu.renameCol "uniqueid" "polling_unit_uniqueid")
              (pivotTable ann "polling_unit_uniqueid" "party_abbreviation" "party_score")
              "polling_unit_uniqueid") with
        | error e2 =>
          rw [hm2, except_bind_error] at h
          cases h
          exact Or.inl (mergeWardStage_error_shape _ _ e hm2)
        | ok m2 =>
          rw [hm2, except_bind_ok] at h
          cases hm3 : mergeLgaStage lga m2 with
          | error e2 =>
            rw [hm3, except_bind_error] at h
            cases h
            exact Or.inl (mergeLgaStage_error_shape _ _ e hm3)
          | ok m3 =>
            rw [hm3, except_bind_ok] at h
            exact finalizeStage_error_shape _ _ e h

theorem buildFromTables_missingData_iff (pu ward lga A : DF)
    (mapping : List (Int × String)) :
    (∃ t, buildFromTables pu ward lga A mapping = .error (.missingData t)) ↔
      (pu.rows = [] ∨ A.rows = []) := by
  constructor
  · rintro ⟨t, h⟩
    by_cases hpu : pu.rows = []
    · exact Or.inl hpu
    · by_cases hA : A.rows = []
      · exact Or.inr hA
      · rcases buildFromTables_error_shape pu ward lga A mapping _ hpu hA h with
          ⟨s, hs⟩ | ⟨s, hs⟩ <;> cases hs
  · rintro (hpu | hA)
    · refine ⟨"polling_unit", ?_⟩
      unfold buildFromTables
      rw [if_pos (by simp [hpu])]
    · by_cases hpu : pu.rows = []
      · refine ⟨"polling_unit", ?_⟩
        unfold buildFromTables
        rw [if_pos (by simp [hpu])]
      · refine ⟨"announced_pu_results", ?_⟩
        unfold buildFromTables
        rw [if_neg (by simp [hpu]), if_pos (by simp [hA])]

/-! ### Claim C4 -/

set_option maxRecDepth 4000 in
/-- C4 (counterexample): the party columns are not necessarily
non-negative: a dump whose `announced_pu_results` carries the score -5
for polling unit 8 and party PDP produces the value -5 in the Assembled
Table. -/
theorem c4_nonnegative_counterexample :
    resultCell (buildPollingUnitResultsDf
      "INSERT INTO \x60polling_unit\x60 (\x60uniqueid\x60, \x60polling_unit_name\x60) VALUES (7, \x27A\x27), (8, \x27B\x27);\nINSERT INTO \x60announced_pu_results\x60 (\x60polling_unit_uniqueid\x60, \x60party_abbreviation\x60, \x60party_score\x60) VALUES (7, \x27APC\x27, 120), (8, \x27PDP\x27, -5);\n"
      (some [])) 8 "PDP" = Val.intV (-5) ∧ (-5 : Int) < 0 := by
  constructor
  · rfl
  · decide

/-- C4 (amended): every party column of the Assembled Table — every
column outside the fixed identity/hierarchy set — holds an integer,
never null, both after a successful build and after a successful
mutation; non-negativity however is NOT guaranteed (see the
counterexample): the build only applies `fillna(0).astype(int)`,
so negative input scores survive. -/
theorem c4_party_cols_integer (pu ward lga A : DF) (mapping : List (Int × String))
    (out : DF) (df : DF) (pr : Row) (out2 : DF) :
    (buildFromTables pu ward lga A mapping = .ok out →
      ∀ c ∈ out.cols, knownCols.contains c = false →
        ∀ row ∈ out.rows, ∃ n : Int, cellAt out.cols row c = Val.intV n) ∧
    (df.WF → addPollingUnitToDf df pr = .ok out2 →
      ∀ c ∈ out2.cols, knownCols.contains c = false →
        ∀ row ∈ out2.rows, ∃ n : Int, cellAt out2.cols row c = Val.intV n) := by
  constructor
  · intro h c hc hck row hrow
    obtain ⟨ann, m2, m3, hann, hm2, hm3, hfin⟩ :=
      buildFromTables_ok_parts pu ward lga A mapping out h
    obtain ⟨final, hsel, hco⟩ := finalizeStage_ok_parts _ _ out hfin
    obtain ⟨hfc, hfr, hfWF⟩ := select_ok_parts _ _ final hsel
    obtain ⟨hoc, _, hcells⟩ := coercePartyCols_cells _ final out hfWF hco
    have hcfin : c ∈ ((pivotTable ann "polling_unit_uniqueid" "party_abbreviation"
        "party_score").cols.filter (fun x => x ≠ "polling_unit_uniqueid")).filter
        (fun x => (stateNameStage mapping m3).hasCol x) := by
      have hc2 : c ∈ final.cols := by rw [← hoc]; exact hc
      rw [hfc] at hc2
      rcases List.mem_append.mp hc2 with hl | hr
      · have : c ∈ knownCols := List.mem_of_mem_filter hl
        exact absurd (contains_of_mem this) (by rw [hck]; simp)
      · unfold insSort at hr
        exact (List.perm_insertionSort _ _).mem_iff.mp hr
    obtain ⟨row0, _, _, hcoerced⟩ := hcells row hrow
    obtain ⟨n, hcell, _⟩ := hcoerced c hcfin
    exact ⟨n, hcell⟩
  · intro hWF h c hc hck row hrow
    unfold addPollingUnitToDf at h
    have hWF2 : (⟨df.cols, df.rows ++ [df.cols.map (fun col =>
        match dictGet pr col with
        | some v => v
        | none => if knownCols.contains col then Val.null else Val.intV 0)]⟩ : DF).WF := by
      intro r hr
      rcases List.mem_append.mp hr with h1 | h1
      · exact hWF r h1
      · simp only [List.mem_singleton] at h1
        simp [h1]
    obtain ⟨hoc, _, hcells⟩ := coercePartyCols_cells _ _ out2 hWF2 h
    obtain ⟨row0, _, _, hcoerced⟩ := hcells row hrow
    have hcp : c ∈ df.cols.filter (fun x => !knownCols.contains x) := by
      rw [List.mem_filter]
      refine ⟨?_, by rw [hck]; rfl⟩
      have : c ∈ out2.cols := hc
      rw [hoc] at this
      exact this
    obtain ⟨n, hcell, _⟩ := hcoerced c hcp
    exact ⟨n, hcell⟩

/-- C4 (witness): a concrete build and a concrete mutation on its
result; the build premise and the mutation premise are discharged by
evaluation, so the party-column cells are integers. -/
theorem c4_party_cols_integer_witness :
    (buildFromTables
      (⟨["uniqueid", "polling_unit_name"], [[Val.intV 7, Val.strV "A"]]⟩ : DF)
      (⟨[], []⟩ : DF) (⟨[], []⟩ : DF)
      (⟨["polling_unit_uniqueid", "party_abbreviation", "party_score"],
        [[Val.intV 7, Val.strV "APC", Val.intV 120],
         [Val.intV 7, Val.strV "APC", Val.intV 30]]⟩ : DF) [] =
      .ok (⟨["polling_unit_uniqueid", "polling_unit_name", "state_name", "APC"],
        [[Val.intV 7, Val.strV "A", Val.null, Val.intV 150]]⟩ : DF)) ∧
    (∀ c ∈ (["polling_unit_uniqueid", "polling_unit_name", "state_name", "APC"] : List String),
      knownCols.contains c = false →
      ∀ row ∈ ([[Val.intV 7, Val.strV "A", Val.null, Val.intV 150]] : List (List Val)),
        ∃ n : Int, cellAt ["polling_unit_uniqueid", "polling_unit_name", "state_name", "APC"]
          row c = Val.intV n) := by
  constructor
  · rfl
  · exact (c4_party_cols_integer
      (⟨["uniqueid", "polling_unit_name"], [[Val.intV 7, Val.strV "A"]]⟩ : DF)
      (⟨[], []⟩ : DF) (⟨[], []⟩ : DF)
      (⟨["polling_unit_uniqueid", "party_abbreviation", "party_score"],
        [[Val.intV 7, Val.strV "APC", Val.intV 120],
         [Val.intV 7, Val.strV "APC", Val.intV 30]]⟩ : DF) []
      (⟨["polling_unit_uniqueid", "polling_unit_name", "state_name", "APC"],
        [[Val.intV 7, Val.strV "A", Val.null, Val.intV 150]]⟩ : DF)
      (⟨[], []⟩ : DF) [] (⟨[], []⟩ : DF)).1 rfl

/-! ### Claim C5 -/

/-- C5: the statement extractor's comma split is quote-aware for commas
inside a single-quoted region, but NOT for backslash-escaped quotes: in
the tuple fragment `'a\', b'` (one SQL string `a', b`) the csv-based
splitter ends the quoted region at the escaped quote and splits at the
comma, yielding two tokens instead of one, while a region with only
embedded commas is kept whole.  This contradicts the spec's requirement
that a quoted region containing escaped quotes must not be split; the
dump format and the repository's own formatter produce exactly such
backslash-escaped quotes, so the csv reader (which only understands
doubled quotes) is a slip. -/
theorem c5_escaped_quote_split :
    csvSplit "\x27a\\\x27, b\x27" = some ["a\\", "b\x27"] ∧
    csvSplit "\x27hello, world\x27, 5" = some ["hello, world", "5"] :=
  ⟨rfl, rfl⟩

/-! ### Claim C7 -/

/-- C7 (counterexample): the leading-zero token `"007"` coerces to the
integer 7, not to the string `"007"` as the claim states. -/
theorem c7_leading_zero_counterexample :
    convertSqlValue "007" = Val.intV 7 ∧ convertSqlValue "007" ≠ Val.strV "007" := by
  constructor
  · rfl
  · decide

/-- C7 (amended): for a trimmed token, value coercion returns exactly
one of four results following the source's cascade: null iff the token
case-insensitively equals NULL or is empty; an integer when the token
matches the optional-minus-sign all-digit pattern — leading-zero tokens
included (they are parsed as integers, not kept as strings); a decimal
for the optional-minus digit-dot-digit pattern; otherwise the token
unchanged as a string — exponent tokens such as `"1e5"` fall in the
string case. -/
theorem c7_value_coercion_amended (t : String) (ht : pyStrip t = t) :
    (convertSqlValue t = Val.null ↔ (pyUpper t = "NULL" ∨ t = "")) ∧
    (intTok t.toList = true → pyUpper t ≠ "NULL" →
      convertSqlValue t = Val.intV (parseIntTok t.toList)) ∧
    (intTok t.toList = false → decTok t.toList = true → pyUpper t ≠ "NULL" → t ≠ "" →
      convertSqlValue t = Val.decV t) ∧
    (intTok t.toList = false → decTok t.toList = false → pyUpper t ≠ "NULL" → t ≠ "" →
      convertSqlValue t = Val.strV t) ∧
    convertSqlValue "1e5" = Val.strV "1e5" := by
  refine ⟨?_, ?_, ?_, ?_, rfl⟩
  · unfold convertSqlValue
    rw [ht]
    constructor
    · intro h
      by_cases hc : pyUpper t = "NULL" ∨ t = ""
      · exact hc
      · rw [if_neg hc] at h
        split at h <;> simp_all
        split at h <;> simp_all
    · intro h
      rw [if_pos h]
  · intro hint hnull
    have hne : t ≠ "" := by
      intro he
      rw [he] at hint
      simp [intTok] at hint
    unfold convertSqlValue
    rw [ht, if_neg (by simp [hnull, hne]), if_pos hint]
  · intro hint hdec hnull hne
    unfold convertSqlValue
    rw [ht, if_neg (by simp [hnull, hne]),
      if_neg (by simp [show intTok t.data = false from hint]), if_pos hdec]
  · intro hint hdec hnull hne
    unfold convertSqlValue
    rw [ht, if_neg (by simp [hnull, hne]),
      if_neg (by simp [show intTok t.data = false from hint]),
      if_neg (by simp [show decTok t.data = false from hdec])]

/-- C7 (witness): the amended characterization applied to the trimmed
token `"007"`. -/
theorem c7_value_coercion_amended_witness :
    pyStrip "007" = "007" ∧
    (intTok ("007" : String).toList = true → pyUpper "007" ≠ "NULL" →
      convertSqlValue "007" = Val.intV (parseIntTok ("007" : String).toList)) := by
  refine ⟨by decide, ?_⟩
  exact (c7_value_coercion_amended "007" (by decide)).2.1

/-! ### Claim C2 -/

/-- C2 (counterexample): a caller-supplied explicit mapping is returned
as-is; the id-25 override is NOT applied on that resolution path, so a
mapping sending 25 elsewhere survives. -/
theorem c2_override_counterexample :
    loadStateMapping "" none (some [(25, "X")]) = .ok [(25, "X")] ∧
    assocGet [(25, "X")] 25 = some "X" ∧
    (some "X" : Option String) ≠ some "Delta State" := by
  refine ⟨rfl, rfl, by decide⟩

/-- C2 (amended): the id-25 to Delta State override is applied exactly
on the fallback path: whenever the explicit mapping is absent or empty,
the CSV path declines (absent, or lacking the id/name columns), and the
state-table path declines (empty table or heuristic failure), the
returned mapping sends 25 to Delta State — regardless of the lga
table's contents. -/
theorem c2_override_amended (sqlText : String) (csvOpt : Option DF)
    (dictOpt : Option (List (Int × String))) (m : List (Int × String))
    (hdict : dictOpt = none ∨ dictOpt = some [])
    (hcsv : ∀ df, csvOpt = some df → stateMapPath2 df = none)
    (hstate : ∀ st, getTableE sqlText "state" = .ok st → stateMapPath3 st = none)
    (hok : loadStateMapping sqlText csvOpt dictOpt = .ok m) :
    assocGet m 25 = some "Delta State" := by
  have htail : loadStateMappingTail sqlText csvOpt = .ok m := by
    rcases hdict with h | h <;> rw [h] at hok <;> simpa [loadStateMapping] using hok
  have htabs : loadStateMappingTables sqlText = .ok m := by
    cases hc : csvOpt with
    | none => rw [hc] at htail; simpa [loadStateMappingTail] using htail
    | some df =>
      rw [hc] at htail
      have h2 := hcsv df hc
      simpa [loadStateMappingTail, h2] using htail
  unfold loadStateMappingTables at htabs
  cases hst : getTableE sqlText "state" with
  | error e => rw [hst] at htabs; simp [Bind.bind, Except.bind] at htabs
  | ok st =>
    rw [hst] at htabs
    simp only [Bind.bind, Except.bind] at htabs
    rw [hstate st hst] at htabs
    cases hlga : getTableE sqlText "lga" with
    | error e => rw [hlga] at htabs; simp [Bind.bind, Except.bind] at htabs
    | ok lga =>
      rw [hlga] at htabs
      simp only [Bind.bind, Except.bind] at htabs
      unfold stateMapPath4 at htabs
      cases hbase : stateMapPath4Base lga with
      | error e => rw [hbase] at htabs; simp [Bind.bind, Except.bind] at htabs
      | ok base =>
        rw [hbase] at htabs
        simp only [Bind.bind, Except.bind, pure, Except.pure, Except.ok.injEq] at htabs
        rw [← htabs]
        exact assocGet_assocUpd_self _ 25 "Delta State"

/-- C2 (witness): the amended theorem applied to an empty dump with no
explicit mapping and no CSV: resolution falls through to the fallback
path and 25 maps to Delta State. -/
theorem c2_override_amended_witness :
    loadStateMapping "" none none = .ok [(25, "Delta State")] ∧
    assocGet [(25, "Delta State")] 25 = some "Delta State" := by
  refine ⟨rfl, ?_⟩
  exact c2_override_amended "" none none [(25, "Delta State")] (Or.inl rfl)
    (fun df h => by cases h)
    (fun st h => by
      have h2 : getTableE "" "state" = .ok (dfOfRows []) := rfl
      rw [h2] at h
      cases h
      rfl)
    rfl

/-! ### Claim C9 -/

theorem any_keys_eq_false (r : Row) (k : String) (h : ∀ q ∈ r, q.1 ≠ k) :
    r.any (fun p => p.1 = k) = false := by
  induction r with
  | nil => rfl
  | cons q qs ih =>
    simp only [List.any_cons, Bool.or_eq_false_iff]
    constructor
    · simpa using h q (by simp)
    · exact ih (fun q' hq' => h q' (by simp [hq']))

theorem foldl_dictInsert_fresh :
    ∀ (ps : Row) (r : Row), (∀ p ∈ ps, ∀ q ∈ r, q.1 ≠ p.1) →
      (ps.map Prod.fst).Nodup →
      ps.foldl (fun acc p => dictInsert acc p.1 p.2) r = r ++ ps := by
  intro ps
  induction ps with
  | nil => intro r _ _; simp
  | cons p ps ih =>
    intro r hfresh hnd
    have hany : r.any (fun q => q.1 = p.1) = false :=
      any_keys_eq_false r p.1 (fun q hq => hfresh p (by simp) q hq)
    have hstep : dictInsert r p.1 p.2 = r ++ [p] := by
      unfold dictInsert
      rw [hany]
      simp
    simp only [List.foldl_cons]
    rw [hstep]
    rw [ih (r ++ [p]) ?_ ?_]
    · simp
    · intro p' hp' q hq
      rcases List.mem_append.mp hq with hq | hq
      · exact hfresh p' (by simp [hp']) q hq
      · have hqp : q = p := by simpa using hq
        subst hqp
        simp only [List.map_cons, List.nodup_cons] at hnd
        intro he
        exact hnd.1 (he ▸ List.mem_map_of_mem Prod.fst hp')
    · simp only [List.map_cons, List.nodup_cons] at hnd
      exact hnd.2

theorem map_fst_zip_sublist :
    ∀ (cols : List String) (vals : List Val),
      ((cols.zip vals).map Prod.fst).Sublist cols := by
  intro cols
  induction cols with
  | nil => intro vals; simp
  | cons c cs ih =>
    intro vals
    cases vals with
    | nil => simp
    | cons v vs =>
      simp only [List.zip_cons_cons, List.map_cons]
      exact (ih vs).cons₂ c

theorem dictZip_eq_zip (cols : List String) (vals : List Val) (h : cols.Nodup) :
    dictZip cols vals = cols.zip vals := by
  unfold dictZip
  have hnd : ((cols.zip vals).map Prod.fst).Nodup :=
    h.sublist (map_fst_zip_sublist cols vals)
  simpa using foldl_dictInsert_fresh (cols.zip vals) [] (by simp) hnd

theorem rowCell_zip (cols : List String) (vals : List Val) (h : cols.Nodup) :
    ∀ (i : Nat) (hi : i < cols.length), vals.length = cols.length →
      rowCell (cols.zip vals) cols[i] = vals.getD i Val.null := by
  induction cols generalizing vals with
  | nil => intro i hi _; simp at hi
  | cons c cs ih =>
    intro i hi hlen
    cases vals with
    | nil => simp at hlen
    | cons v vs =>
      cases i with
      | zero => simp [rowCell, dictGet]
      | succ j =>
        have hj : j < cs.length := by
          simpa using hi
        have hcne : c ≠ cs[j] := by
          intro he
          exact (List.nodup_cons.mp h).1 (he ▸ cs.getElem_mem hj)
        have := ih vs (List.nodup_cons.mp h).2 j hj (by simpa using hlen)
        simpa [rowCell, dictGet, hcne] using this

/-- C9: for any tuple whose token count differs from the column count,
the extractor's recovery step still yields a Row over exactly the
declared columns: missing trailing values are padded with null, extra
trailing values are truncated, and no error is possible (the recovery
is a total function). -/
theorem c9_pad_truncate (cols : List String) (parsed : List Val) (hnd : cols.Nodup) :
    ((rowFromTuple cols parsed).map Prod.fst = cols) ∧
    (∀ i, parsed.length ≤ i → (hi : i < cols.length) →
      rowCell (rowFromTuple cols parsed) cols[i] = Val.null) ∧
    (cols.length < parsed.length →
      rowFromTuple cols parsed = rowFromTuple cols (parsed.take cols.length)) := by
  refine ⟨?_, ?_, ?_⟩
  · unfold rowFromTuple
    set adjusted := if parsed.length ≠ cols.length then
        (if parsed.length < cols.length then
          parsed ++ List.replicate (cols.length - parsed.length) Val.null
        else parsed.take cols.length)
      else parsed with hadj
    have hlen : adjusted.length = cols.length := by
      rw [hadj]
      split
      · split
        · simp
          omega
        · simp
          omega
      · omega
    rw [dictZip_eq_zip cols adjusted hnd]
    exact List.map_fst_zip cols adjusted (le_of_eq hlen.symm)
  · intro i hle hi
    have hlt : parsed.length < cols.length := Nat.lt_of_le_of_lt hle hi
    have hne : parsed.length ≠ cols.length := Nat.ne_of_lt hlt
    unfold rowFromTuple
    rw [if_pos hne, if_pos hlt]
    set adjusted := parsed ++ List.replicate (cols.length - parsed.length) Val.null
      with hadj
    have hlen : adjusted.length = cols.length := by
      rw [hadj]
      simp
      omega
    rw [dictZip_eq_zip cols adjusted hnd,
      rowCell_zip cols adjusted hnd i hi hlen, hadj]
    rw [List.getD_eq_getElem?_getD]
    rw [List.getElem?_append_right hle]
    cases hrep : (List.replicate (cols.length - parsed.length) Val.null)[i - parsed.length]? with
    | none => simp
    | some v =>
      have := List.getElem?_replicate (n := cols.length - parsed.length)
        (a := Val.null) (m := i - parsed.length)
      rw [hrep] at this
      split at this
      · cases this
        simp
      · cases this
  · intro hlt
    unfold rowFromTuple
    rw [if_pos (Nat.ne_of_gt hlt), if_neg (by omega)]
    have h1 : (parsed.take cols.length).length = cols.length := by
      simp
      omega
    rw [if_neg (by omega)]

/-- C9 (witness): three declared columns against a single-token tuple:
the row covers all three columns and the two missing cells are null. -/
theorem c9_pad_truncate_witness :
    (["a", "b", "c"] : List String).Nodup ∧
    (rowFromTuple ["a", "b", "c"] [Val.intV 1]).map Prod.fst = ["a", "b", "c"] ∧
    rowCell (rowFromTuple ["a", "b", "c"] [Val.intV 1]) "b" = Val.null := by
  refine ⟨by decide, (c9_pad_truncate ["a", "b", "c"] [Val.intV 1] (by decide)).1, ?_⟩
  have h := (c9_pad_truncate ["a", "b", "c"] [Val.intV 1] (by decide)).2.1 1
    (by decide) (by decide)
  simpa using h


/-! ### Claim C8 -/

theorem listLe_total : ∀ (as bs : List Char), listLe as bs = true ∨ listLe bs as = true := by
  intro as
  induction as with
  | nil => intro bs; left; rfl
  | cons a as ih =>
    intro bs
    cases bs with
    | nil => right; rfl
    | cons b bs =>
      simp only [listLe]
      by_cases h : a.toNat = b.toNat
      · rw [if_pos h, if_pos h.symm]
        exact ih bs
      · rw [if_neg h, if_neg (Ne.symm h)]
        rcases Nat.lt_or_ge a.toNat b.toNat with hl | hg
        · left
          exact decide_eq_true hl
        · right
          exact decide_eq_true (by omega)

theorem listLe_trans : ∀ (as bs cs : List Char), listLe as bs = true →
    listLe bs cs = true → listLe as cs = true := by
  intro as
  induction as with
  | nil => intro bs cs _ _; rfl
  | cons a as ih =>
    intro bs cs h1 h2
    cases bs with
    | nil => exact absurd h1 (by simp [listLe])
    | cons b bs =>
      cases cs with
      | nil => exact absurd h2 (by simp [listLe])
      | cons c cs =>
        simp only [listLe] at h1 h2 ⊢
        by_cases hab : a.toNat = b.toNat <;> by_cases hbc : b.toNat = c.toNat
        · rw [if_pos hab] at h1
          rw [if_pos hbc] at h2
          rw [if_pos (hab.trans hbc)]
          exact ih bs cs h1 h2
        · rw [if_pos hab] at h1
          rw [if_neg hbc] at h2
          have hx : b.toNat < c.toNat := of_decide_eq_true h2
          rw [if_neg (by omega)]
          exact decide_eq_true (by omega)
        · rw [if_neg hab] at h1
          rw [if_pos hbc] at h2
          have hx : a.toNat < b.toNat := of_decide_eq_true h1
          rw [if_neg (by omega)]
          exact decide_eq_true (by omega)
        · have h1x : a.toNat < b.toNat := of_decide_eq_true (by rwa [if_neg hab] at h1)
          have h2x : b.toNat < c.toNat := of_decide_eq_true (by rwa [if_neg hbc] at h2)
          rw [if_neg (by omega)]
          exact decide_eq_true (by omega)

theorem strLe_total (a b : String) : strLe a b = true ∨ strLe b a = true :=
  listLe_total a.toList b.toList

theorem strLe_trans {a b c : String} (h1 : strLe a b = true) (h2 : strLe b c = true) :
    strLe a c = true :=
  listLe_trans a.toList b.toList c.toList h1 h2

theorem nameLe_total (a b : Val) : nameLe a b = true ∨ nameLe b a = true := by
  unfold nameLe
  cases ha : nameKey a <;> cases hb : nameKey b <;> simp
  exact strLe_total _ _

theorem nameLe_trans {a b c : Val} (h1 : nameLe a b = true) (h2 : nameLe b c = true) :
    nameLe a c = true := by
  unfold nameLe at *
  cases ha : nameKey a <;> cases hb : nameKey b <;> cases hc : nameKey c <;>
    simp_all
  exact strLe_trans h1 h2

/-- The integer under an `intV`; junk elsewhere (used only under
hypotheses that exclude the junk). -/
def intOfVal : Val → Int
  | .intV n => n
  | _ => 0

theorem mapM_ok_of_forall {α β ε : Type} (f : α → Except ε β) (g : α → β) :
    ∀ l : List α, (∀ a ∈ l, f a = .ok (g a)) → l.mapM f = .ok (l.map g) := by
  intro l
  induction l with
  | nil => intro _; rfl
  | cons a l ih =>
    intro h
    rw [List.mapM_cons, h a (by simp), ih (fun b hb => h b (by simp [hb]))]
    rfl

theorem listingTail_spec (base : DF) (idc namec : String)
    (hid : base.cols.contains idc = true) (hnm : base.cols.contains namec = true)
    (hids : ∀ r ∈ base.rows, cellAt base.cols r idc = Val.null ∨
      ∃ n, cellAt base.cols r idc = Val.intV n) :
    ∃ res, listingTail base idc namec = .ok res ∧
      List.Sorted (fun a b : Int × Val => nameLe a.2 b.2 = true) res ∧
      res.Nodup ∧
      ∀ i nm, (i, nm) ∈ res ↔ ∃ r ∈ base.rows,
        cellAt base.cols r idc = Val.intV i ∧ cellAt base.cols r namec = nm := by
  have hsel : base.select [idc, namec] =
      .ok ⟨[idc, namec], base.rows.map (fun r => [cellAt base.cols r idc, cellAt base.cols r namec])⟩ := by
    unfold DF.select
    rw [if_pos (by rw [List.all_cons, List.all_cons, List.all_nil, hid, hnm]; rfl)]
    simp
  set pairs0 := base.rows.map
    (fun r => (cellAt base.cols r idc, cellAt base.cols r namec)) with hpairs0
  set pairs2 := (dedupKeepFirst pairs0).filter (fun p => p.1 != Val.null) with hpairs2
  have hmem2 : ∀ p, p ∈ pairs2 ↔ p ∈ pairs0 ∧ p.1 ≠ Val.null := by
    intro p
    rw [hpairs2, List.mem_filter, mem_dedupKeepFirst]
    simp
  have hint : ∀ p ∈ pairs2, ∃ n : Int, p.1 = Val.intV n := by
    intro p hp
    rcases (hmem2 p).mp hp with ⟨hp0, hne⟩
    rw [hpairs0] at hp0
    obtain ⟨r, hr, hpr⟩ := List.mem_map.mp hp0
    rcases hids r hr with hnull | ⟨n, hn⟩
    · exact absurd (by rw [← hpr]; exact hnull) hne
    · exact ⟨n, by rw [← hpr]; exact hn⟩
  set mapped := pairs2.map (fun p => (intOfVal p.1, p.2)) with hmapped
  have hpoint : ∀ p ∈ pairs2,
      (do
        let n ← pyIntStrict p.1
        pure (n, p.2) : Except Err (Int × Val)) = .ok (intOfVal p.1, p.2) := by
    intro p hp
    obtain ⟨n, hn⟩ := hint p hp
    rw [hn]
    rfl
  have hmapM : pairs2.mapM (fun p => do
        let n ← pyIntStrict p.1
        (pure (n, p.2) : Except Err (Int × Val))) = .ok mapped :=
    mapM_ok_of_forall (fun p => do
        let n ← pyIntStrict p.1
        (pure (n, p.2) : Except Err (Int × Val)))
      (fun p => (intOfVal p.1, p.2)) pairs2 hpoint
  have hrun : listingTail base idc namec = .ok (insSort (fun a b => nameLe a.2 b.2) mapped) := by
    unfold listingTail
    rw [hsel]
    simp only [Bind.bind, Except.bind] at hmapM ⊢
    rw [show (List.map (fun r => [cellAt base.cols r idc, cellAt base.cols r namec])
        base.rows).map (fun r => (r.getD 0 Val.null, r.getD 1 Val.null)) = pairs0 by
      rw [hpairs0, List.map_map]; rfl]
    rw [← hpairs2]
    rw [hmapM]
    rfl
  refine ⟨_, hrun, ?_, ?_, ?_⟩
  · unfold insSort
    haveI : IsTotal (Int × Val) (fun a b => nameLe a.2 b.2 = true) :=
      ⟨fun a b => nameLe_total a.2 b.2⟩
    haveI : IsTrans (Int × Val) (fun a b => nameLe a.2 b.2 = true) :=
      ⟨fun _ _ _ => nameLe_trans⟩
    exact List.sorted_insertionSort _ mapped
  · have hperm := List.perm_insertionSort
      (fun a b : Int × Val => nameLe a.2 b.2 = true) mapped
    refine hperm.nodup_iff.mpr ?_
    rw [hmapped]
    refine List.Nodup.map_on ?_ ?_
    · intro x hx y hy hxy
      obtain ⟨nx, hnx⟩ := hint x hx
      obtain ⟨ny, hny⟩ := hint y hy
      obtain ⟨h1, h2⟩ := Prod.ext_iff.mp hxy
      rw [hnx, hny] at h1
      simp only [intOfVal] at h1
      exact Prod.ext (by rw [hnx, hny, h1]) h2
    · rw [hpairs2]
      exact (nodup_dedupKeepFirst pairs0).filter _
  · intro i nm
    have hperm := List.perm_insertionSort
      (fun a b : Int × Val => nameLe a.2 b.2 = true) mapped
    simp only [insSort]
    rw [hperm.mem_iff, hmapped, List.mem_map]
    constructor
    · rintro ⟨p, hp, hpeq⟩
      obtain ⟨n, hn⟩ := hint p hp
      rcases (hmem2 p).mp hp with ⟨hp0, _⟩
      rw [hpairs0] at hp0
      obtain ⟨r, hr, hpr⟩ := List.mem_map.mp hp0
      obtain ⟨hfst, hsnd⟩ := Prod.ext_iff.mp hpeq
      have hp1 : p.1 = cellAt base.cols r idc := by rw [← hpr]
      have hp2 : p.2 = cellAt base.cols r namec := by rw [← hpr]
      have hcell : cellAt base.cols r idc = Val.intV n := by
        rw [← hp1]
        exact hn
      refine ⟨r, hr, ?_, ?_⟩
      · have h5 : intOfVal p.1 = i := hfst
        rw [hp1, hcell] at h5
        simp only [intOfVal] at h5
        rw [hcell, h5]
      · have h6 : p.2 = nm := hsnd
        rw [hp2] at h6
        rw [← h6]
    · rintro ⟨r, hr, hcell, hname⟩
      refine ⟨(Val.intV i, nm), ?_, by simp [intOfVal]⟩
      rw [hmem2]
      constructor
      · rw [hpairs0, List.mem_map]
        exact ⟨r, hr, by rw [hcell, hname]⟩
      · simp

/-- C8 (counterexample): a child listing keeps a null name as null: with
one lga row whose name is null, `get_lgas_by_state` returns the pair
(1, null), not (1, "1") as the claimed stringified-identifier fallback
would give (that fallback exists only in `get_states`). -/
theorem c8_null_name_counterexample :
    getLgasByState (⟨["lga_id", "lga_name"], [[Val.intV 1, Val.null]]⟩ : DF) none =
      .ok [(1, Val.null)] ∧
    ((1 : Int), Val.null) ≠ ((1 : Int), Val.strV "1") := by
  exact ⟨rfl, by decide⟩

/-- C8 (amended): the child listings (LGAs optionally scoped by state,
wards optionally scoped by LGA) return deduplicated (identifier, name)
pairs sorted by name ascending (nulls last) and drop null identifiers,
but a null name is returned as null — it is NOT replaced by the
stringified identifier; that fallback exists only in the distinct-region
listing. -/
theorem c8_child_listings_amended (df : DF) (sid lid : Option Int)
    (hA : df.cols.contains "lga_id" = true)
    (hB : df.cols.contains "lga_name" = true)
    (hC : df.cols.contains "ward_id" = true)
    (hD : df.cols.contains "ward_name" = true)
    (hS : sid = none ∨ df.cols.contains "state_id" = true)
    (hlga : ∀ r ∈ df.rows, cellAt df.cols r "lga_id" = Val.null ∨
      ∃ n, cellAt df.cols r "lga_id" = Val.intV n)
    (hward : ∀ r ∈ df.rows, cellAt df.cols r "ward_id" = Val.null ∨
      ∃ n, cellAt df.cols r "ward_id" = Val.intV n) :
    (∃ res, getLgasByState df sid = .ok res ∧
      List.Sorted (fun a b : Int × Val => nameLe a.2 b.2 = true) res ∧
      res.Nodup ∧
      ∀ i nm, (i, nm) ∈ res ↔ ∃ r ∈ df.rows,
        (∀ s, sid = some s → valEqPd (cellAt df.cols r "state_id") (Val.intV s) = true) ∧
        cellAt df.cols r "lga_id" = Val.intV i ∧
        cellAt df.cols r "lga_name" = nm) ∧
    (∃ res, getWardsByLga df lid = .ok res ∧
      List.Sorted (fun a b : Int × Val => nameLe a.2 b.2 = true) res ∧
      res.Nodup ∧
      ∀ i nm, (i, nm) ∈ res ↔ ∃ r ∈ df.rows,
        (∀ s, lid = some s → valEqPd (cellAt df.cols r "lga_id") (Val.intV s) = true) ∧
        cellAt df.cols r "ward_id" = Val.intV i ∧
        cellAt df.cols r "ward_name" = nm) := by
  constructor
  · cases sid with
    | none =>
      obtain ⟨res, hrun, hsort, hnd, hmem⟩ := listingTail_spec df "lga_id" "lga_name" hA hB hlga
      refine ⟨res, ?_, hsort, hnd, ?_⟩
      · unfold getLgasByState
        simpa [Bind.bind, Except.bind] using hrun
      · intro i nm
        rw [hmem i nm]
        constructor
        · rintro ⟨r, hr, h1, h2⟩
          exact ⟨r, hr, ⟨fun s hs => Option.noConfusion hs, h1, h2⟩⟩
        · rintro ⟨r, hr, _, h1, h2⟩
          exact ⟨r, hr, h1, h2⟩
    | some s =>
      have hSid : df.cols.contains "state_id" = true := by
        rcases hS with h | h
        · cases h
        · exact h
      set base := df.filterRows
        (fun r => valEqPd (cellAt df.cols r "state_id") (.intV s)) with hbase
      have hbcols : base.cols = df.cols := rfl
      obtain ⟨res, hrun, hsort, hnd, hmem⟩ := listingTail_spec base "lga_id" "lga_name"
        (by rw [hbcols]; exact hA) (by rw [hbcols]; exact hB)
        (by
          intro r hr
          exact hlga r (List.mem_filter.mp hr).1)
      refine ⟨res, ?_, hsort, hnd, ?_⟩
      · unfold getLgasByState
        simp only [Bind.bind, Except.bind, DF.hasCol, hSid, if_pos]
        simpa [pure, Except.pure] using hrun
      · intro i nm
        rw [hmem i nm]
        constructor
        · rintro ⟨r, hr, h1, h2⟩
          have hrr := List.mem_filter.mp hr
          exact ⟨r, hrr.1, ⟨fun σ hσ => by cases hσ; exact hrr.2, h1, h2⟩⟩
        · rintro ⟨r, hr, hsc, h1, h2⟩
          exact ⟨r, List.mem_filter.mpr ⟨hr, hsc s rfl⟩, h1, h2⟩
  · cases lid with
    | none =>
      obtain ⟨res, hrun, hsort, hnd, hmem⟩ := listingTail_spec df "ward_id" "ward_name" hC hD hward
      refine ⟨res, ?_, hsort, hnd, ?_⟩
      · unfold getWardsByLga
        simpa [Bind.bind, Except.bind] using hrun
      · intro i nm
        rw [hmem i nm]
        constructor
        · rintro ⟨r, hr, h1, h2⟩
          exact ⟨r, hr, ⟨fun σ hσ => Option.noConfusion hσ, h1, h2⟩⟩
        · rintro ⟨r, hr, _, h1, h2⟩
          exact ⟨r, hr, h1, h2⟩
    | some s =>
      set base := df.filterRows
        (fun r => valEqPd (cellAt df.cols r "lga_id") (.intV s)) with hbase
      obtain ⟨res, hrun, hsort, hnd, hmem⟩ := listingTail_spec base "ward_id" "ward_name"
        hC hD
        (by
          intro r hr
          exact hward r (List.mem_filter.mp hr).1)
      refine ⟨res, ?_, hsort, hnd, ?_⟩
      · unfold getWardsByLga
        simp only [Bind.bind, Except.bind, DF.hasCol, hA, if_pos]
        simpa [pure, Except.pure] using hrun
      · intro i nm
        rw [hmem i nm]
        constructor
        · rintro ⟨r, hr, h1, h2⟩
          have hrr := List.mem_filter.mp hr
          exact ⟨r, hrr.1, ⟨fun σ hσ => by cases hσ; exact hrr.2, h1, h2⟩⟩
        · rintro ⟨r, hr, hsc, h1, h2⟩
          exact ⟨r, List.mem_filter.mpr ⟨hr, hsc s rfl⟩, h1, h2⟩

/-- C8 (witness): the amended contract applied to a two-column table
with a duplicate row, a null identifier and a null name. -/
theorem c8_child_listings_amended_witness :
    (let df : DF := ⟨["lga_id", "lga_name", "ward_id", "ward_name"],
      [[Val.intV 1, Val.strV "B", Val.intV 10, Val.strV "W1"],
       [Val.intV 1, Val.strV "B", Val.intV 10, Val.strV "W1"],
       [Val.intV 2, Val.null, Val.null, Val.null]]⟩
     ∃ res, getLgasByState df none = .ok res ∧
       List.Sorted (fun a b : Int × Val => nameLe a.2 b.2 = true) res ∧
       res.Nodup ∧
       ∀ i nm, (i, nm) ∈ res ↔ ∃ r ∈ df.rows,
         (∀ s, (none : Option Int) = some s →
           valEqPd (cellAt df.cols r "state_id") (Val.intV s) = true) ∧
         cellAt df.cols r "lga_id" = Val.intV i ∧
         cellAt df.cols r "lga_name" = nm) := by
  intro df
  exact (c8_child_listings_amended df none none (by decide) (by decide) (by decide)
    (by decide) (Or.inl rfl)
    (by
      intro r hr
      simp only [List.mem_cons, List.not_mem_nil, or_false] at hr
      rcases hr with rfl | rfl | rfl
      · exact Or.inr ⟨1, rfl⟩
      · exact Or.inr ⟨1, rfl⟩
      · exact Or.inr ⟨2, rfl⟩)
    (by
      intro r hr
      simp only [List.mem_cons, List.not_mem_nil, or_false] at hr
      rcases hr with rfl | rfl | rfl
      · exact Or.inr ⟨10, rfl⟩
      · exact Or.inr ⟨10, rfl⟩
      · exact Or.inl rfl)).1

/-! ### Claim C10 -/

/-- C10: when exactly one of `state_id` and `state_name` is present, the
distinct-state listing raises a `KeyError` (from the two-column
selection) rather than returning the empty list, because the guard
requires both columns to be missing before returning `[]`. -/
theorem c10_get_states_single_column_keyerror (df : DF)
    (h : df.hasCol "state_id" ≠ df.hasCol "state_name") :
    ∃ s, getStates df = .error (.keyError s) := by
  refine ⟨"column not found", ?_⟩
  have hguard : (!df.hasCol "state_id" && !df.hasCol "state_name") = false := by
    cases h1 : df.hasCol "state_id" <;> cases h2 : df.hasCol "state_name" <;>
      simp_all
  have hsel : (["state_id", "state_name"].all fun c => df.cols.contains c) = false := by
    cases h1 : df.hasCol "state_id" <;> cases h2 : df.hasCol "state_name" <;>
      simp_all [DF.hasCol]
  have hsel2 : df.select ["state_id", "state_name"] = .error (.keyError "column not found") := by
    unfold DF.select
    rw [hsel]
    simp
  unfold getStates
  rw [hguard]
  simp [hsel2, Bind.bind, Except.bind]

/-- C10 (witness): a table carrying only `state_id` makes the listing
fail with a `KeyError`. -/
theorem c10_get_states_single_column_keyerror_witness :
    (⟨["state_id"], [[Val.intV 1]]⟩ : DF).hasCol "state_id" ≠
      (⟨["state_id"], [[Val.intV 1]]⟩ : DF).hasCol "state_name" ∧
    ∃ s, getStates (⟨["state_id"], [[Val.intV 1]]⟩ : DF) = .error (.keyError s) :=
  ⟨by decide, c10_get_states_single_column_keyerror _ (by decide)⟩

/-! ### Constructive success of the assembler stages -/

theorem mem_insSort {α} (le : α → α → Bool) (l : List α) (a : α) :
    a ∈ insSort le l ↔ a ∈ l :=
  (List.perm_insertionSort (fun x y => le x y = true) l).mem_iff

theorem select_ok_of (df : DF) (cs : List String) (h : ∀ c ∈ cs, c ∈ df.cols) :
    df.select cs =
      .ok ⟨cs, df.rows.map (fun r => cs.map (fun c => cellAt df.cols r c))⟩ := by
  unfold DF.select
  rw [if_pos (List.all_eq_true.mpr (fun c hc => contains_of_mem (h c hc)))]

theorem renameCol_WF (df : DF) (a b : String) (h : df.WF) :
    (df.renameCol a b).WF := by
  intro r hr
  simpa [DF.renameCol] using h r hr

theorem setCol_cells (df : DF) (cname : String) (vs : List Val) (hWF : df.WF) :
    (df.setCol cname vs).WF ∧
    ((df.setCol cname vs).cols = df.cols ∨
      (df.setCol cname vs).cols = df.cols ++ [cname]) ∧
    ∀ row2 ∈ (df.setCol cname vs).rows, ∃ row ∈ df.rows,
      ∀ c, c ≠ cname →
        cellAt (df.setCol cname vs).cols row2 c = cellAt df.cols row c := by
  unfold DF.setCol
  by_cases hc : df.cols.contains cname
  · rw [if_pos hc]
    refine ⟨?_, Or.inl rfl, ?_⟩
    · intro r2 hr2
      obtain ⟨p, hp, hpe⟩ := List.mem_map.mp hr2
      rw [← hpe, length_setFirst]
      exact hWF p.1 (List.of_mem_zip hp).1
    · intro row2 hrow2
      obtain ⟨p, hp, hpe⟩ := List.mem_map.mp hrow2
      refine ⟨p.1, (List.of_mem_zip hp).1, fun c hcn => ?_⟩
      rw [← hpe]
      exact cellAt_setFirst_ne df.cols p.1 cname p.2 c hcn
  · rw [if_neg hc]
    refine ⟨?_, Or.inr rfl, ?_⟩
    · intro r2 hr2
      obtain ⟨p, hp, hpe⟩ := List.mem_map.mp hr2
      rw [← hpe]
      simp [hWF p.1 (List.of_mem_zip hp).1]
    · intro row2 hrow2
      obtain ⟨p, hp, hpe⟩ := List.mem_map.mp hrow2
      have hmem : p.1 ∈ df.rows := (List.of_mem_zip hp).1
      refine ⟨p.1, hmem, fun c hcn => ?_⟩
      rw [← hpe]
      by_cases hcm : c ∈ df.cols
      · exact cellAt_append_left df.cols p.1 [cname] [p.2] c hcm (hWF p.1 hmem)
      · rw [cellAt_not_mem _ _ c (by simp [hcm, hcn]),
            cellAt_not_mem _ _ c hcm]

theorem stateNameStage_cells (mapping : List (Int × String)) (m3 : DF) (hWF : m3.WF) :
    (stateNameStage mapping m3).WF ∧
    ((stateNameStage mapping m3).cols = m3.cols ∨
      (stateNameStage mapping m3).cols = m3.cols ++ ["state_name"]) ∧
    ∀ row4 ∈ (stateNameStage mapping m3).rows, ∃ row ∈ m3.rows,
      ∀ c, c ≠ "state_name" →
        cellAt (stateNameStage mapping m3).cols row4 c = cellAt m3.cols row c := by
  unfold stateNameStage
  split
  · exact setCol_cells m3 "state_name" _ hWF
  · exact setCol_cells m3 "state_name" _ hWF

theorem mergeWardStage_empty (ward m1 : DF) (h : ward.rows = []) :
    mergeWardStage ward m1 = .ok m1 := by
  unfold mergeWardStage
  rw [if_neg (by simp [h])]
  rfl

theorem mergeLgaStage_empty (lga m2 : DF) (h : lga.rows = []) :
    mergeLgaStage lga m2 = .ok m2 := by
  unfold mergeLgaStage
  rw [if_neg (by simp [h])]
  rfl

theorem mapColE_pyIntCoerce_id (A : DF) (c : String)
    (hc : A.cols.contains c = true)
    (hids : ∀ r ∈ A.rows, cellAt A.cols r c = Val.null ∨
      ∃ n, cellAt A.cols r c = Val.intV n) :
    A.mapColE c pyIntCoerce = .ok A := by
  unfold DF.mapColE
  rw [if_neg (by simp [mem_of_contains hc])]
  have hrows : mapColRows A.cols c pyIntCoerce A.rows = .ok A.rows := by
    have hptw : ∀ r ∈ A.rows,
        (fun r => do
          let v ← pyIntCoerce (cellAt A.cols r c)
          pure (setFirst A.cols r c v) : List Val → Except Err (List Val)) r =
          Except.ok ((fun r => r) r) := by
      intro r hr
      rcases hids r hr with hnull | ⟨n, hint⟩
      · show (do
          let v ← pyIntCoerce (cellAt A.cols r c)
          pure (setFirst A.cols r c v) : Except Err (List Val)) = Except.ok r
        rw [hnull]
        show Except.ok (setFirst A.cols r c Val.null) = Except.ok r
        rw [← hnull, setFirst_cellAt_self]
      · show (do
          let v ← pyIntCoerce (cellAt A.cols r c)
          pure (setFirst A.cols r c v) : Except Err (List Val)) = Except.ok r
        rw [hint]
        show Except.ok (setFirst A.cols r c (Val.intV n)) = Except.ok r
        rw [← hint, setFirst_cellAt_self]
    have h := mapM_ok_of_forall _ _ A.rows hptw
    have h2 : A.rows.map (fun r : List Val => r) = A.rows := List.map_id A.rows
    rw [h2] at h
    exact h
  rw [show (do
      let rows ← mapColRows A.cols c pyIntCoerce A.rows
      pure ⟨A.cols, rows⟩ : Except Err DF) =
        Except.ok ⟨A.cols, A.rows⟩ by rw [hrows]; rfl]

theorem finalizeStage_ok_of (pp m4 : DF) (parties : List String)
    (hppcols : pp.cols = "polling_unit_uniqueid" :: parties)
    (hcells : ∀ c, c ∈ parties → c ≠ "polling_unit_uniqueid" → m4.hasCol c = true →
      ∀ r ∈ m4.rows, cellAt m4.cols r c = Val.null ∨
        ∃ n, cellAt m4.cols r c = Val.intV n) :
    ∃ out, finalizeStage pp m4 = .ok out ∧
      out.cols = (knownCols.filter (fun c => m4.hasCol c)) ++
        insSort strLe ((pp.cols.filter (fun c => c ≠ "polling_unit_uniqueid")).filter
          (fun c => m4.hasCol c)) := by
  have hpc : ∀ c ∈ (pp.cols.filter (fun c => c ≠ "polling_unit_uniqueid")).filter
      (fun c => m4.hasCol c),
      c ∈ parties ∧ c ≠ "polling_unit_uniqueid" ∧ m4.hasCol c = true := by
    intro c hc
    have h2 := List.mem_filter.mp hc
    have h3 := List.mem_filter.mp h2.1
    have hne : c ≠ "polling_unit_uniqueid" := by simpa using h3.2
    have h4 : c ∈ pp.cols := h3.1
    rw [hppcols] at h4
    rcases List.mem_cons.mp h4 with he | hps
    · exact absurd he hne
    · exact ⟨hps, hne, h2.2⟩
  have hhas : ∀ c ∈ (knownCols.filter (fun c => m4.hasCol c)) ++
      insSort strLe ((pp.cols.filter (fun c => c ≠ "polling_unit_uniqueid")).filter
        (fun c => m4.hasCol c)), c ∈ m4.cols := by
    intro c hc
    rcases List.mem_append.mp hc with h | h
    · exact mem_of_contains (List.mem_filter.mp h).2
    · rw [mem_insSort] at h
      exact mem_of_contains (hpc c h).2.2
  have hsel := select_ok_of m4 ((knownCols.filter (fun c => m4.hasCol c)) ++
      insSort strLe ((pp.cols.filter (fun c => c ≠ "polling_unit_uniqueid")).filter
        (fun c => m4.hasCol c))) hhas
  have hWFfin : (⟨(knownCols.filter (fun c => m4.hasCol c)) ++
      insSort strLe ((pp.cols.filter (fun c => c ≠ "polling_unit_uniqueid")).filter
        (fun c => m4.hasCol c)),
      m4.rows.map (fun r => ((knownCols.filter (fun c => m4.hasCol c)) ++
        insSort strLe ((pp.cols.filter (fun c => c ≠ "polling_unit_uniqueid")).filter
          (fun c => m4.hasCol c))).map (fun c => cellAt m4.cols r c))⟩ : DF).WF := by
    intro r hr
    obtain ⟨x, _, hx⟩ := List.mem_map.mp hr
    simp [← hx]
  obtain ⟨out, hout⟩ := coercePartyCols_ok_of
    ((pp.cols.filter (fun c => c ≠ "polling_unit_uniqueid")).filter
      (fun c => m4.hasCol c)) _ hWFfin
    (by
      intro c hc
      exact contains_of_mem (List.mem_append.mpr (Or.inr ((mem_insSort _ _ _).mpr hc))))
    (by
      intro c hc r2 hr2
      obtain ⟨r, hr, hre⟩ := List.mem_map.mp hr2
      obtain ⟨hcp, hcne, hchas⟩ := hpc c hc
      have hcfin : c ∈ (knownCols.filter (fun c => m4.hasCol c)) ++
          insSort strLe ((pp.cols.filter (fun c => c ≠ "polling_unit_uniqueid")).filter
            (fun c => m4.hasCol c)) :=
        List.mem_append.mpr (Or.inr ((mem_insSort _ _ _).mpr hc))
      have hcell : cellAt ((knownCols.filter (fun c => m4.hasCol c)) ++
          insSort strLe ((pp.cols.filter (fun c => c ≠ "polling_unit_uniqueid")).filter
            (fun c => m4.hasCol c))) r2 c = cellAt m4.cols r c := by
        rw [← hre]
        exact cellAt_map_self _ _ c hcfin
      rw [hcell]
      exact hcells c hcp hcne hchas r hr)
  refine ⟨out, ?_, ?_⟩
  · have hstage : finalizeStage pp m4 = coercePartyCols
        ⟨(knownCols.filter (fun c => m4.hasCol c)) ++
          insSort strLe ((pp.cols.filter (fun c => c ≠ "polling_unit_uniqueid")).filter
            (fun c => m4.hasCol c)),
          m4.rows.map (fun r => ((knownCols.filter (fun c => m4.hasCol c)) ++
            insSort strLe ((pp.cols.filter (fun c => c ≠ "polling_unit_uniqueid")).filter
              (fun c => m4.hasCol c))).map (fun c => cellAt m4.cols r c))⟩
        ((pp.cols.filter (fun c => c ≠ "polling_unit_uniqueid")).filter
          (fun c => m4.hasCol c)) := by
      unfold finalizeStage
      dsimp only
      rw [hsel, except_bind_ok]
    exact hstage.trans hout
  · obtain ⟨houtcols, _, _⟩ := coercePartyCols_cells _ _ out hWFfin hout
    exact houtcols

theorem buildFromTables_ward_lga_empty (pu ward lga A : DF)
    (mapping : List (Int × String))
    (hpuNE : pu.rows ≠ []) (hANE : A.rows ≠ [])
    (hpuWF : pu.WF)
    (hAid : A.cols.contains "polling_unit_uniqueid" = true)
    (hAids : ∀ r ∈ A.rows, cellAt A.cols r "polling_unit_uniqueid" = Val.null ∨
      ∃ n, cellAt A.cols r "polling_unit_uniqueid" = Val.intV n)
    (hpab : A.hasCol "party_abbreviation" = true)
    (hpsc : A.hasCol "party_score" = true)
    (hpu2key : (pu.renameCol "uniqueid" "polling_unit_uniqueid").hasCol
      "polling_unit_uniqueid" = true)
    (hfreshK : ∀ p ∈ pivotParties A "polling_unit_uniqueid" "party_abbreviation",
      p ∉ knownCols)
    (hfreshPu : ∀ p ∈ pivotParties A "polling_unit_uniqueid" "party_abbreviation",
      p ∉ (pu.renameCol "uniqueid" "polling_unit_uniqueid").cols)
    (hW : ward.rows = []) (hL : lga.rows = [])
    (hwn : "ward_name" ∉ (pu.renameCol "uniqueid" "polling_unit_uniqueid").cols)
    (hln : "lga_name" ∉ (pu.renameCol "uniqueid" "polling_unit_uniqueid").cols)
    (hsid : "state_id" ∉ (pu.renameCol "uniqueid" "polling_unit_uniqueid").cols) :
    ∃ out, buildFromTables pu ward lga A mapping = .ok out ∧
      "ward_name" ∉ out.cols ∧ "lga_name" ∉ out.cols ∧ "state_id" ∉ out.cols := by
  have hbuild : buildFromTables pu ward lga A mapping =
      finalizeStage (pivotTable A "polling_unit_uniqueid" "party_abbreviation"
          "party_score")
        (stateNameStage mapping
          (mergeLeft (pu.renameCol "uniqueid" "polling_unit_uniqueid")
            (pivotTable A "polling_unit_uniqueid" "party_abbreviation" "party_score")
            "polling_unit_uniqueid")) := by
    unfold buildFromTables
    rw [if_neg (by simp [hpuNE]), if_neg (by simp [hANE]),
        mapColE_pyIntCoerce_id A _ hAid hAids, except_bind_ok,
        if_neg (by simp [hpab, hpsc])]
    rw [if_neg (by simp [hpu2key])]
    dsimp only
    rw [mergeWardStage_empty ward _ hW, except_bind_ok,
        mergeLgaStage_empty lga _ hL, except_bind_ok]
  have hpu2WF : (pu.renameCol "uniqueid" "polling_unit_uniqueid").WF :=
    renameCol_WF pu _ _ hpuWF
  have hm1WF : (mergeLeft (pu.renameCol "uniqueid" "polling_unit_uniqueid")
      (pivotTable A "polling_unit_uniqueid" "party_abbreviation" "party_score")
      "polling_unit_uniqueid").WF := mergeLeft_WF _ _ _ hpu2WF
  obtain ⟨hm4WF, hm4cols, hm4cells⟩ := stateNameStage_cells mapping _ hm1WF
  have hm1mem : ∀ c ∈ (mergeLeft (pu.renameCol "uniqueid" "polling_unit_uniqueid")
      (pivotTable A "polling_unit_uniqueid" "party_abbreviation" "party_score")
      "polling_unit_uniqueid").cols,
      c ∈ (pu.renameCol "uniqueid" "polling_unit_uniqueid").cols ∨
        c ∈ pivotParties A "polling_unit_uniqueid" "party_abbreviation" := by
    intro c hcm
    rw [mergeLeft_cols] at hcm
    rcases List.mem_append.mp hcm with h | h
    · exact Or.inl h
    · right
      have h2 := List.mem_filter.mp h
      have h3 : c ∈ (pivotTable A "polling_unit_uniqueid" "party_abbreviation"
          "party_score").cols := h2.1
      rw [pivotTable_cols] at h3
      rcases List.mem_cons.mp h3 with he | hp
      · exact absurd he (by simpa using h2.2)
      · exact hp
  have hm4mem : ∀ c ∈ (stateNameStage mapping
      (mergeLeft (pu.renameCol "uniqueid" "polling_unit_uniqueid")
        (pivotTable A "polling_unit_uniqueid" "party_abbreviation" "party_score")
        "polling_unit_uniqueid")).cols,
      c ∈ (mergeLeft (pu.renameCol "uniqueid" "polling_unit_uniqueid")
        (pivotTable A "polling_unit_uniqueid" "party_abbreviation" "party_score")
        "polling_unit_uniqueid").cols ∨ c = "state_name" := by
    intro c hcm
    rcases hm4cols with he | he <;> rw [he] at hcm
    · exact Or.inl hcm
    · rcases List.mem_append.mp hcm with h | h
      · exact Or.inl h
      · exact Or.inr (by simpa using h)
  obtain ⟨out, hout, houtcols⟩ := finalizeStage_ok_of
    (pivotTable A "polling_unit_uniqueid" "party_abbreviation" "party_score")
    (stateNameStage mapping
      (mergeLeft (pu.renameCol "uniqueid" "polling_unit_uniqueid")
        (pivotTable A "polling_unit_uniqueid" "party_abbreviation" "party_score")
        "polling_unit_uniqueid"))
    (pivotParties A "polling_unit_uniqueid" "party_abbreviation")
    (pivotTable_cols A _ _ _)
    (by
      intro c hcp hcne _ r hr
      have hcnsn : c ≠ "state_name" := fun he =>
        hfreshK c hcp (by rw [he]; decide)
      obtain ⟨r1, hr1, hpres⟩ := hm4cells r hr
      rw [hpres c hcnsn]
      obtain ⟨lr, hlr, tail, hsplit, htlen, hcases⟩ :=
        mergeLeft_rows_structure (pu.renameCol "uniqueid" "polling_unit_uniqueid")
          (pivotTable A "polling_unit_uniqueid" "party_abbreviation" "party_score")
          "polling_unit_uniqueid" r1 hr1
      have hcnotpu2 : c ∉ (pu.renameCol "uniqueid" "polling_unit_uniqueid").cols :=
        hfreshPu c hcp
      have hcrcols : c ∈ (pivotTable A "polling_unit_uniqueid" "party_abbreviation"
          "party_score").cols.filter (fun x => x ≠ "polling_unit_uniqueid") := by
        apply List.mem_filter.mpr
        refine ⟨?_, by simpa using hcne⟩
        rw [pivotTable_cols]
        exact List.mem_cons_of_mem _ hcp
      rw [hsplit, mergeLeft_cols,
        cellAt_append_right _ lr _ tail c hcnotpu2 (hpu2WF lr hlr)]
      rcases hcases with ⟨htail, _⟩ | ⟨rr, hrr, _, htail⟩
      · rw [htail, cellAt_map_self _ _ c hcrcols]
        exact Or.inl rfl
      · rw [htail, cellAt_map_self _ _ c hcrcols]
        obtain ⟨m, hm, hrre⟩ := pivot_rows_structure A "polling_unit_uniqueid"
          "party_abbreviation" "party_score" rr hrr
        rw [hrre]
        exact Or.inr ⟨_, pivot_cell_party A "polling_unit_uniqueid"
          "party_abbreviation" "party_score" m c hcp (fun he => hcne he.symm)⟩)
  have houtmem : ∀ c ∈ out.cols,
      (c ∈ knownCols ∧ (stateNameStage mapping
        (mergeLeft (pu.renameCol "uniqueid" "polling_unit_uniqueid")
          (pivotTable A "polling_unit_uniqueid" "party_abbreviation" "party_score")
          "polling_unit_uniqueid")).hasCol c = true) ∨
      c ∈ pivotParties A "polling_unit_uniqueid" "party_abbreviation" := by
    intro c hc
    rw [houtcols] at hc
    rcases List.mem_append.mp hc with h | h
    · exact Or.inl ⟨(List.mem_filter.mp h).1, (List.mem_filter.mp h).2⟩
    · right
      rw [mem_insSort] at h
      have h2 := List.mem_filter.mp h
      have h3 := List.mem_filter.mp h2.1
      have h4 : c ∈ (pivotTable A "polling_unit_uniqueid" "party_abbreviation"
          "party_score").cols := h3.1
      rw [pivotTable_cols] at h4
      rcases List.mem_cons.mp h4 with he | hp
      · exact absurd he (by simpa using h3.2)
      · exact hp
  have habs : ∀ c, c ∈ knownCols → c ≠ "state_name" →
      c ∉ (pu.renameCol "uniqueid" "polling_unit_uniqueid").cols → c ∉ out.cols := by
    intro c hck hcsn hcpu2 hc
    rcases houtmem c hc with ⟨_, hhasc⟩ | hp
    · have hcm4 := mem_of_contains hhasc
      rcases hm4mem c hcm4 with hm1c | he
      · rcases hm1mem c hm1c with h | h
        · exact hcpu2 h
        · exact hfreshK c h hck
      · exact hcsn he
    · exact hfreshK c hp hck
  exact ⟨out, hbuild.trans hout,
    habs "ward_name" (by decide) (by decide) hwn,
    habs "lga_name" (by decide) (by decide) hln,
    habs "state_id" (by decide) (by decide) hsid⟩

/-! ### Claim C3 -/

/-- C3: the Result Assembler fails with the missing-data error exactly
when the extracted `polling_unit` table or the extracted
`announced_pu_results` table is empty (first conjunct, for every input);
and with both mandatory tables usable, an empty `ward` table and an
empty `lga` table raise no error: the build succeeds and the assembled
table simply omits the derived `ward_name`, `lga_name` and `state_id`
columns (second conjunct). -/
theorem c3_missing_data_exactly_and_optional_enrichment
    (pu ward lga A : DF) (mapping : List (Int × String))
    (hpuNE : pu.rows ≠ []) (hANE : A.rows ≠ [])
    (hpuWF : pu.WF)
    (hAid : A.cols.contains "polling_unit_uniqueid" = true)
    (hAids : ∀ r ∈ A.rows, cellAt A.cols r "polling_unit_uniqueid" = Val.null ∨
      ∃ n, cellAt A.cols r "polling_unit_uniqueid" = Val.intV n)
    (hpab : A.hasCol "party_abbreviation" = true)
    (hpsc : A.hasCol "party_score" = true)
    (hpu2key : (pu.renameCol "uniqueid" "polling_unit_uniqueid").hasCol
      "polling_unit_uniqueid" = true)
    (hfreshK : ∀ p ∈ pivotParties A "polling_unit_uniqueid" "party_abbreviation",
      p ∉ knownCols)
    (hfreshPu : ∀ p ∈ pivotParties A "polling_unit_uniqueid" "party_abbreviation",
      p ∉ (pu.renameCol "uniqueid" "polling_unit_uniqueid").cols)
    (hW : ward.rows = []) (hL : lga.rows = [])
    (hwn : "ward_name" ∉ (pu.renameCol "uniqueid" "polling_unit_uniqueid").cols)
    (hln : "lga_name" ∉ (pu.renameCol "uniqueid" "polling_unit_uniqueid").cols)
    (hsid : "state_id" ∉ (pu.renameCol "uniqueid" "polling_unit_uniqueid").cols) :
    (∀ pu0 ward0 lga0 A0 : DF, ∀ mapping0 : List (Int × String),
      (∃ t, buildFromTables pu0 ward0 lga0 A0 mapping0 = .error (.missingData t)) ↔
        (pu0.rows = [] ∨ A0.rows = [])) ∧
    ∃ out, buildFromTables pu ward lga A mapping = .ok out ∧
      "ward_name" ∉ out.cols ∧ "lga_name" ∉ out.cols ∧ "state_id" ∉ out.cols :=
  ⟨fun pu0 ward0 lga0 A0 mapping0 =>
      buildFromTables_missingData_iff pu0 ward0 lga0 A0 mapping0,
    buildFromTables_ward_lga_empty pu ward lga A mapping hpuNE hANE hpuWF hAid hAids
      hpab hpsc hpu2key hfreshK hfreshPu hW hL hwn hln hsid⟩

/-- C3 (witness): a one-row polling-unit table and a one-row tally
table, with the ward and lga tables empty, satisfy every hypothesis, and
the build succeeds with `ward_name`, `lga_name` and `state_id` omitted
from the result's columns. -/
theorem c3_missing_data_exactly_and_optional_enrichment_witness :
    ((⟨["uniqueid", "polling_unit_name"],
        [[Val.intV 7, Val.strV "PU7"]]⟩ : DF).rows ≠ [] ∧
      (⟨["polling_unit_uniqueid", "party_abbreviation", "party_score"],
        [[Val.intV 7, Val.strV "APC", Val.intV 120]]⟩ : DF).rows ≠ [] ∧
      (⟨["uniqueid", "polling_unit_name"],
        [[Val.intV 7, Val.strV "PU7"]]⟩ : DF).WF ∧
      (⟨["polling_unit_uniqueid", "party_abbreviation", "party_score"],
        [[Val.intV 7, Val.strV "APC", Val.intV 120]]⟩ : DF).cols.contains
          "polling_unit_uniqueid" = true ∧
      (∀ r ∈ (⟨["polling_unit_uniqueid", "party_abbreviation", "party_score"],
          [[Val.intV 7, Val.strV "APC", Val.intV 120]]⟩ : DF).rows,
        cellAt (⟨["polling_unit_uniqueid", "party_abbreviation", "party_score"],
            [[Val.intV 7, Val.strV "APC", Val.intV 120]]⟩ : DF).cols r
            "polling_unit_uniqueid" = Val.null ∨
          ∃ n, cellAt (⟨["polling_unit_uniqueid", "party_abbreviation", "party_score"],
            [[Val.intV 7, Val.strV "APC", Val.intV 120]]⟩ : DF).cols r
            "polling_unit_uniqueid" = Val.intV n) ∧
      (⟨["polling_unit_uniqueid", "party_abbreviation", "party_score"],
        [[Val.intV 7, Val.strV "APC", Val.intV 120]]⟩ : DF).hasCol
          "party_abbreviation" = true ∧
      (⟨["polling_unit_uniqueid", "party_abbreviation", "party_score"],
        [[Val.intV 7, Val.strV "APC", Val.intV 120]]⟩ : DF).hasCol
          "party_score" = true ∧
      ((⟨["uniqueid", "polling_unit_name"],
        [[Val.intV 7, Val.strV "PU7"]]⟩ : DF).renameCol "uniqueid"
          "polling_unit_uniqueid").hasCol "polling_unit_uniqueid" = true ∧
      (∀ p ∈ pivotParties (⟨["polling_unit_uniqueid", "party_abbreviation",
          "party_score"], [[Val.intV 7, Val.strV "APC", Val.intV 120]]⟩ : DF)
          "polling_unit_uniqueid" "party_abbreviation", p ∉ knownCols) ∧
      (∀ p ∈ pivotParties (⟨["polling_unit_uniqueid", "party_abbreviation",
          "party_score"], [[Val.intV 7, Val.strV "APC", Val.intV 120]]⟩ : DF)
          "polling_unit_uniqueid" "party_abbreviation",
        p ∉ ((⟨["uniqueid", "polling_unit_name"],
          [[Val.intV 7, Val.strV "PU7"]]⟩ : DF).renameCol "uniqueid"
            "polling_unit_uniqueid").cols) ∧
      (⟨[], []⟩ : DF).rows = ([] : List (List Val)) ∧
      "ward_name" ∉ ((⟨["uniqueid", "polling_unit_name"],
        [[Val.intV 7, Val.strV "PU7"]]⟩ : DF).renameCol "uniqueid"
          "polling_unit_uniqueid").cols ∧
      "lga_name" ∉ ((⟨["uniqueid", "polling_unit_name"],
        [[Val.intV 7, Val.strV "PU7"]]⟩ : DF).renameCol "uniqueid"
          "polling_unit_uniqueid").cols ∧
      "state_id" ∉ ((⟨["uniqueid", "polling_unit_name"],
        [[Val.intV 7, Val.strV "PU7"]]⟩ : DF).renameCol "uniqueid"
          "polling_unit_uniqueid").cols) ∧
    ((∀ pu0 ward0 lga0 A0 : DF, ∀ mapping0 : List (Int × String),
      (∃ t, buildFromTables pu0 ward0 lga0 A0 mapping0 = .error (.missingData t)) ↔
        (pu0.rows = [] ∨ A0.rows = [])) ∧
    ∃ out, buildFromTables
        (⟨["uniqueid", "polling_unit_name"], [[Val.intV 7, Val.strV "PU7"]]⟩ : DF)
        (⟨[], []⟩ : DF) (⟨[], []⟩ : DF)
        (⟨["polling_unit_uniqueid", "party_abbreviation", "party_score"],
          [[Val.intV 7, Val.strV "APC", Val.intV 120]]⟩ : DF) [] = .ok out ∧
      "ward_name" ∉ out.cols ∧ "lga_name" ∉ out.cols ∧ "state_id" ∉ out.cols) :=
  ⟨⟨by decide, by decide, by intro r hr; rw [List.mem_singleton] at hr; subst hr; rfl, by decide,
    (by
      intro r hr
      rw [List.mem_singleton] at hr
      subst hr
      exact Or.inr ⟨7, rfl⟩),
    by decide, by decide, by decide, by decide, by decide, rfl,
    by decide, by decide, by decide⟩,
   c3_missing_data_exactly_and_optional_enrichment
    (⟨["uniqueid", "polling_unit_name"], [[Val.intV 7, Val.strV "PU7"]]⟩ : DF)
    (⟨[], []⟩ : DF) (⟨[], []⟩ : DF)
    (⟨["polling_unit_uniqueid", "party_abbreviation", "party_score"],
      [[Val.intV 7, Val.strV "APC", Val.intV 120]]⟩ : DF) []
    (by decide) (by decide)
    (by intro r hr; rw [List.mem_singleton] at hr; subst hr; rfl) (by decide)
    (by
      intro r hr
      rw [List.mem_singleton] at hr
      subst hr
      exact Or.inr ⟨7, rfl⟩)
    (by decide) (by decide) (by decide) (by decide) (by decide) rfl rfl
    (by decide) (by decide) (by decide)⟩

/-! ### Propagating cells through the optional merges -/

theorem mergeWardStage_ok_cases (ward m1 m2 : DF)
    (h : mergeWardStage ward m1 = .ok m2) :
    m2 = m1 ∨ ∃ w : DF, m2 = mergeLeft m1 w "ward_id" := by
  unfold mergeWardStage at h
  split at h
  · cases hsel : ward.select ["ward_id", "ward_name"] with
    | error e => rw [hsel, except_bind_error] at h; cases h
    | ok w =>
      rw [hsel, except_bind_ok] at h
      split at h
      · cases h
        exact Or.inr ⟨w, rfl⟩
      · cases h
  · cases h
    exact Or.inl rfl

theorem mergeLgaStage_ok_cases (lga m2 m3 : DF)
    (h : mergeLgaStage lga m2 = .ok m3) :
    m3 = m2 ∨ ∃ g : DF, m3 = mergeLeft m2 g "lga_id" := by
  unfold mergeLgaStage at h
  split at h
  · cases hsel : lga.select ["lga_id", "lga_name", "state_id"] with
    | error e => rw [hsel, except_bind_error] at h; cases h
    | ok g =>
      rw [hsel, except_bind_ok] at h
      split at h
      · cases h
        exact Or.inr ⟨g, rfl⟩
      · cases h
  · cases h
    exact Or.inl rfl

theorem stage_preserves_cells (m1 m2 : DF) (hWF : m1.WF)
    (hcase : m2 = m1 ∨ ∃ w : DF, ∃ k : String, m2 = mergeLeft m1 w k) :
    m2.WF ∧ (∀ c ∈ m1.cols, c ∈ m2.cols) ∧
    ∀ row2 ∈ m2.rows, ∃ row ∈ m1.rows,
      ∀ c ∈ m1.cols, cellAt m2.cols row2 c = cellAt m1.cols row c := by
  rcases hcase with rfl | ⟨w, k, rfl⟩
  · exact ⟨hWF, fun c hc => hc, fun row2 h2 => ⟨row2, h2, fun c _ => rfl⟩⟩
  · refine ⟨mergeLeft_WF _ _ _ hWF, ?_, ?_⟩
    · intro c hc
      rw [mergeLeft_cols]
      exact List.mem_append.mpr (Or.inl hc)
    · intro row2 h2
      obtain ⟨row, hrow, hcells⟩ := mergeLeft_left_cells m1 w k hWF row2 h2
      exact ⟨row, hrow, fun c hc => hcells c hc⟩

/-- The invariant established by the first merge: in a row of
`pu2.merge(pivot, on=key, how='left')` whose key cell is the integer
`k`, a party column `p` holds the aggregated sum of the tally for
`(k, p)`, or `NaN` (with the sum `0`) when the key matched no pivot
row. -/
theorem merge_pivot_inv (pu2 A : DF) (p : String)
    (hpu2WF : pu2.WF)
    (hkeyPu2 : "polling_unit_uniqueid" ∈ pu2.cols)
    (hpnot : p ∉ pu2.cols)
    (hp : p ∈ pivotParties A "polling_unit_uniqueid" "party_abbreviation")
    (hpkey : p ≠ "polling_unit_uniqueid") :
    ∀ rowm ∈ (mergeLeft pu2
        (pivotTable A "polling_unit_uniqueid" "party_abbreviation" "party_score")
        "polling_unit_uniqueid").rows, ∀ k : Int,
      cellAt (mergeLeft pu2
        (pivotTable A "polling_unit_uniqueid" "party_abbreviation" "party_score")
        "polling_unit_uniqueid").cols rowm "polling_unit_uniqueid" = Val.intV k →
      (cellAt (mergeLeft pu2
        (pivotTable A "polling_unit_uniqueid" "party_abbreviation" "party_score")
        "polling_unit_uniqueid").cols rowm p =
          Val.intV (tallySum A "polling_unit_uniqueid" "party_abbreviation"
            "party_score" k p) ∨
       (cellAt (mergeLeft pu2
        (pivotTable A "polling_unit_uniqueid" "party_abbreviation" "party_score")
        "polling_unit_uniqueid").cols rowm p = Val.null ∧
        tallySum A "polling_unit_uniqueid" "party_abbreviation" "party_score"
          k p = 0)) := by
  intro rowm hrowm k hkey
  obtain ⟨lr, hlr, tail, hsplit, htlen, hcases⟩ :=
    mergeLeft_rows_structure pu2
      (pivotTable A "polling_unit_uniqueid" "party_abbreviation" "party_score")
      "polling_unit_uniqueid" rowm hrowm
  have hlrlen := hpu2WF lr hlr
  have hkeylr : cellAt pu2.cols lr "polling_unit_uniqueid" = Val.intV k := by
    rw [hsplit, mergeLeft_cols,
      cellAt_append_left _ _ _ _ _ hkeyPu2 hlrlen] at hkey
    exact hkey
  have hprcols : p ∈ (pivotTable A "polling_unit_uniqueid" "party_abbreviation"
      "party_score").cols.filter (fun x => x ≠ "polling_unit_uniqueid") := by
    apply List.mem_filter.mpr
    refine ⟨?_, by simpa using hpkey⟩
    rw [pivotTable_cols]
    exact List.mem_cons_of_mem _ hp
  have hptail : cellAt (mergeLeft pu2
      (pivotTable A "polling_unit_uniqueid" "party_abbreviation" "party_score")
      "polling_unit_uniqueid").cols rowm p =
      cellAt ((pivotTable A "polling_unit_uniqueid" "party_abbreviation"
        "party_score").cols.filter (fun x => x ≠ "polling_unit_uniqueid")) tail p := by
    rw [hsplit, mergeLeft_cols, cellAt_append_right _ _ _ _ _ hpnot hlrlen]
  rcases hcases with ⟨htail, hnom⟩ | ⟨rr, hrr, hveq, htail⟩
  · right
    constructor
    · rw [hptail, htail, cellAt_map_self _ _ p hprcols]
    · apply tallySum_eq_zero
      intro rowA hrowA
      rintro ⟨hid, hcne⟩
      have hkmem : k ∈ pivotIds A "polling_unit_uniqueid" "party_abbreviation" :=
        (pivotIds_mem A "polling_unit_uniqueid" "party_abbreviation" k).mpr
          ⟨rowA, hrowA, hid, hcne⟩
      have hthis := hnom _ (pivot_row_of_id A "polling_unit_uniqueid"
        "party_abbreviation" "party_score" k hkmem)
      rw [hkeylr, pivot_cell_key] at hthis
      simp [valEqPd] at hthis
  · left
    obtain ⟨m, hm, hrre⟩ := pivot_rows_structure A "polling_unit_uniqueid"
      "party_abbreviation" "party_score" rr hrr
    rw [hkeylr, hrre, pivot_cell_key] at hveq
    have hkm : k = m := by simpa [valEqPd] using hveq
    cases hkm
    rw [hptail, htail, cellAt_map_self _ _ p hprcols, hrre,
      pivot_cell_party A "polling_unit_uniqueid" "party_abbreviation"
        "party_score" k p hp (fun he => hpkey he.symm)]

/-! ### Claim C1 -/

/-- C1: the pivot step groups the vote tally by polling-unit identifier
and party and sums the scores — duplicate (identifier, party) pairs
accumulate and absent pairs contribute `0` (`tallySum` is the group
sum, `0` on the empty group) — and the aggregate survives to the
Assembled Table: in every successfully built table, a row whose
polling-unit identifier is `n` carries, in party column `p`, exactly
the integer `tallySum announced n p`. -/
theorem c1_pivot_accumulates
    (pu ward lga A out : DF) (mapping : List (Int × String)) (p : String)
    (hpuWF : pu.WF)
    (hAid : A.cols.contains "polling_unit_uniqueid" = true)
    (hAids : ∀ r ∈ A.rows, cellAt A.cols r "polling_unit_uniqueid" = Val.null ∨
      ∃ n, cellAt A.cols r "polling_unit_uniqueid" = Val.intV n)
    (hpu2key : (pu.renameCol "uniqueid" "polling_unit_uniqueid").hasCol
      "polling_unit_uniqueid" = true)
    (hfreshK : ∀ q ∈ pivotParties A "polling_unit_uniqueid" "party_abbreviation",
      q ∉ knownCols)
    (hfreshPu : ∀ q ∈ pivotParties A "polling_unit_uniqueid" "party_abbreviation",
      q ∉ (pu.renameCol "uniqueid" "polling_unit_uniqueid").cols)
    (hbuild : buildFromTables pu ward lga A mapping = .ok out)
    (hp : p ∈ pivotParties A "polling_unit_uniqueid" "party_abbreviation") :
    ∀ row ∈ out.rows, ∀ n : Int,
      cellAt out.cols row "polling_unit_uniqueid" = Val.intV n →
      cellAt out.cols row p = Val.intV (tallySum A "polling_unit_uniqueid"
        "party_abbreviation" "party_score" n p) := by
  obtain ⟨ann, m2, m3, hann, hm2, hm3, hfin⟩ :=
    buildFromTables_ok_parts pu ward lga A mapping out hbuild
  have h2 := mapColE_pyIntCoerce_id A "polling_unit_uniqueid" hAid hAids
  rw [hann] at h2
  have hannA : A = ann := (Except.ok.inj h2).symm
  subst hannA
  have hpu2WF := renameCol_WF pu "uniqueid" "polling_unit_uniqueid" hpuWF
  have hm1WF : (mergeLeft (pu.renameCol "uniqueid" "polling_unit_uniqueid")
      (pivotTable A "polling_unit_uniqueid" "party_abbreviation" "party_score")
      "polling_unit_uniqueid").WF := mergeLeft_WF _ _ _ hpu2WF
  have hkeyPu2 : "polling_unit_uniqueid" ∈
      (pu.renameCol "uniqueid" "polling_unit_uniqueid").cols := mem_of_contains hpu2key
  have hpkey : p ≠ "polling_unit_uniqueid" := fun he => hfreshK p hp (by rw [he]; decide)
  have hpsn : p ≠ "state_name" := fun he => hfreshK p hp (by rw [he]; decide)
  have hkeym1 : "polling_unit_uniqueid" ∈
      (mergeLeft (pu.renameCol "uniqueid" "polling_unit_uniqueid")
        (pivotTable A "polling_unit_uniqueid" "party_abbreviation" "party_score")
        "polling_unit_uniqueid").cols := by
    rw [mergeLeft_cols]
    exact List.mem_append.mpr (Or.inl hkeyPu2)
  have hpm1 : p ∈ (mergeLeft (pu.renameCol "uniqueid" "polling_unit_uniqueid")
      (pivotTable A "polling_unit_uniqueid" "party_abbreviation" "party_score")
      "polling_unit_uniqueid").cols := by
    rw [mergeLeft_cols]
    refine List.mem_append.mpr (Or.inr ?_)
    apply List.mem_filter.mpr
    refine ⟨?_, by simpa using hpkey⟩
    rw [pivotTable_cols]
    exact List.mem_cons_of_mem _ hp
  have hinv := merge_pivot_inv (pu.renameCol "uniqueid" "polling_unit_uniqueid") A p
    hpu2WF hkeyPu2 (hfreshPu p hp) hp hpkey
  obtain ⟨hm2WF, hm2sub, hm2cells⟩ := stage_preserves_cells _ m2 hm1WF
    (by
      rcases mergeWardStage_ok_cases ward _ m2 hm2 with he | ⟨w, he⟩
      · exact Or.inl he
      · exact Or.inr ⟨w, "ward_id", he⟩)
  obtain ⟨hm3WF, hm3sub, hm3cells⟩ := stage_preserves_cells m2 m3 hm2WF
    (by
      rcases mergeLgaStage_ok_cases lga m2 m3 hm3 with he | ⟨g, he⟩
      · exact Or.inl he
      · exact Or.inr ⟨g, "lga_id", he⟩)
  obtain ⟨hm4WF, hm4colsOr, hm4cells⟩ := stateNameStage_cells mapping m3 hm3WF
  have hkeym2 : "polling_unit_uniqueid" ∈ m2.cols := hm2sub _ hkeym1
  have hkeym3 : "polling_unit_uniqueid" ∈ m3.cols := hm3sub _ hkeym2
  have hpm2 : p ∈ m2.cols := hm2sub _ hpm1
  have hpm3 : p ∈ m3.cols := hm3sub _ hpm2
  have hm4mem : ∀ c ∈ m3.cols, c ∈ (stateNameStage mapping m3).cols := by
    intro c hc
    rcases hm4colsOr with he | he <;> rw [he]
    · exact hc
    · exact List.mem_append.mpr (Or.inl hc)
  have hkeym4 : "polling_unit_uniqueid" ∈ (stateNameStage mapping m3).cols :=
    hm4mem _ hkeym3
  have hpm4 : p ∈ (stateNameStage mapping m3).cols := hm4mem _ hpm3
  obtain ⟨final, hsel, hcoerce⟩ := finalizeStage_ok_parts _ _ out hfin
  obtain ⟨hfcols, hfrows, hfWF⟩ := select_ok_parts _ _ final hsel
  obtain ⟨houtcols, houtWF, houtcells⟩ := coercePartyCols_cells _ final out hfWF hcoerce
  have hpParty : p ∈ ((pivotTable A "polling_unit_uniqueid" "party_abbreviation"
      "party_score").cols.filter (fun c => c ≠ "polling_unit_uniqueid")).filter
      (fun c => (stateNameStage mapping m3).hasCol c) := by
    apply List.mem_filter.mpr
    refine ⟨?_, contains_of_mem hpm4⟩
    apply List.mem_filter.mpr
    refine ⟨?_, by simpa using hpkey⟩
    rw [pivotTable_cols]
    exact List.mem_cons_of_mem _ hp
  have hkeyNotParty : "polling_unit_uniqueid" ∉
      ((pivotTable A "polling_unit_uniqueid" "party_abbreviation"
        "party_score").cols.filter (fun c => c ≠ "polling_unit_uniqueid")).filter
      (fun c => (stateNameStage mapping m3).hasCol c) := by
    intro hP
    have h3 := (List.mem_filter.mp (List.mem_filter.mp hP).1).2
    simp at h3
  have hkeyFinal : "polling_unit_uniqueid" ∈
      (knownCols.filter (fun c => (stateNameStage mapping m3).hasCol c)) ++
        insSort strLe (((pivotTable A "polling_unit_uniqueid" "party_abbreviation"
          "party_score").cols.filter (fun c => c ≠ "polling_unit_uniqueid")).filter
          (fun c => (stateNameStage mapping m3).hasCol c)) := by
    refine List.mem_append.mpr (Or.inl ?_)
    exact List.mem_filter.mpr ⟨by decide, contains_of_mem hkeym4⟩
  have hpFinal : p ∈
      (knownCols.filter (fun c => (stateNameStage mapping m3).hasCol c)) ++
        insSort strLe (((pivotTable A "polling_unit_uniqueid" "party_abbreviation"
          "party_score").cols.filter (fun c => c ≠ "polling_unit_uniqueid")).filter
          (fun c => (stateNameStage mapping m3).hasCol c)) :=
    List.mem_append.mpr (Or.inr ((mem_insSort _ _ _).mpr hpParty))
  intro row2 hrow2 n hkeyCell
  obtain ⟨frow, hfrow, hpres, hcoerced⟩ := houtcells row2 hrow2
  rw [hfrows] at hfrow
  obtain ⟨r4, hr4, hfroweq⟩ := List.mem_map.mp hfrow
  obtain ⟨r3, hr3, hpres4⟩ := hm4cells r4 hr4
  obtain ⟨r2m, hr2m, hpres3⟩ := hm3cells r3 hr3
  obtain ⟨r1m, hr1m, hpres2⟩ := hm2cells r2m hr2m
  have hkeyfinalcell : cellAt final.cols frow "polling_unit_uniqueid" =
      cellAt (stateNameStage mapping m3).cols r4 "polling_unit_uniqueid" := by
    rw [hfcols, ← hfroweq]
    exact cellAt_map_self _ _ _ hkeyFinal
  have hpfinalcell : cellAt final.cols frow p =
      cellAt (stateNameStage mapping m3).cols r4 p := by
    rw [hfcols, ← hfroweq]
    exact cellAt_map_self _ _ _ hpFinal
  have hkeychain : cellAt (stateNameStage mapping m3).cols r4 "polling_unit_uniqueid" =
      cellAt (mergeLeft (pu.renameCol "uniqueid" "polling_unit_uniqueid")
        (pivotTable A "polling_unit_uniqueid" "party_abbreviation" "party_score")
        "polling_unit_uniqueid").cols r1m "polling_unit_uniqueid" := by
    rw [hpres4 _ (by decide), hpres3 _ hkeym2, hpres2 _ hkeym1]
  have hpchain : cellAt (stateNameStage mapping m3).cols r4 p =
      cellAt (mergeLeft (pu.renameCol "uniqueid" "polling_unit_uniqueid")
        (pivotTable A "polling_unit_uniqueid" "party_abbreviation" "party_score")
        "polling_unit_uniqueid").cols r1m p := by
    rw [hpres4 _ hpsn, hpres3 _ hpm2, hpres2 _ hpm1]
  have hkeym1cell : cellAt (mergeLeft (pu.renameCol "uniqueid" "polling_unit_uniqueid")
      (pivotTable A "polling_unit_uniqueid" "party_abbreviation" "party_score")
      "polling_unit_uniqueid").cols r1m "polling_unit_uniqueid" = Val.intV n := by
    rw [← hkeychain, ← hkeyfinalcell, ← hpres "polling_unit_uniqueid" hkeyNotParty]
    exact hkeyCell
  obtain ⟨nn, houtp, hcoe⟩ := hcoerced p hpParty
  have hfp : cellAt final.cols frow p =
      cellAt (mergeLeft (pu.renameCol "uniqueid" "polling_unit_uniqueid")
        (pivotTable A "polling_unit_uniqueid" "party_abbreviation" "party_score")
        "polling_unit_uniqueid").cols r1m p := hpfinalcell.trans hpchain
  rcases hinv r1m hr1m n hkeym1cell with hIV | ⟨hnull, hzero⟩
  · rw [hfp, hIV] at hcoe
    have h5 : (Except.ok (Val.intV (tallySum A "polling_unit_uniqueid"
        "party_abbreviation" "party_score" n p)) : Except Err Val) =
        Except.ok (Val.intV nn) := hcoe
    have h6 := Except.ok.inj h5
    rw [houtp, ← h6]
  · rw [hfp, hnull] at hcoe
    have h5 : (Except.ok (Val.intV 0) : Except Err Val) =
        Except.ok (Val.intV nn) := hcoe
    have h6 : (0 : Int) = nn := Val.intV.inj (Except.ok.inj h5)
    rw [houtp, ← h6, hzero]

/-- C1 (witness): a tally with two rows for polling unit `7` and party
`"APC"` scoring `120` and `30` builds an Assembled Table whose `APC`
cell for unit `7` is the accumulated `150`. -/
theorem c1_pivot_accumulates_witness :
    buildFromTables
        (⟨["uniqueid", "polling_unit_name"], [[Val.intV 7, Val.strV "PU7"]]⟩ : DF)
        (⟨[], []⟩ : DF) (⟨[], []⟩ : DF)
        (⟨["polling_unit_uniqueid", "party_abbreviation", "party_score"],
          [[Val.intV 7, Val.strV "APC", Val.intV 120],
           [Val.intV 7, Val.strV "APC", Val.intV 30]]⟩ : DF) [] =
      .ok (⟨["polling_unit_uniqueid", "polling_unit_name", "state_name", "APC"],
        [[Val.intV 7, Val.strV "PU7", Val.null, Val.intV 150]]⟩ : DF) ∧
    tallySum (⟨["polling_unit_uniqueid", "party_abbreviation", "party_score"],
        [[Val.intV 7, Val.strV "APC", Val.intV 120],
         [Val.intV 7, Val.strV "APC", Val.intV 30]]⟩ : DF)
      "polling_unit_uniqueid" "party_abbreviation" "party_score" 7 "APC" = 150 ∧
    cellAt (⟨["polling_unit_uniqueid", "polling_unit_name", "state_name", "APC"],
        [[Val.intV 7, Val.strV "PU7", Val.null, Val.intV 150]]⟩ : DF).cols
      [Val.intV 7, Val.strV "PU7", Val.null, Val.intV 150] "APC" =
      Val.intV (tallySum (⟨["polling_unit_uniqueid", "party_abbreviation",
          "party_score"],
        [[Val.intV 7, Val.strV "APC", Val.intV 120],
         [Val.intV 7, Val.strV "APC", Val.intV 30]]⟩ : DF)
        "polling_unit_uniqueid" "party_abbreviation" "party_score" 7 "APC") :=
  ⟨rfl, by decide,
   c1_pivot_accumulates
     (⟨["uniqueid", "polling_unit_name"], [[Val.intV 7, Val.strV "PU7"]]⟩ : DF)
     (⟨[], []⟩ : DF) (⟨[], []⟩ : DF)
     (⟨["polling_unit_uniqueid", "party_abbreviation", "party_score"],
       [[Val.intV 7, Val.strV "APC", Val.intV 120],
        [Val.intV 7, Val.strV "APC", Val.intV 30]]⟩ : DF)
     (⟨["polling_unit_uniqueid", "polling_unit_name", "state_name", "APC"],
       [[Val.intV 7, Val.strV "PU7", Val.null, Val.intV 150]]⟩ : DF)
     [] "APC"
     (by intro r hr; rw [List.mem_singleton] at hr; subst hr; rfl)
     (by decide)
     (by
       intro r hr
       simp only [List.mem_cons, List.not_mem_nil, or_false] at hr
       rcases hr with rfl | rfl
       · exact Or.inr ⟨7, rfl⟩
       · exact Or.inr ⟨7, rfl⟩)
     (by decide) (by decide) (by decide) rfl (by decide)
     [Val.intV 7, Val.strV "PU7", Val.null, Val.intV 150] (by decide) 7 rfl⟩

/-! ### Decimal rendering of integers (`str(int(v))`) -/

theorem digitChar_facts (d : Nat) (h : d < 10) :
    isDigitCh (digitChar d) = true ∧ digitChar d ≠ '-' ∧ digitChar d ≠ ',' ∧
    digitChar d ≠ '\x27' ∧ digitChar d ≠ ' ' ∧ digitChar d ≠ ';' ∧
    digitChar d ≠ ')' ∧ digitChar d ≠ '(' ∧ isNl (digitChar d) = false ∧
    (digitChar d).isWhitespace = false ∧ (digitChar d).toUpper = digitChar d ∧
    (digitChar d).toNat = 48 + d ∧ digitChar d ≠ 'N' := by
  interval_cases d <;> exact (by decide)

theorem natToDigitsF_mem : ∀ (fuel n : Nat) (c : Char),
    c ∈ natToDigitsF fuel n → ∃ d, d < 10 ∧ c = digitChar d := by
  intro fuel
  induction fuel with
  | zero => intro n c h; cases h
  | succ f ih =>
    intro n c h
    unfold natToDigitsF at h
    split at h
    · rename_i hn
      rw [List.mem_singleton] at h
      exact ⟨n, hn, h⟩
    · rcases List.mem_append.mp h with h1 | h1
      · exact ih _ c h1
      · rw [List.mem_singleton] at h1
        exact ⟨n % 10, Nat.mod_lt _ (by omega), h1⟩

theorem natToDigitsF_ne_nil (f n : Nat) : natToDigitsF (f + 1) n ≠ [] := by
  unfold natToDigitsF
  split
  · simp
  · simp

theorem digitsToNat_append (a : List Char) (c : Char) :
    digitsToNat (a ++ [c]) = 10 * digitsToNat a + (c.toNat - 48) := by
  unfold digitsToNat
  rw [List.foldl_append]
  simp [Nat.mul_comm]

theorem natToDigitsF_roundtrip : ∀ (fuel n : Nat), n < fuel →
    digitsToNat (natToDigitsF fuel n) = n := by
  intro fuel
  induction fuel with
  | zero => intro n h; omega
  | succ f ih =>
    intro n h
    unfold natToDigitsF
    split
    · rename_i hn
      show digitsToNat ([] ++ [digitChar n]) = n
      rw [digitsToNat_append, (digitChar_facts n hn).2.2.2.2.2.2.2.2.2.2.2.1]
      show 10 * digitsToNat [] + (48 + n - 48) = n
      unfold digitsToNat
      simp
    · rename_i hn
      rw [digitsToNat_append, ih (n / 10) (by omega),
        (digitChar_facts (n % 10) (Nat.mod_lt _ (by omega))).2.2.2.2.2.2.2.2.2.2.2.1]
      omega

theorem dropWhile_eq_self_of {p : Char → Bool} :
    ∀ l : List Char, (∀ c ∈ l, p c = false) → l.dropWhile p = l := by
  intro l h
  cases l with
  | nil => rfl
  | cons c cs => simp [List.dropWhile, h c (by simp)]

theorem pyStrip_eq_self (s : String)
    (h : ∀ c ∈ s.toList, c.isWhitespace = false) : pyStrip s = s := by
  unfold pyStrip
  rw [dropWhile_eq_self_of _ h, dropWhile_eq_self_of, List.reverse_reverse]
  · rfl
  · intro c hc
    exact h c (by simpa using hc)

theorem map_id_of {α} (f : α → α) :
    ∀ l : List α, (∀ a ∈ l, f a = a) → l.map f = l := by
  intro l
  induction l with
  | nil => intro _; rfl
  | cons a t ih =>
    intro h
    rw [List.map_cons, h a (by simp), ih (fun b hb => h b (by simp [hb]))]

theorem intTok_not_dash (c : Char) (t : List Char) (hc : c ≠ '-') :
    intTok (c :: t) = (!(c :: t).isEmpty && (c :: t).all isDigitCh) := by
  unfold intTok
  split
  · rename_i heq
    injection heq with h1 h2
    exact absurd h1 hc
  · rfl

theorem parseIntTok_not_dash (c : Char) (t : List Char) (hc : c ≠ '-') :
    parseIntTok (c :: t) = (digitsToNat (c :: t) : Int) := by
  unfold parseIntTok
  split
  · rename_i heq
    injection heq with h1 h2
    exact absurd h1 hc
  · rfl

theorem convert_pyIntStr (n : Int) : convertSqlValue (pyIntStr n) = Val.intV n := by
  cases n with
  | ofNat m =>
    have hne := natToDigitsF_ne_nil m m
    have hdig : ∀ c ∈ natToDigitsF (m + 1) m, isDigitCh c = true := by
      intro c hc
      obtain ⟨d, hd, rfl⟩ := natToDigitsF_mem (m + 1) m c hc
      exact (digitChar_facts d hd).1
    have hws : ∀ c ∈ natToDigitsF (m + 1) m, c.isWhitespace = false := by
      intro c hc
      obtain ⟨d, hd, rfl⟩ := natToDigitsF_mem (m + 1) m c hc
      exact (digitChar_facts d hd).2.2.2.2.2.2.2.2.2.1
    have hstrip : pyStrip (String.mk (natToDigitsF (m + 1) m)) =
        String.mk (natToDigitsF (m + 1) m) := pyStrip_eq_self _ hws
    have hupper : pyUpper (String.mk (natToDigitsF (m + 1) m)) =
        String.mk (natToDigitsF (m + 1) m) := by
      unfold pyUpper
      rw [map_id_of _ _ (by
        intro c hc
        obtain ⟨d, hd, rfl⟩ := natToDigitsF_mem (m + 1) m c (by simpa using hc)
        exact (digitChar_facts d hd).2.2.2.2.2.2.2.2.2.2.1)]
      rfl
    have hcond : ¬(pyUpper (String.mk (natToDigitsF (m + 1) m)) = "NULL" ∨
        String.mk (natToDigitsF (m + 1) m) = "") := by
      rintro (h1 | h1)
      · rw [hupper] at h1
        have hl : natToDigitsF (m + 1) m = "NULL".toList := by
          have := congrArg String.toList h1
          simpa using this
        have hN : 'N' ∈ natToDigitsF (m + 1) m := by rw [hl]; decide
        obtain ⟨d, hd, he⟩ := natToDigitsF_mem (m + 1) m 'N' hN
        exact (digitChar_facts d hd).2.2.2.2.2.2.2.2.2.2.2.2 he.symm
      · have := congrArg String.toList h1
        simp at this
        exact hne this
    have hint : intTok (pyStrip (String.mk (natToDigitsF (m + 1) m))).toList = true := by
      rw [hstrip]
      show intTok (natToDigitsF (m + 1) m) = true
      cases hl : natToDigitsF (m + 1) m with
      | nil => exact absurd hl hne
      | cons c t =>
        obtain ⟨d, hd, rfl⟩ := natToDigitsF_mem (m + 1) m c (by rw [hl]; simp)
        rw [intTok_not_dash _ _ (digitChar_facts d hd).2.1]
        have : ∀ x ∈ digitChar d :: t, isDigitCh x = true := by
          rw [← hl]
          exact hdig
        simp [List.all_eq_true.mpr this]
    show convertSqlValue (String.mk (natToDigitsF (m + 1) m)) = Val.intV (Int.ofNat m)
    unfold convertSqlValue
    rw [if_neg (by rw [hstrip]; exact hcond), if_pos hint, hstrip]
    show Val.intV (parseIntTok (natToDigitsF (m + 1) m)) = Val.intV (Int.ofNat m)
    cases hl : natToDigitsF (m + 1) m with
    | nil => exact absurd hl hne
    | cons c t =>
      obtain ⟨d, hd, he⟩ := natToDigitsF_mem (m + 1) m c (by rw [hl]; simp)
      subst he
      rw [parseIntTok_not_dash _ _ (digitChar_facts d hd).2.1, ← hl,
        natToDigitsF_roundtrip (m + 1) m (by omega)]
      rfl
  | negSucc m =>
    have hne := natToDigitsF_ne_nil (m + 1) (m + 1)
    have hws : ∀ c ∈ '-' :: natToDigitsF (m + 2) (m + 1), c.isWhitespace = false := by
      intro c hc
      rcases List.mem_cons.mp hc with rfl | hc2
      · decide
      · obtain ⟨d, hd, rfl⟩ := natToDigitsF_mem (m + 2) (m + 1) c hc2
        exact (digitChar_facts d hd).2.2.2.2.2.2.2.2.2.1
    have hstrip : pyStrip (String.mk ('-' :: natToDigitsF (m + 2) (m + 1))) =
        String.mk ('-' :: natToDigitsF (m + 2) (m + 1)) := pyStrip_eq_self _ hws
    have hupper : pyUpper (String.mk ('-' :: natToDigitsF (m + 2) (m + 1))) =
        String.mk ('-' :: natToDigitsF (m + 2) (m + 1)) := by
      unfold pyUpper
      rw [map_id_of _ _ (by
        intro c hc
        rcases List.mem_cons.mp (by simpa using hc) with rfl | hc2
        · decide
        · obtain ⟨d, hd, rfl⟩ := natToDigitsF_mem (m + 2) (m + 1) c hc2
          exact (digitChar_facts d hd).2.2.2.2.2.2.2.2.2.2.1)]
      rfl
    have hcond : ¬(pyUpper (String.mk ('-' :: natToDigitsF (m + 2) (m + 1))) = "NULL" ∨
        String.mk ('-' :: natToDigitsF (m + 2) (m + 1)) = "") := by
      rintro (h1 | h1)
      · rw [hupper] at h1
        have hl : '-' :: natToDigitsF (m + 2) (m + 1) = "NULL".toList := by
          have := congrArg String.toList h1
          simpa using this
        have : '-' = 'N' := by
          have := congrArg (fun l => l.head?) hl
          simpa using this
        cases this
      · have := congrArg String.toList h1
        simp at this
    have hint : intTok (pyStrip (String.mk ('-' :: natToDigitsF (m + 2) (m + 1)))).toList =
        true := by
      rw [hstrip]
      show intTok ('-' :: natToDigitsF (m + 2) (m + 1)) = true
      show (!(natToDigitsF (m + 2) (m + 1)).isEmpty &&
        (natToDigitsF (m + 2) (m + 1)).all isDigitCh) = true
      have hdig : ∀ x ∈ natToDigitsF (m + 2) (m + 1), isDigitCh x = true := by
        intro x hx
        obtain ⟨d, hd, rfl⟩ := natToDigitsF_mem (m + 2) (m + 1) x hx
        exact (digitChar_facts d hd).1
      simp [List.all_eq_true.mpr hdig, hne]
    show convertSqlValue (String.mk ('-' :: natToDigitsF (m + 2) (m + 1))) =
      Val.intV (Int.negSucc m)
    unfold convertSqlValue
    rw [if_neg (by rw [hstrip]; exact hcond), if_pos hint, hstrip]
    show Val.intV (parseIntTok ('-' :: natToDigitsF (m + 2) (m + 1))) =
      Val.intV (Int.negSucc m)
    show Val.intV (-(digitsToNat (natToDigitsF (m + 2) (m + 1)) : Int)) =
      Val.intV (Int.negSucc m)
    rw [natToDigitsF_roundtrip (m + 2) (m + 1) (by omega)]
    have : -((m + 1 : Nat) : Int) = Int.negSucc m := by
      rw [Int.negSucc_eq]
      push_cast
      ring
    rw [this]

/-! ### Round-trip toolbox: safe values and the csv run over a
formatted tuple -/

def safeStrCh (c : Char) : Bool :=
  !(c = '\x27' || c = ';' || c = ',' || c = '(' || c = ')' || c = '\x60' ||
    c = '\\' || isNl c || c.isWhitespace)

/-- A value the formatter serialises losslessly: null, an integer, or a
nonempty string of safe characters that none of the coercion patterns
capture. -/
def goodVal (v : Val) : Prop :=
  v = Val.null ∨ (∃ n : Int, v = Val.intV n) ∨
    ∃ s : String, v = Val.strV s ∧ s.toList ≠ [] ∧
      (∀ c ∈ s.toList, safeStrCh c = true) ∧
      intTok s.toList = false ∧ decTok s.toList = false ∧ pyUpper s ≠ "NULL"

/-- The csv field produced for a formatted value. -/
def fieldStr : Val → String
  | .null => "NULL"
  | .intV n => pyIntStr n
  | .decV q => pyIntStr (truncDecTok q.toList)
  | .strV s => s

theorem safeStrCh_facts (c : Char) (h : safeStrCh c = true) :
    c ≠ '\x27' ∧ c ≠ ';' ∧ c ≠ ',' ∧ c ≠ '(' ∧ c ≠ ')' ∧ c ≠ '\x60' ∧
    c ≠ '\\' ∧ isNl c = false ∧ c.isWhitespace = false := by
  unfold safeStrCh at h
  simp only [Bool.not_eq_true', Bool.or_eq_false_iff, decide_eq_false_iff_not] at h
  tauto

theorem escQuotes_eq_self : ∀ l : List Char, (∀ c ∈ l, c ≠ '\x27') →
    escQuotes l = l := by
  intro l
  induction l with
  | nil => intro _; rfl
  | cons c t ih =>
    intro h
    unfold escQuotes
    rw [if_neg (h c (by simp)), ih (fun x hx => h x (by simp [hx]))]

theorem convert_safe_str (s : String) (hne : s.toList ≠ [])
    (hsafe : ∀ c ∈ s.toList, safeStrCh c = true)
    (hint : intTok s.toList = false) (hdec : decTok s.toList = false)
    (hnull : pyUpper s ≠ "NULL") :
    convertSqlValue s = Val.strV s := by
  have hstrip : pyStrip s = s :=
    pyStrip_eq_self s (fun c hc => (safeStrCh_facts c (hsafe c hc)).2.2.2.2.2.2.2.2)
  unfold convertSqlValue
  rw [if_neg, hstrip, if_neg (by simp [hstrip]; exact hint), if_neg (by simp [hstrip]; exact hdec)]
  rw [hstrip]
  rintro (h1 | h1)
  · exact hnull h1
  · rw [h1] at hne
    exact hne rfl

theorem conv_fieldStr (v : Val) (hv : goodVal v) :
    convertSqlValue (fieldStr v) = v := by
  rcases hv with rfl | ⟨n, rfl⟩ | ⟨q, rfl, hne, hsafe, hint, hdec, hnull⟩
  · decide
  · exact convert_pyIntStr n
  · exact convert_safe_str q hne hsafe hint hdec hnull

theorem pyIntStr_toList_ne_nil (n : Int) : (pyIntStr n).toList ≠ [] := by
  cases n with
  | ofNat m => exact natToDigitsF_ne_nil m m
  | negSucc m => simp [pyIntStr]

theorem pyIntStr_plain (n : Int) : ∀ c ∈ (pyIntStr n).toList,
    c ≠ ',' ∧ c ≠ '\x27' ∧ c ≠ ' ' ∧ isNl c = false := by
  intro c hc
  cases n with
  | ofNat m =>
    obtain ⟨d, hd, rfl⟩ := natToDigitsF_mem (m + 1) m c hc
    have hf := digitChar_facts d hd
    exact ⟨hf.2.2.1, hf.2.2.2.1, hf.2.2.2.2.1, hf.2.2.2.2.2.2.2.2.1⟩
  | negSucc m =>
    rcases List.mem_cons.mp hc with rfl | hc2
    · exact ⟨by decide, by decide, by decide, by decide⟩
    · obtain ⟨d, hd, rfl⟩ := natToDigitsF_mem (m + 2) (m + 1) c hc2
      have hf := digitChar_facts d hd
      exact ⟨hf.2.2.1, hf.2.2.2.1, hf.2.2.2.2.1, hf.2.2.2.2.2.2.2.2.1⟩

/-! csv single steps -/

theorem csvRun_nil (st : CsvSt) (fld : List Char) (acc : List String) :
    csvRun [] st fld acc = some (acc ++ [String.mk fld]) := rfl

theorem csvRun_start_plain (c : Char) (rest fld : List Char) (acc : List String)
    (h1 : c ≠ ',') (h2 : c ≠ '\x27') (h3 : c ≠ ' ') (h4 : isNl c = false) :
    csvRun (c :: rest) .startField fld acc =
      csvRun rest .inField (fld ++ [c]) acc := by
  simp only [csvRun]
  rw [if_neg h1, if_neg h2, if_neg h3, if_neg (by simp [h4])]

theorem csvRun_start_quote (rest : List Char) (fld : List Char) (acc : List String) :
    csvRun ('\x27' :: rest) .startField fld acc = csvRun rest .inQuoted fld acc := by
  simp [csvRun]

theorem csvRun_start_space (rest : List Char) (fld : List Char) (acc : List String) :
    csvRun (' ' :: rest) .startField fld acc = csvRun rest .startField fld acc := by
  simp [csvRun]

theorem csvRun_inField_comma (rest : List Char) (fld : List Char) (acc : List String) :
    csvRun (',' :: rest) .inField fld acc =
      csvRun rest .startField [] (acc ++ [String.mk fld]) := by
  simp [csvRun]

theorem csvRun_inQuoted_quote (rest : List Char) (fld : List Char) (acc : List String) :
    csvRun ('\x27' :: rest) .inQuoted fld acc =
      csvRun rest .quoteInQuoted fld acc := by
  simp [csvRun]

theorem csvRun_qiq_comma (rest : List Char) (fld : List Char) (acc : List String) :
    csvRun (',' :: rest) .quoteInQuoted fld acc =
      csvRun rest .startField [] (acc ++ [String.mk fld]) := by
  simp [csvRun]

theorem csvRun_inField_consume : ∀ (tok rest fld : List Char) (acc : List String),
    (∀ c ∈ tok, c ≠ ',' ∧ isNl c = false) →
    csvRun (tok ++ rest) .inField fld acc = csvRun rest .inField (fld ++ tok) acc := by
  intro tok
  induction tok with
  | nil => intro rest fld acc _; simp
  | cons c t ih =>
    intro rest fld acc h
    obtain ⟨hc, hnl⟩ := h c (by simp)
    show csvRun (c :: (t ++ rest)) .inField fld acc = _
    simp only [csvRun]
    rw [if_neg hc, if_neg (by simp [hnl]),
      ih rest (fld ++ [c]) acc (fun x hx => h x (by simp [hx]))]
    simp

theorem csvRun_quoted_consume : ∀ (s rest fld : List Char) (acc : List String),
    (∀ c ∈ s, c ≠ '\x27') →
    csvRun (s ++ rest) .inQuoted fld acc = csvRun rest .inQuoted (fld ++ s) acc := by
  intro s
  induction s with
  | nil => intro rest fld acc _; simp
  | cons c t ih =>
    intro rest fld acc h
    show csvRun (c :: (t ++ rest)) .inQuoted fld acc = _
    simp only [csvRun]
    rw [if_neg (h c (by simp)),
      ih rest (fld ++ [c]) acc (fun x hx => h x (by simp [hx]))]
    simp

theorem csvRun_inField_end : ∀ (tok fld : List Char) (acc : List String),
    (∀ c ∈ tok, c ≠ ',' ∧ isNl c = false) →
    csvRun tok .inField fld acc = some (acc ++ [String.mk (fld ++ tok)]) := by
  intro tok
  induction tok with
  | nil => intro fld acc _; simp [csvRun_nil]
  | cons c t ih =>
    intro fld acc h
    obtain ⟨hc, hnl⟩ := h c (by simp)
    simp only [csvRun]
    rw [if_neg hc, if_neg (by simp [hnl]),
      ih (fld ++ [c]) acc (fun x hx => h x (by simp [hx]))]
    simp

theorem csvRun_plaintok_end (l : List Char) (acc : List String) (hne : l ≠ [])
    (h : ∀ c ∈ l, c ≠ ',' ∧ c ≠ '\x27' ∧ c ≠ ' ' ∧ isNl c = false) :
    csvRun l .startField [] acc = some (acc ++ [String.mk l]) := by
  cases l with
  | nil => exact absurd rfl hne
  | cons c0 t =>
    obtain ⟨h1, h2, h3, h4⟩ := h c0 (by simp)
    rw [csvRun_start_plain c0 t [] acc h1 h2 h3 h4,
      csvRun_inField_end t ([] ++ [c0]) acc
        (fun x hx => ⟨(h x (by simp [hx])).1, (h x (by simp [hx])).2.2.2⟩)]
    rfl

theorem csvRun_plaintok_sep (l rest : List Char) (acc : List String) (hne : l ≠ [])
    (h : ∀ c ∈ l, c ≠ ',' ∧ c ≠ '\x27' ∧ c ≠ ' ' ∧ isNl c = false) :
    csvRun (l ++ ',' :: ' ' :: rest) .startField [] acc =
      csvRun rest .startField [] (acc ++ [String.mk l]) := by
  cases l with
  | nil => exact absurd rfl hne
  | cons c0 t =>
    obtain ⟨h1, h2, h3, h4⟩ := h c0 (by simp)
    show csvRun (c0 :: (t ++ ',' :: ' ' :: rest)) .startField [] acc = _
    rw [csvRun_start_plain c0 _ [] acc h1 h2 h3 h4,
      csvRun_inField_consume t (',' :: ' ' :: rest) ([] ++ [c0]) acc
        (fun x hx => ⟨(h x (by simp [hx])).1, (h x (by simp [hx])).2.2.2⟩),
      csvRun_inField_comma, csvRun_start_space]
    rfl

theorem csvRun_quotedtok_end (sl : List Char) (acc : List String)
    (h : ∀ c ∈ sl, c ≠ '\x27') :
    csvRun ('\x27' :: (sl ++ ['\x27'])) .startField [] acc =
      some (acc ++ [String.mk sl]) := by
  rw [csvRun_start_quote, csvRun_quoted_consume sl ['\x27'] [] acc h,
    csvRun_inQuoted_quote, csvRun_nil]
  rfl

theorem csvRun_quotedtok_sep (sl rest : List Char) (acc : List String)
    (h : ∀ c ∈ sl, c ≠ '\x27') :
    csvRun (('\x27' :: (sl ++ ['\x27'])) ++ ',' :: ' ' :: rest) .startField [] acc =
      csvRun rest .startField [] (acc ++ [String.mk sl]) := by
  show csvRun ('\x27' :: ((sl ++ ['\x27']) ++ ',' :: ' ' :: rest)) .startField [] acc = _
  rw [csvRun_start_quote, List.append_assoc,
    csvRun_quoted_consume sl _ [] acc h]
  show csvRun ('\x27' :: ',' :: ' ' :: rest) .inQuoted ([] ++ sl) acc = _
  rw [csvRun_inQuoted_quote, csvRun_qiq_comma, csvRun_start_space]
  rfl

theorem csvRun_tok_end (v : Val) (acc : List String) (hv : goodVal v) :
    csvRun (formatVal v).toList .startField [] acc = some (acc ++ [fieldStr v]) := by
  rcases hv with rfl | ⟨n, rfl⟩ | ⟨q, rfl, hne, hsafe, _, _, _⟩
  · exact csvRun_plaintok_end ['N', 'U', 'L', 'L'] acc (by decide) (by decide)
  · exact csvRun_plaintok_end (pyIntStr n).toList acc (pyIntStr_toList_ne_nil n)
      (pyIntStr_plain n)
  · have hesc : escQuotes q.toList = q.toList :=
      escQuotes_eq_self _ (fun c hc => (safeStrCh_facts c (hsafe c hc)).1)
    show csvRun ('\x27' :: (escQuotes q.toList ++ ['\x27'])) .startField [] acc =
      some (acc ++ [q])
    rw [hesc, csvRun_quotedtok_end q.toList acc
      (fun c hc => (safeStrCh_facts c (hsafe c hc)).1)]
    rfl

theorem csvRun_tok_sep (v : Val) (acc : List String) (rest : List Char)
    (hv : goodVal v) :
    csvRun ((formatVal v).toList ++ ',' :: ' ' :: rest) .startField [] acc =
      csvRun rest .startField [] (acc ++ [fieldStr v]) := by
  rcases hv with rfl | ⟨n, rfl⟩ | ⟨q, rfl, hne, hsafe, _, _, _⟩
  · exact csvRun_plaintok_sep ['N', 'U', 'L', 'L'] rest acc (by decide) (by decide)
  · exact csvRun_plaintok_sep (pyIntStr n).toList rest acc (pyIntStr_toList_ne_nil n)
      (pyIntStr_plain n)
  · have hesc : escQuotes q.toList = q.toList :=
      escQuotes_eq_self _ (fun c hc => (safeStrCh_facts c (hsafe c hc)).1)
    show csvRun (('\x27' :: (escQuotes q.toList ++ ['\x27'])) ++ ',' :: ' ' :: rest)
      .startField [] acc = _
    rw [hesc, csvRun_quotedtok_sep q.toList rest acc
      (fun c hc => (safeStrCh_facts c (hsafe c hc)).1)]
    rfl

theorem joinSep_cons2_toList (a b : String) (l : List String) :
    (joinSep ", " (a :: b :: l)).toList =
      a.toList ++ (',' :: ' ' :: (joinSep ", " (b :: l)).toList) := by
  show (a.data ++ [',', ' ']) ++ (joinSep ", " (b :: l)).data =
    a.data ++ (',' :: ' ' :: (joinSep ", " (b :: l)).data)
  rw [List.append_assoc]
  rfl

theorem csvRun_joined : ∀ (vs : List Val) (acc : List String), vs ≠ [] →
    (∀ v ∈ vs, goodVal v) →
    csvRun (joinSep ", " (vs.map formatVal)).toList .startField [] acc =
      some (acc ++ vs.map fieldStr) := by
  intro vs
  induction vs with
  | nil => intro acc h _; exact absurd rfl h
  | cons v t ih =>
    intro acc _ hgood
    cases t with
    | nil =>
      show csvRun (formatVal v).toList .startField [] acc = some (acc ++ [fieldStr v])
      exact csvRun_tok_end v acc (hgood v (by simp))
    | cons v2 t2 =>
      simp only [List.map_cons]
      rw [joinSep_cons2_toList, csvRun_tok_sep v acc _ (hgood v (by simp))]
      have hih := ih (acc ++ [fieldStr v]) (by simp)
        (fun x hx => hgood x (by simp [hx]))
      simp only [List.map_cons] at hih
      rw [hih]
      simp

theorem formatVal_head (v : Val) (hv : goodVal v) :
    ∃ c0 t0, (formatVal v).toList = c0 :: t0 ∧ isNl c0 = false := by
  rcases hv with rfl | ⟨n, rfl⟩ | ⟨q, rfl, _, _, _⟩
  · exact ⟨'N', ['U', 'L', 'L'], rfl, by decide⟩
  · cases n with
    | ofNat m =>
      cases hl : natToDigitsF (m + 1) m with
      | nil => exact absurd hl (natToDigitsF_ne_nil m m)
      | cons c t =>
        obtain ⟨d, hd, rfl⟩ := natToDigitsF_mem (m + 1) m c (by rw [hl]; simp)
        exact ⟨digitChar d, t, hl, (digitChar_facts d hd).2.2.2.2.2.2.2.2.1⟩
    | negSucc m =>
      exact ⟨'-', natToDigitsF (m + 2) (m + 1), rfl, by decide⟩
  · exact ⟨'\x27', escQuotes q.toList ++ ['\x27'], rfl, by decide⟩

theorem csvSplit_eq_run (c0 : Char) (t0 : List Char) (hnl : isNl c0 = false) :
    csvSplit (String.mk (c0 :: t0)) = csvRun (c0 :: t0) .startField [] [] := by
  show (if isNl c0 = true then (if nlTail t0 = true then some [] else none)
    else csvRun (c0 :: t0) .startField [] []) = _
  rw [if_neg (by simp [hnl])]

theorem csvSplit_joined (vs : List Val) (hne : vs ≠ [])
    (hgood : ∀ v ∈ vs, goodVal v) :
    csvSplit (String.mk (joinSep ", " (vs.map formatVal)).toList) =
      some (vs.map fieldStr) := by
  cases vs with
  | nil => exact absurd rfl hne
  | cons v t =>
    obtain ⟨c0, t0, htok, hnl⟩ := formatVal_head v (hgood v (by simp))
    cases t with
    | nil =>
      have hJ : (joinSep ", " ((v :: ([] : List Val)).map formatVal)).toList =
          c0 :: t0 := htok
      rw [hJ, csvSplit_eq_run _ _ hnl, ← hJ,
        csvRun_joined [v] [] (by simp) hgood]
      simp
    | cons v2 t2 =>
      have hJ : (joinSep ", " ((v :: v2 :: t2).map formatVal)).toList =
          c0 :: (t0 ++ (',' :: ' ' ::
            (joinSep ", " ((v2 :: t2).map formatVal)).toList)) := by
        simp only [List.map_cons]
        rw [joinSep_cons2_toList]
        rw [htok]
        rfl
      rw [hJ, csvSplit_eq_run _ _ hnl, ← hJ,
        csvRun_joined (v :: v2 :: t2) [] (by simp) hgood]
      simp

/-! ### The formatted statement through the block scanner -/

/-- The fixed text of the appended statement up to the value tuple. -/
def puInsertPrefix : String :=
  "INSERT INTO \x60polling_unit\x60 (\x60uniqueid\x60,\x60polling_unit_id\x60,\x60ward_id\x60,\x60lga_id\x60,\x60uniquewardid\x60,\x60polling_unit_number\x60,\x60polling_unit_name\x60,\x60polling_unit_description\x60,\x60lat\x60,\x60long\x60,\x60entered_by_user\x60,\x60date_entered\x60,\x60user_ip_address\x60) VALUES ("

/-- The raw column section of the appended statement (between the
parentheses). -/
def puColsRaw : String :=
  "\x60uniqueid\x60,\x60polling_unit_id\x60,\x60ward_id\x60,\x60lga_id\x60,\x60uniquewardid\x60,\x60polling_unit_number\x60,\x60polling_unit_name\x60,\x60polling_unit_description\x60,\x60lat\x60,\x60long\x60,\x60entered_by_user\x60,\x60date_entered\x60,\x60user_ip_address\x60"

theorem splitAtCh_append (ch : Char) : ∀ (a b : List Char), (∀ c ∈ a, c ≠ ch) →
    splitAtCh ch (a ++ ch :: b) = some (a, b) := by
  intro a
  induction a with
  | nil =>
    intro b _
    show splitAtCh ch (ch :: b) = _
    simp [splitAtCh]
  | cons c t ih =>
    intro b h
    show splitAtCh ch (c :: (t ++ ch :: b)) = _
    simp only [splitAtCh]
    rw [if_neg (h c (by simp)), ih b (fun x hx => h x (by simp [hx]))]
    rfl

theorem opt_bind_some {α β : Type} (a : α) (f : α → Option β) :
    (do let x ← some a; f x : Option β) = f a := rfl

set_option maxRecDepth 8000 in
theorem matchInsert_stmt (J : List Char) (hJ : ∀ c ∈ J, c ≠ ';') :
    matchInsertAt ("polling_unit".toList)
      (puInsertPrefix.toList ++ (J ++ [')', ';', '\n'])) =
      some (puColsRaw.toList, '(' :: (J ++ [')']), ['\n']) := by
  have h1 : splitAtCh ';' ((J ++ [')']) ++ (';' :: ['\n'])) =
      some (J ++ [')'], ['\n']) :=
    splitAtCh_append ';' (J ++ [')']) ['\n'] (by
      intro c hc
      rcases List.mem_append.mp hc with h | h
      · exact hJ c h
      · simp at h
        subst h
        decide)
  have h1b : splitAtCh ';' (J ++ [')', ';', '\n']) = some (J ++ [')'], ['\n']) := by
    rw [← h1]
    congr 1
    simp
  have h2 : splitAtCh ';' ('(' :: (J ++ [')', ';', '\n'])) =
      some ('(' :: (J ++ [')']), ['\n']) := by
    simp only [splitAtCh]
    rw [if_neg (by decide), h1b]
    rfl
  have hred : matchInsertAt ("polling_unit".toList)
      (puInsertPrefix.toList ++ (J ++ [')', ';', '\n'])) =
      (do
        let p ← splitAtCh ';' ('(' :: (J ++ [')', ';', '\n']))
        pure (puColsRaw.toList, p.1, p.2) :
          Option (List Char × List Char × List Char)) := rfl
  rw [hred, h2, opt_bind_some]
  rfl

theorem scanBlocksF_pos (tbl : List Char) (n : Nat) (c : Char) (cs : List Char)
    (cr vr rest : List Char) (hn : 0 < n)
    (h : matchInsertAt tbl (c :: cs) = some (cr, vr, rest)) :
    scanBlocksF tbl n (c :: cs) = (cr, vr) :: scanBlocksF tbl (n - 1) rest := by
  cases n with
  | zero => omega
  | succ k =>
    simp only [scanBlocksF, h, Nat.succ_sub_one]

theorem scanBlocksF_nl : ∀ m : Nat, scanBlocksF ("polling_unit".toList) m ['\n'] = [] := by
  intro m
  cases m with
  | zero => rfl
  | succ k =>
    rw [show scanBlocksF ("polling_unit".toList) (k + 1) ['\n'] =
        scanBlocksF ("polling_unit".toList) k [] from by
      simp only [scanBlocksF,
        show matchInsertAt ("polling_unit".toList) ['\n'] = none from rfl]]
    cases k with
    | zero => rfl
    | succ k2 => rfl

theorem scanBlocks_stmt (J : List Char) (hJ : ∀ c ∈ J, c ≠ ';') :
    scanBlocks ("polling_unit".toList)
      (puInsertPrefix.toList ++ (J ++ [')', ';', '\n'])) =
      [(puColsRaw.toList, '(' :: (J ++ [')']))] := by
  show scanBlocksF _ ((puInsertPrefix.toList ++ (J ++ [')', ';', '\n'])).length) _ = _
  cases hL : puInsertPrefix.toList ++ (J ++ [')', ';', '\n']) with
  | nil =>
    rcases List.append_eq_nil.mp hL with ⟨h1, _⟩
    exact absurd h1 (by decide)
  | cons c cs =>
    have hmatch : matchInsertAt ("polling_unit".toList) (c :: cs) =
        some (puColsRaw.toList, '(' :: (J ++ [')']), ['
']) := by
      rw [← hL]
      exact matchInsert_stmt J hJ
    rw [scanBlocksF_pos _ _ c cs _ _ _ (by simp) hmatch]
    rw [show (c :: cs).length - 1 = cs.length from by simp, scanBlocksF_nl]

theorem findTuples_single (J : List Char) (hJ : ∀ c ∈ J, c ≠ ')') :
    findTuples ('(' :: (J ++ [')'])) = [J] := by
  have hsp : splitAtCh ')' (J ++ [')']) = some (J, []) := splitAtCh_append ')' J [] hJ
  show findTuplesF (('(' :: (J ++ [')'])).length) ('(' :: (J ++ [')'])) = [J]
  rw [show ('(' :: (J ++ [')'])).length = (J.length + 1) + 1 from by simp]
  simp only [findTuplesF]
  rw [hsp]
  simp [findTuplesF]

theorem formatVal_chars (v : Val) (hv : goodVal v) :
    ∀ c ∈ (formatVal v).toList, c ≠ ';' ∧ c ≠ ')' := by
  rcases hv with rfl | ⟨n, rfl⟩ | ⟨q, rfl, _, hsafe, _, _, _⟩
  · decide
  · intro c hc
    cases n with
    | ofNat m =>
      obtain ⟨d, hd, rfl⟩ := natToDigitsF_mem (m + 1) m c hc
      have hf := digitChar_facts d hd
      exact ⟨hf.2.2.2.2.2.1, hf.2.2.2.2.2.2.1⟩
    | negSucc m =>
      rcases List.mem_cons.mp hc with rfl | hc2
      · exact ⟨by decide, by decide⟩
      · obtain ⟨d, hd, rfl⟩ := natToDigitsF_mem (m + 2) (m + 1) c hc2
        have hf := digitChar_facts d hd
        exact ⟨hf.2.2.2.2.2.1, hf.2.2.2.2.2.2.1⟩
  · intro c hc
    have hesc : escQuotes q.toList = q.toList :=
      escQuotes_eq_self _ (fun x hx => (safeStrCh_facts x (hsafe x hx)).1)
    have hc2 : c ∈ '\x27' :: (escQuotes q.toList ++ ['\x27']) := hc
    rw [hesc] at hc2
    rcases List.mem_cons.mp hc2 with rfl | hc3
    · exact ⟨by decide, by decide⟩
    · rcases List.mem_append.mp hc3 with h4 | h4
      · have hf := safeStrCh_facts c (hsafe c h4)
        exact ⟨hf.2.1, hf.2.2.2.2.1⟩
      · simp at h4
        subst h4
        exact ⟨by decide, by decide⟩

theorem joined_chars : ∀ (vs : List Val), (∀ v ∈ vs, goodVal v) →
    ∀ c ∈ (joinSep ", " (vs.map formatVal)).toList, c ≠ ';' ∧ c ≠ ')' := by
  intro vs
  induction vs with
  | nil =>
    intro _ c hc
    cases hc
  | cons v t ih =>
    intro hgood c hc
    cases t with
    | nil => exact formatVal_chars v (hgood v (by simp)) c hc
    | cons v2 t2 =>
      simp only [List.map_cons] at hc
      rw [joinSep_cons2_toList] at hc
      rcases List.mem_append.mp hc with h1 | h1
      · exact formatVal_chars v (hgood v (by simp)) c h1
      · rcases List.mem_cons.mp h1 with rfl | h2
        · exact ⟨by decide, by decide⟩
        · rcases List.mem_cons.mp h2 with rfl | h3
          · exact ⟨by decide, by decide⟩
          · have := ih (fun x hx => hgood x (by simp [hx])) c
            simp only [List.map_cons] at this
            exact this h3

theorem map_f_dictGet_zip (f : Val → String) :
    ∀ (cols : List String) (vals : List Val), cols.Nodup →
      vals.length = cols.length →
      cols.map (fun c => f ((dictGet (cols.zip vals) c).getD .null)) =
        vals.map f := by
  intro cols
  induction cols with
  | nil =>
    intro vals _ hlen
    have hv : vals = [] := List.length_eq_zero.mp (by simpa using hlen)
    subst hv
    rfl
  | cons c cs ih =>
    intro vals hnd hlen
    cases vals with
    | nil => simp at hlen
    | cons v vs =>
      simp only [List.zip_cons_cons, List.map_cons]
      have hcn : c ∉ cs := (List.nodup_cons.mp hnd).1
      congr 1
      · unfold dictGet
        rw [List.find?_cons_of_pos _ (by simp)]
        rfl
      · rw [List.map_congr_left (fun c2 hc2 => by
          show f ((dictGet ((c, v) :: cs.zip vs) c2).getD .null) =
            (fun c2 => f ((dictGet (cs.zip vs) c2).getD .null)) c2
          unfold dictGet
          rw [List.find?_cons_of_neg _ (by
            simp only [decide_eq_true_eq]
            exact fun he => hcn (he ▸ hc2))])]
        exact ih vs (List.nodup_cons.mp hnd).2 (by simpa using hlen)

set_option maxRecDepth 8000 in
theorem append_stmt_toList (r : Row) :
    (appendPollingUnitToSql r).toList =
      puInsertPrefix.toList ++
        ((joinSep ", " (puColOrder.map
          (fun c => formatVal ((dictGet r c).getD .null)))).toList ++
          [')', ';', '\n']) := rfl

/-! ### Claim C6 -/

/-- C6 (amended): the statement-formatter/extractor round-trip is exact
for a field mapping over the full fixed column order whose values are
null, integers, or nonempty strings of characters that the quoting, the
statement grammar and the csv dialect pass through verbatim and that no
coercion pattern captures: extraction returns exactly the original
mapping. -/
theorem c6_roundtrip_amended (vals : List Val)
    (hlen : vals.length = puColOrder.length)
    (hgood : ∀ v ∈ vals, goodVal v) :
    parseInsertBlocks (appendPollingUnitToSql (puColOrder.zip vals))
      "polling_unit" = some [puColOrder.zip vals] := by
  have hnodup : puColOrder.Nodup := by decide
  have hvne : vals ≠ [] := by
    intro h
    rw [h] at hlen
    simp [puColOrder] at hlen
  have hJmap : puColOrder.map
      (fun c => formatVal ((dictGet (puColOrder.zip vals) c).getD Val.null)) =
      vals.map formatVal :=
    map_f_dictGet_zip formatVal puColOrder vals hnodup hlen
  have hstmt : (appendPollingUnitToSql (puColOrder.zip vals)).toList =
      puInsertPrefix.toList ++
        ((joinSep ", " (vals.map formatVal)).toList ++ [')', ';', '\n']) := by
    rw [append_stmt_toList, hJmap]
  have hJ1 : ∀ c ∈ (joinSep ", " (vals.map formatVal)).toList, c ≠ ';' :=
    fun c hc => (joined_chars vals hgood c hc).1
  have hJ2 : ∀ c ∈ (joinSep ", " (vals.map formatVal)).toList, c ≠ ')' :=
    fun c hc => (joined_chars vals hgood c hc).2
  have hscan := scanBlocks_stmt _ hJ1
  have hT := findTuples_single _ hJ2
  have hcsv := csvSplit_joined vals hvne hgood
  have hcols : splitCols puColsRaw.toList = puColOrder := by decide
  have hconv : (vals.map fieldStr).map convertSqlValue = vals := by
    rw [List.map_map]
    exact map_id_of _ vals (fun v hv => conv_fieldStr v (hgood v hv))
  have hrow : rowFromTuple puColOrder vals = puColOrder.zip vals := by
    unfold rowFromTuple
    dsimp only
    rw [if_neg (by simp [hlen])]
    exact dictZip_eq_zip puColOrder vals hnodup
  have hpb : parseBlockRows (splitCols puColsRaw.toList)
      ('(' :: ((joinSep ", " (vals.map formatVal)).toList ++ [')'])) =
      some [puColOrder.zip vals] := by
    unfold parseBlockRows
    rw [hT, List.mapM_cons, List.mapM_nil, hcsv, hcols]
    simp [hconv, hrow]
  unfold parseInsertBlocks
  rw [hstmt, hscan, List.mapM_cons, List.mapM_nil]
  simp [hpb]
  exact hpb

set_option maxRecDepth 8000 in
/-- C6 (counterexample): a field mapping whose polling-unit name holds a
semicolon is not recovered: the lazy `(.*?);` capture of the extractor
stops at the semicolon inside the quoted value, the values section has
no closing parenthesis left, and extraction returns no row at all
instead of the original mapping. -/
theorem c6_roundtrip_counterexample :
    parseInsertBlocks
      (appendPollingUnitToSql [("polling_unit_name", Val.strV "a;b")])
      "polling_unit" = some [] := by
  rfl

/-- C6 (witness): a full thirteen-value mapping of nulls, integers
(negative included) and plain strings survives the
format-then-extract round trip unchanged. -/
theorem c6_roundtrip_amended_witness :
    ([Val.intV 7, Val.intV 1, Val.intV 2, Val.intV 3, Val.null,
      Val.strV "PU-007", Val.strV "Unit_7", Val.null, Val.intV (-5),
      Val.intV 6, Val.strV "tester", Val.null, Val.strV "127.0.0.1"] : List Val).length = puColOrder.length ∧
    (∀ v ∈ ([Val.intV 7, Val.intV 1, Val.intV 2, Val.intV 3, Val.null,
      Val.strV "PU-007", Val.strV "Unit_7", Val.null, Val.intV (-5),
      Val.intV 6, Val.strV "tester", Val.null, Val.strV "127.0.0.1"] : List Val), goodVal v) ∧
    parseInsertBlocks
      (appendPollingUnitToSql (puColOrder.zip ([Val.intV 7, Val.intV 1, Val.intV 2, Val.intV 3, Val.null,
      Val.strV "PU-007", Val.strV "Unit_7", Val.null, Val.intV (-5),
      Val.intV 6, Val.strV "tester", Val.null, Val.strV "127.0.0.1"] : List Val)))
      "polling_unit" = some [puColOrder.zip ([Val.intV 7, Val.intV 1, Val.intV 2, Val.intV 3, Val.null,
      Val.strV "PU-007", Val.strV "Unit_7", Val.null, Val.intV (-5),
      Val.intV 6, Val.strV "tester", Val.null, Val.strV "127.0.0.1"] : List Val)] := by
  have hgood : ∀ v ∈ ([Val.intV 7, Val.intV 1, Val.intV 2, Val.intV 3, Val.null,
      Val.strV "PU-007", Val.strV "Unit_7", Val.null, Val.intV (-5),
      Val.intV 6, Val.strV "tester", Val.null, Val.strV "127.0.0.1"] : List Val), goodVal v := by
    intro v hv
    simp only [List.mem_cons, List.not_mem_nil, or_false] at hv
    rcases hv with rfl | rfl | rfl | rfl | rfl | rfl | rfl | rfl | rfl | rfl | rfl | rfl | rfl
    · exact Or.inr (Or.inl ⟨7, rfl⟩)
    · exact Or.inr (Or.inl ⟨1, rfl⟩)
    · exact Or.inr (Or.inl ⟨2, rfl⟩)
    · exact Or.inr (Or.inl ⟨3, rfl⟩)
    · exact Or.inl rfl
    · exact Or.inr (Or.inr ⟨"PU-007", rfl, by decide, by decide, by decide,
        by decide, by decide⟩)
    · exact Or.inr (Or.inr ⟨"Unit_7", rfl, by decide, by decide, by decide,
        by decide, by decide⟩)
    · exact Or.inl rfl
    · exact Or.inr (Or.inl ⟨-5, rfl⟩)
    · exact Or.inr (Or.inl ⟨6, rfl⟩)
    · exact Or.inr (Or.inr ⟨"tester", rfl, by decide, by decide, by decide,
        by decide, by decide⟩)
    · exact Or.inl rfl
    · exact Or.inr (Or.inr ⟨"127.0.0.1", rfl, by decide, by decide, by decide,
        by decide, by decide⟩)
  exact ⟨by decide, hgood, c6_roundtrip_amended _ (by decide) hgood⟩

end Bincom
